import Mathlib

/-!
# Concept-map editor: graph store and reversible commands

A shallow embedding of the graph-data engine (`src/core/conceptmap.cpp`), of the
scene that mirrors it and handles the pointer (`src/graphics/graphicsscene.cpp`), of the
reversible commands (`src/commands/*.cpp`), of the table models (`src/models/*.cpp`), of the
edge geometry (`src/graphics/graphicsedge.cpp`) and of the deletion of the selection
(`src/ui/mainwindow.cpp`), followed by theorems about them.

Conventions of the embedding.
* `QString` is `String`, `QVector<T>` is `List T`, `qreal` is `ℚ` in the entities and any
  ordered field in the edge geometry (exact arithmetic); the edge geometry is written a
  second time over a model of the IEEE 754 doubles, where the rounding of the code shows.
* `QMap<QString, V>` is an association list kept in key order, looked up by first match.
* A read through a pointer whose target is already destroyed yields a value that the
  program does not determine: it is an argument of the function that reads.
* A method that mutates the object and returns `bool` becomes a function returning the
  boolean together with the new state.
* A returned pointer becomes an `Option` (`none` is `nullptr`); the pointed-to value is the
  payload.
* Positions stored in the index maps are `Nat`: the source only ever stores list positions
  (`size() - 1` after an append, a loop counter from `0`, or a decrement of a value that is
  greater than another stored position).
-/

namespace Cmap

/-! ## QMap -/

/-- Association-list model of `QMap<QString, V>`. -/
abbrev QMap (V : Type) := List (String × V)

namespace QMap

variable {V : Type}

/-- Look a key up: the value of the first entry carrying the key. -/
def find? : QMap V → String → Option V
  | [], _ => none
  | (k', v) :: rest, k => if k' = k then some v else find? rest k

/-- The method `QMap::contains`. -/
def contains (m : QMap V) (k : String) : Bool := (find? m k).isSome

/-- The method `QMap::value(key, defaultValue)`; also the read of `operator[]` on a key that
is present. -/
def value (m : QMap V) (k : String) (d : V) : V := (find? m k).getD d

/-- The UTF-16 code units of a character, as a `QString` stores it: one unit for a character
of the basic plane, a surrogate pair for any other. -/
def utf16Units (c : Char) : List Nat :=
  if c.toNat < 65536 then [c.toNat]
  else [55296 + (c.toNat - 65536) / 1024, 56320 + (c.toNat - 65536) % 1024]

/-- The UTF-16 code units of a string. -/
def utf16 (s : String) : List Nat := (s.data.map utf16Units).flatten

/-- The write `m[k] = v` of `QMap::operator[]`: replace the value of an existing key, or
insert the new entry at its place in key order. The order of the keys is `operator<` of
`QString`: the lexicographic order of the UTF-16 code units. -/
def insert : QMap V → String → V → QMap V
  | [], k, v => [(k, v)]
  | (k', v') :: rest, k, v =>
    if utf16 k < utf16 k' then (k, v) :: (k', v') :: rest
    else if k = k' then (k, v) :: rest
    else (k', v') :: insert rest k v

/-- The method `QMap::remove`. -/
def remove (m : QMap V) (k : String) : QMap V := m.filter (fun p => decide (p.1 ≠ k))

/-- A loop over all entries that rewrites each value in place (`it.value()`). -/
def mapValues (f : V → V) (m : QMap V) : QMap V := m.map (fun p => (p.1, f p.2))

/-- A write through a pointer to the object that is registered under the key `k`: the value
of that entry is rewritten in place, every other entry is left alone. -/
def update (m : QMap V) (k : String) (f : V → V) : QMap V :=
  m.map (fun p => if p.1 = k then (p.1, f p.2) else p)

/-- The keys, in iteration order. -/
def keys (m : QMap V) : List String := m.map Prod.fst

/-- The method `QMap::values`. -/
def values (m : QMap V) : List V := m.map Prod.snd

end QMap

/-! ## Entities -/

/-- A colour (`QColor`) by its channels. -/
structure QColor where
  r : Nat
  g : Nat
  b : Nat
  a : Nat
  deriving DecidableEq, Repr

/-- A point (`QPointF`), over the number type `K` that stands for `qreal`: `ℚ` in the
entities, any ordered field in the geometry. -/
structure QPointF (K : Type) where
  x : K
  y : K
  deriving DecidableEq

/-- The enum `NodeShape`. -/
inductive NodeShape where
  | Rectangle
  | Ellipse
  | RoundedRect
  deriving DecidableEq, Repr

/-- The class `ConceptNode`; each field `f` is the member `m_f`. -/
structure ConceptNode where
  id : String
  text : String
  x : ℚ
  y : ℚ
  width : ℚ
  height : ℚ
  color : QColor
  style : String
  shape : NodeShape
  deriving DecidableEq

/-- The class `ConceptEdge`; each field `f` is the member `m_f`. -/
structure ConceptEdge where
  id : String
  sourceNodeId : String
  targetNodeId : String
  label : String
  color : QColor
  style : String
  deriving DecidableEq

namespace ConceptNode

/-- The getter `ConceptNode::pos`. -/
def pos (n : ConceptNode) : QPointF ℚ := ⟨n.x, n.y⟩

/-- The setter `ConceptNode::setPos`. -/
def setPos (n : ConceptNode) (p : QPointF ℚ) : ConceptNode := { n with x := p.x, y := p.y }

end ConceptNode

/-! ## The store -/

/-- The class `ConceptMap`. -/
structure ConceptMap where
  m_name : String
  m_version : String
  m_nodes : List ConceptNode
  m_edges : List ConceptEdge
  m_nodeIndexMap : QMap Nat
  m_edgeIndexMap : QMap Nat
  deriving DecidableEq

namespace ConceptMap

/-- The constructor `ConceptMap::ConceptMap(name)`: an empty store. -/
def mk0 (name : String) : ConceptMap :=
  { m_name := name, m_version := "1.0", m_nodes := [], m_edges := [],
    m_nodeIndexMap := [], m_edgeIndexMap := [] }

/-- The getter `nodes()`. -/
def nodes (s : ConceptMap) : List ConceptNode := s.m_nodes

/-- The getter `edges()`. -/
def edges (s : ConceptMap) : List ConceptEdge := s.m_edges

/-- The method `hasNode`. -/
def hasNode (s : ConceptMap) (id : String) : Bool := QMap.contains s.m_nodeIndexMap id

/-- The method `hasEdge`. -/
def hasEdge (s : ConceptMap) (id : String) : Bool := QMap.contains s.m_edgeIndexMap id

/-- The method `nodeById`: `nullptr` when the index has no entry, otherwise the element at
the indexed position (a position outside the vector, undefined in the source, reads as
`none`; `wf_reachable` shows it does not arise). -/
def nodeById (s : ConceptMap) (id : String) : Option ConceptNode :=
  if !QMap.contains s.m_nodeIndexMap id then none
  else s.m_nodes[QMap.value s.m_nodeIndexMap id 0]?

/-- The method `edgeById`, as `nodeById`. -/
def edgeById (s : ConceptMap) (id : String) : Option ConceptEdge :=
  if !QMap.contains s.m_edgeIndexMap id then none
  else s.m_edges[QMap.value s.m_edgeIndexMap id 0]?

/-- The method `edgesByNodeId`: the loop appends each edge that has the node as source or
target. -/
def edgesByNodeId (s : ConceptMap) (nodeId : String) : List ConceptEdge :=
  s.m_edges.foldl
    (fun result edge =>
      if edge.sourceNodeId = nodeId ∨ edge.targetNodeId = nodeId then result ++ [edge]
      else result)
    []

/-- The method `addNode`. -/
def addNode (s : ConceptMap) (node : ConceptNode) : Bool × ConceptMap :=
  if s.hasNode node.id then (false, s)
  else
    let nodes := s.m_nodes ++ [node]
    (true, { s with
      m_nodes := nodes
      m_nodeIndexMap := QMap.insert s.m_nodeIndexMap node.id (nodes.length - 1) })

/-- The loop of `removeEdge` that refills the cleared index:
`for i in [i0, size): m_edgeIndexMap[m_edges[i].id()] = i`. -/
def reindexEdges : List ConceptEdge → Nat → QMap Nat → QMap Nat
  | [], _, m => m
  | e :: es, i, m => reindexEdges es (i + 1) (QMap.insert m e.id i)

/-- The method `removeEdge`. -/
def removeEdge (s : ConceptMap) (id : String) : Bool × ConceptMap :=
  if !s.hasEdge id then (false, s)
  else
    let index := QMap.value s.m_edgeIndexMap id 0
    let edges := s.m_edges.eraseIdx index
    (true, { s with m_edges := edges, m_edgeIndexMap := reindexEdges edges 0 [] })

/-- The method `removeNode`: remove every related edge (the results of the inner
`removeEdge` calls are discarded, as in the source), then the node, then shift the index. -/
def removeNode (s : ConceptMap) (id : String) : Bool × ConceptMap :=
  if !s.hasNode id then (false, s)
  else
    let relatedEdges := s.edgesByNodeId id
    let s1 := relatedEdges.foldl (fun st edge => (st.removeEdge edge.id).2) s
    let index := QMap.value s1.m_nodeIndexMap id 0
    let nodes := s1.m_nodes.eraseIdx index
    let shifted := QMap.mapValues (fun v => if v > index then v - 1 else v) s1.m_nodeIndexMap
    (true, { s1 with m_nodes := nodes, m_nodeIndexMap := QMap.remove shifted id })

/-- The method `updateNode`. -/
def updateNode (s : ConceptMap) (node : ConceptNode) : Bool × ConceptMap :=
  if !s.hasNode node.id then (false, s)
  else
    let index := QMap.value s.m_nodeIndexMap node.id 0
    (true, { s with m_nodes := s.m_nodes.set index node })

/-- The method `clearNodes`. -/
def clearNodes (s : ConceptMap) : ConceptMap :=
  { s with m_nodes := [], m_nodeIndexMap := [] }

/-- The method `addEdge`. -/
def addEdge (s : ConceptMap) (edge : ConceptEdge) : Bool × ConceptMap :=
  if s.hasEdge edge.id then (false, s)
  else if !s.hasNode edge.sourceNodeId || !s.hasNode edge.targetNodeId then (false, s)
  else
    let edges := s.m_edges ++ [edge]
    (true, { s with
      m_edges := edges
      m_edgeIndexMap := QMap.insert s.m_edgeIndexMap edge.id (edges.length - 1) })

/-- The method `updateEdge`. -/
def updateEdge (s : ConceptMap) (edge : ConceptEdge) : Bool × ConceptMap :=
  if !s.hasEdge edge.id then (false, s)
  else
    let index := QMap.value s.m_edgeIndexMap edge.id 0
    (true, { s with m_edges := s.m_edges.set index edge })

/-- The method `clearEdges`. -/
def clearEdges (s : ConceptMap) : ConceptMap :=
  { s with m_edges := [], m_edgeIndexMap := [] }

/-- The method `clear`. -/
def clear (s : ConceptMap) : ConceptMap := s.clearNodes.clearEdges

end ConceptMap

/-! ## The scene that mirrors the store -/

/-- The class `GraphicsNode`: the node value it carries, its flags and its item position. -/
structure GraphicsNode where
  m_node : ConceptNode
  m_isSelected : Bool
  m_isHovered : Bool
  itemPos : QPointF ℚ
  deriving DecidableEq

/-- The constructor `GraphicsNode::GraphicsNode(node)`. -/
def GraphicsNode.new (node : ConceptNode) : GraphicsNode :=
  { m_node := node, m_isSelected := false, m_isHovered := false, itemPos := node.pos }

/-- The class `GraphicsEdge`: the edge value it carries, the two visual nodes it points to
(named by their ids) and its flags. -/
structure GraphicsEdge where
  m_edge : ConceptEdge
  m_sourceNode : String
  m_targetNode : String
  m_isSelected : Bool
  m_isHovered : Bool
  deriving DecidableEq

/-- The constructor `GraphicsEdge::GraphicsEdge(edge, sourceNode, targetNode)`. -/
def GraphicsEdge.new (edge : ConceptEdge) (sourceNode targetNode : GraphicsNode) :
    GraphicsEdge :=
  { m_edge := edge, m_sourceNode := sourceNode.m_node.id, m_targetNode := targetNode.m_node.id,
    m_isSelected := false, m_isHovered := false }

/-- The class `GraphicsScene`: the store it owns, the two registries of visual objects and
the members of the edge-drag gesture. Signals are not part of the state. -/
structure GraphicsScene where
  m_conceptMap : ConceptMap
  m_graphicsNodes : QMap GraphicsNode
  m_graphicsEdges : QMap GraphicsEdge
  m_isDragging : Bool
  m_isCreatingEdge : Bool
  m_edgeSourceNode : Option String
  m_tempEdgeLine : Option (QPointF ℚ × QPointF ℚ)
  deriving DecidableEq

namespace GraphicsScene

/-- The constructor `GraphicsScene::GraphicsScene`. -/
def mk0 : GraphicsScene :=
  { m_conceptMap := ConceptMap.mk0 "未命名概念图", m_graphicsNodes := [], m_graphicsEdges := [],
    m_isDragging := false, m_isCreatingEdge := false, m_edgeSourceNode := none,
    m_tempEdgeLine := none }

/-- The method `graphicsNodeById`: `m_graphicsNodes.value(nodeId, nullptr)`. -/
def graphicsNodeById (sc : GraphicsScene) (nodeId : String) : Option GraphicsNode :=
  QMap.find? sc.m_graphicsNodes nodeId

/-- The method `graphicsEdgeById`: `m_graphicsEdges.value(edgeId, nullptr)`. -/
def graphicsEdgeById (sc : GraphicsScene) (edgeId : String) : Option GraphicsEdge :=
  QMap.find? sc.m_graphicsEdges edgeId

/-- The method `GraphicsScene::addNode`: register a new visual node under the id and add the
node to the store, whose result is discarded. -/
def addNode (sc : GraphicsScene) (node : ConceptNode) : GraphicsNode × GraphicsScene :=
  let graphicsNode := GraphicsNode.new node
  (graphicsNode, { sc with
    m_graphicsNodes := QMap.insert sc.m_graphicsNodes node.id graphicsNode
    m_conceptMap := (sc.m_conceptMap.addNode node).2 })

/-- The method `GraphicsScene::removeEdge`. -/
def removeEdge (sc : GraphicsScene) (edgeId : String) : Bool × GraphicsScene :=
  match sc.graphicsEdgeById edgeId with
  | none => (false, sc)
  | some _ =>
    (true, { sc with
      m_graphicsEdges := QMap.remove sc.m_graphicsEdges edgeId
      m_conceptMap := (sc.m_conceptMap.removeEdge edgeId).2 })

/-- The method `GraphicsScene::removeNode`. -/
def removeNode (sc : GraphicsScene) (nodeId : String) : Bool × GraphicsScene :=
  match sc.graphicsNodeById nodeId with
  | none => (false, sc)
  | some _ =>
    let relatedEdges := sc.m_conceptMap.edgesByNodeId nodeId
    let sc1 := relatedEdges.foldl (fun st edge => (st.removeEdge edge.id).2) sc
    (true, { sc1 with
      m_graphicsNodes := QMap.remove sc1.m_graphicsNodes nodeId
      m_conceptMap := (sc1.m_conceptMap.removeNode nodeId).2 })

/-- The method `GraphicsScene::addEdge`: nothing happens unless both endpoints have a visual
node; otherwise register a new visual edge and add the edge to the store, whose result is
discarded. -/
def addEdge (sc : GraphicsScene) (edge : ConceptEdge) : Option GraphicsEdge × GraphicsScene :=
  match sc.graphicsNodeById edge.sourceNodeId, sc.graphicsNodeById edge.targetNodeId with
  | some sourceNode, some targetNode =>
    let graphicsEdge := GraphicsEdge.new edge sourceNode targetNode
    (some graphicsEdge, { sc with
      m_graphicsEdges := QMap.insert sc.m_graphicsEdges edge.id graphicsEdge
      m_conceptMap := (sc.m_conceptMap.addEdge edge).2 })
  | _, _ => (none, sc)

/-- The method `clearScene`: every visual object is destroyed and both registries are
emptied; the store is left alone. -/
def clearScene (sc : GraphicsScene) : GraphicsScene :=
  { sc with m_graphicsEdges := [], m_graphicsNodes := [] }

/-- The method `refreshScene`: clear the registries, then one new visual node per node of
the store, then one new visual edge per edge of the store whose endpoints both have a visual
node. -/
def refreshScene (sc : GraphicsScene) : GraphicsScene :=
  let sc0 := sc.clearScene
  let sc1 := sc0.m_conceptMap.nodes.foldl
    (fun st node =>
      { st with m_graphicsNodes := QMap.insert st.m_graphicsNodes node.id (GraphicsNode.new node) })
    sc0
  sc1.m_conceptMap.edges.foldl
    (fun st edge =>
      match st.graphicsNodeById edge.sourceNodeId, st.graphicsNodeById edge.targetNodeId with
      | some sourceNode, some targetNode =>
        { st with
          m_graphicsEdges :=
            QMap.insert st.m_graphicsEdges edge.id (GraphicsEdge.new edge sourceNode targetNode) }
      | _, _ => st)
    sc1

/-- The method `setConceptMap`: replace the store by the snapshot and refresh. -/
def setConceptMap (sc : GraphicsScene) (map : ConceptMap) : GraphicsScene :=
  refreshScene { sc with m_conceptMap := map }

end GraphicsScene

/-- The method `GraphicsNode::updatePosition`: set the item position and the position of the
carried node value. -/
def GraphicsNode.updatePosition (g : GraphicsNode) (pos : QPointF ℚ) : GraphicsNode :=
  { g with itemPos := pos, m_node := g.m_node.setPos pos }

/-! ## Reversible commands -/

/-- The class `AddNodeCommand`. The scene pointer `m_scene` is not a field: the scene the
command points to is passed to `undo` and `redo`, `none` standing for a null pointer. -/
structure AddNodeCommand where
  m_node : ConceptNode
  m_isFirstRedo : Bool
  deriving DecidableEq

namespace AddNodeCommand

/-- The constructor `AddNodeCommand::AddNodeCommand(scene, node)`. -/
def new (node : ConceptNode) : AddNodeCommand := { m_node := node, m_isFirstRedo := true }

/-- The method `AddNodeCommand::undo`. -/
def undo (c : AddNodeCommand) (scene : Option GraphicsScene) :
    AddNodeCommand × Option GraphicsScene :=
  match scene with
  | none => (c, none)
  | some sc => (c, some (sc.removeNode c.m_node.id).2)

/-- The method `AddNodeCommand::redo`. -/
def redo (c : AddNodeCommand) (scene : Option GraphicsScene) :
    AddNodeCommand × Option GraphicsScene :=
  match scene with
  | none => (c, none)
  | some sc =>
    if !c.m_isFirstRedo then (c, some (sc.addNode c.m_node).2)
    else ({ c with m_isFirstRedo := false }, some sc)

end AddNodeCommand

/-- The class `AddEdgeCommand`; the scene pointer is passed to `undo` and `redo`, as for
`AddNodeCommand`. -/
structure AddEdgeCommand where
  m_edge : ConceptEdge
  m_isFirstRedo : Bool
  deriving DecidableEq

namespace AddEdgeCommand

/-- The constructor `AddEdgeCommand::AddEdgeCommand(scene, edge)`. -/
def new (edge : ConceptEdge) : AddEdgeCommand := { m_edge := edge, m_isFirstRedo := true }

/-- The method `AddEdgeCommand::undo`. -/
def undo (c : AddEdgeCommand) (scene : Option GraphicsScene) :
    AddEdgeCommand × Option GraphicsScene :=
  match scene with
  | none => (c, none)
  | some sc => (c, some (sc.removeEdge c.m_edge.id).2)

/-- The method `AddEdgeCommand::redo`. -/
def redo (c : AddEdgeCommand) (scene : Option GraphicsScene) :
    AddEdgeCommand × Option GraphicsScene :=
  match scene with
  | none => (c, none)
  | some sc =>
    if !c.m_isFirstRedo then (c, some (sc.addEdge c.m_edge).2)
    else ({ c with m_isFirstRedo := false }, some sc)

end AddEdgeCommand

/-- The class `DeleteNodeCommand`; the scene pointer is passed to the constructor, to `undo`
and to `redo`. -/
structure DeleteNodeCommand where
  m_nodeId : String
  m_node : ConceptNode
  m_relatedEdges : List ConceptEdge
  deriving DecidableEq

namespace DeleteNodeCommand

/-- The constructor `DeleteNodeCommand::DeleteNodeCommand(scene, nodeId)`. The member
`m_node` starts as a default-constructed node, `fresh` (its id is generated), and the related
edges start empty. The statement
`const ConceptNode* node = m_scene->conceptMap().nodeById(nodeId);` calls `nodeById` on the
copy of the store that `conceptMap()` returns by value; the copy is destroyed at the end of
that statement, so the pointer dangles when the next statement, `m_node = *node`, reads
through it. What that read yields is not determined by the program: it is the argument
`stale`. Whether the pointer is null is decided while the copy is alive, and the related
edges are returned by value: both are the store's. -/
def new (scene : Option GraphicsScene) (nodeId : String) (fresh stale : ConceptNode) :
    DeleteNodeCommand :=
  match scene with
  | none => { m_nodeId := nodeId, m_node := fresh, m_relatedEdges := [] }
  | some sc =>
    { m_nodeId := nodeId
      m_node :=
        match sc.m_conceptMap.nodeById nodeId with
        | some _ => stale
        | none => fresh
      m_relatedEdges := sc.m_conceptMap.edgesByNodeId nodeId }

/-- The method `DeleteNodeCommand::undo`: add the node again, then each captured edge. -/
def undo (c : DeleteNodeCommand) (scene : Option GraphicsScene) :
    DeleteNodeCommand × Option GraphicsScene :=
  match scene with
  | none => (c, none)
  | some sc =>
    (c, some (c.m_relatedEdges.foldl (fun st edge => (st.addEdge edge).2) (sc.addNode c.m_node).2))

/-- The method `DeleteNodeCommand::redo`. -/
def redo (c : DeleteNodeCommand) (scene : Option GraphicsScene) :
    DeleteNodeCommand × Option GraphicsScene :=
  match scene with
  | none => (c, none)
  | some sc => (c, some (sc.removeNode c.m_nodeId).2)

end DeleteNodeCommand

/-- The class `DeleteEdgeCommand`; the scene pointer is passed to the constructor, to `undo`
and to `redo`. -/
structure DeleteEdgeCommand where
  m_edgeId : String
  m_edge : ConceptEdge
  deriving DecidableEq

namespace DeleteEdgeCommand

/-- The constructor `DeleteEdgeCommand::DeleteEdgeCommand(scene, edgeId)`. The member
`m_edge` starts as a default-constructed edge, `fresh` (its id is generated). As in
`DeleteNodeCommand`, the pointer that `edgeById` returns points into the copy of the store
that `conceptMap()` returns by value, and `m_edge = *edge` reads through it after the copy is
destroyed: what that read yields is the argument `stale`. -/
def new (scene : Option GraphicsScene) (edgeId : String) (fresh stale : ConceptEdge) :
    DeleteEdgeCommand :=
  match scene with
  | none => { m_edgeId := edgeId, m_edge := fresh }
  | some sc =>
    { m_edgeId := edgeId
      m_edge :=
        match sc.m_conceptMap.edgeById edgeId with
        | some _ => stale
        | none => fresh }

/-- The method `DeleteEdgeCommand::undo`: add the captured edge again. -/
def undo (c : DeleteEdgeCommand) (scene : Option GraphicsScene) :
    DeleteEdgeCommand × Option GraphicsScene :=
  match scene with
  | none => (c, none)
  | some sc => (c, some (sc.addEdge c.m_edge).2)

/-- The method `DeleteEdgeCommand::redo`. -/
def redo (c : DeleteEdgeCommand) (scene : Option GraphicsScene) :
    DeleteEdgeCommand × Option GraphicsScene :=
  match scene with
  | none => (c, none)
  | some sc => (c, some (sc.removeEdge c.m_edgeId).2)

end DeleteEdgeCommand

/-- The class `MoveNodeCommand`; the scene pointer is passed to `undo` and `redo`. -/
structure MoveNodeCommand where
  m_nodeId : String
  m_oldPos : QPointF ℚ
  m_newPos : QPointF ℚ
  deriving DecidableEq

namespace MoveNodeCommand

/-- The constructor `MoveNodeCommand::MoveNodeCommand(scene, nodeId, oldPos, newPos)`. -/
def new (nodeId : String) (oldPos newPos : QPointF ℚ) : MoveNodeCommand :=
  { m_nodeId := nodeId, m_oldPos := oldPos, m_newPos := newPos }

/-- The method `MoveNodeCommand::undo`: look the visual node up and, when there is one, call
`updatePosition` with the old position on it. The object is changed in place, so its
registry entry now carries the new state; nothing else of the scene is written. -/
def undo (c : MoveNodeCommand) (scene : Option GraphicsScene) :
    MoveNodeCommand × Option GraphicsScene :=
  match scene with
  | none => (c, none)
  | some sc =>
    match sc.graphicsNodeById c.m_nodeId with
    | none => (c, some sc)
    | some graphicsNode =>
      (c, some { sc with
        m_graphicsNodes :=
          QMap.insert sc.m_graphicsNodes c.m_nodeId (graphicsNode.updatePosition c.m_oldPos) })

/-- The method `MoveNodeCommand::redo`: as `undo`, with the new position. -/
def redo (c : MoveNodeCommand) (scene : Option GraphicsScene) :
    MoveNodeCommand × Option GraphicsScene :=
  match scene with
  | none => (c, none)
  | some sc =>
    match sc.graphicsNodeById c.m_nodeId with
    | none => (c, some sc)
    | some graphicsNode =>
      (c, some { sc with
        m_graphicsNodes :=
          QMap.insert sc.m_graphicsNodes c.m_nodeId (graphicsNode.updatePosition c.m_newPos) })

/-- The method `MoveNodeCommand::mergeWith`. -/
def mergeWith (c moveCommand : MoveNodeCommand) : Bool × MoveNodeCommand :=
  if c.m_nodeId ≠ moveCommand.m_nodeId then (false, c)
  else (true, { c with m_newPos := moveCommand.m_newPos })

/-- Merge a sequence of commands, in order, into a first one: the results of the successive
`mergeWith` calls and the command that is left. -/
def mergeAll : MoveNodeCommand → List MoveNodeCommand → List Bool × MoveNodeCommand
  | c, [] => ([], c)
  | c, d :: rest =>
    let r := c.mergeWith d
    let r' := mergeAll r.2 rest
    (r.1 :: r'.1, r'.2)

end MoveNodeCommand

/-! ## Table models and the load path -/

/-- The data members of the class `NodeModel`. -/
structure NodeModel where
  m_nodes : List ConceptNode
  m_nodeIndexMap : QMap Nat
  deriving DecidableEq

namespace NodeModel

/-- The loop of `NodeModel::setNodes` that refills the cleared index:
`for i in [i0, size): m_nodeIndexMap[m_nodes[i].id()] = i`. -/
def reindexNodes : List ConceptNode → Nat → QMap Nat → QMap Nat
  | [], _, m => m
  | n :: ns, i, m => reindexNodes ns (i + 1) (QMap.insert m n.id i)

/-- The method `NodeModel::setNodes`. -/
def setNodes (_m : NodeModel) (nodes : List ConceptNode) : NodeModel :=
  { m_nodes := nodes, m_nodeIndexMap := reindexNodes nodes 0 [] }

end NodeModel

/-- The data members of the class `EdgeModel`. -/
structure EdgeModel where
  m_edges : List ConceptEdge
  m_edgeIndexMap : QMap Nat
  deriving DecidableEq

/-- The method `EdgeModel::setEdges`; its loop is the one of `ConceptMap::removeEdge`. -/
def EdgeModel.setEdges (_m : EdgeModel) (edges : List ConceptEdge) : EdgeModel :=
  { m_edges := edges, m_edgeIndexMap := ConceptMap.reindexEdges edges 0 [] }

/-- One element of the `nodes` array of a file, by the fields that the loader reads. -/
structure NodeRecord where
  id : String
  text : String
  x : ℚ
  y : ℚ
  width : ℚ
  height : ℚ
  red : Nat
  green : Nat
  blue : Nat
  style : String
  deriving DecidableEq

/-- One element of the `edges` array of a file, by the fields that the loader reads. -/
structure EdgeRecord where
  id : String
  sourceId : String
  targetId : String
  label : String
  red : Nat
  green : Nat
  blue : Nat
  style : String
  deriving DecidableEq

/-- What opening and parsing a file yields when it succeeds: the two arrays. Reading and
parsing are done by the Qt library; a file that cannot be opened or parsed is `none`. -/
structure Document where
  nodes : List NodeRecord
  edges : List EdgeRecord
  deriving DecidableEq

/-- The body of the loader's first loop: `ConceptNode(text, x, y, width, height, color)`
(style `default`, shape `Rectangle`), then `setId` and `setStyle`. -/
def NodeRecord.toNode (r : NodeRecord) : ConceptNode :=
  { id := r.id, text := r.text, x := r.x, y := r.y, width := r.width, height := r.height,
    color := ⟨r.red, r.green, r.blue, 255⟩, style := r.style, shape := NodeShape.Rectangle }

/-- The body of the loader's second loop: `ConceptEdge(sourceId, targetId, label, color)`,
then `setId` and `setStyle`. -/
def EdgeRecord.toEdge (r : EdgeRecord) : ConceptEdge :=
  { id := r.id, sourceNodeId := r.sourceId, targetNodeId := r.targetId, label := r.label,
    color := ⟨r.red, r.green, r.blue, 255⟩, style := r.style }

namespace ConceptMapSerializer

/-- The function `ConceptMapSerializer::loadFromJson`: fail when the file does not open or
parse; otherwise build the node and edge lists from the arrays, then call `addNode` for each
node and `addEdge` for each edge on the store that was passed in, discarding the results. -/
def loadFromJson (file : Option Document) (map : ConceptMap) : Bool × ConceptMap :=
  match file with
  | none => (false, map)
  | some doc =>
    let nodes := doc.nodes.map NodeRecord.toNode
    let edges := doc.edges.map EdgeRecord.toEdge
    let map1 := nodes.foldl (fun m node => (m.addNode node).2) map
    let map2 := edges.foldl (fun m edge => (m.addEdge edge).2) map1
    (true, map2)

/-- The function `ConceptMapSerializer::loadFromXml`: the same two loops over the `node` and
`edge` elements of the parsed file. -/
def loadFromXml (file : Option Document) (map : ConceptMap) : Bool × ConceptMap :=
  match file with
  | none => (false, map)
  | some doc =>
    let nodes := doc.nodes.map NodeRecord.toNode
    let edges := doc.edges.map EdgeRecord.toEdge
    let map1 := nodes.foldl (fun m node => (m.addNode node).2) map
    let map2 := edges.foldl (fun m edge => (m.addEdge edge).2) map1
    (true, map2)

end ConceptMapSerializer

/-- The test `filePath.endsWith(suffix, Qt::CaseInsensitive)`, for ASCII case. -/
def endsWithCI (filePath suffix : String) : Bool :=
  (suffix.data.map Char.toLower).isSuffixOf (filePath.data.map Char.toLower)

/-- The class `MapModel`. -/
structure MapModel where
  m_conceptMap : ConceptMap
  m_nodeModel : NodeModel
  m_edgeModel : EdgeModel
  deriving DecidableEq

namespace MapModel

/-- The method `MapModel::loadFromFile`: pick the loader by the file extension, load into
the model's own store, then copy the store's nodes and edges into the two table models.
`file` is what opening and parsing the file at `filePath` yields. -/
def loadFromFile (m : MapModel) (filePath : String) (file : Option Document) :
    Bool × MapModel :=
  if endsWithCI filePath ".json" then
    let r := ConceptMapSerializer.loadFromJson file m.m_conceptMap
    if !r.1 then (false, { m with m_conceptMap := r.2 })
    else
      (true, { m_conceptMap := r.2, m_nodeModel := m.m_nodeModel.setNodes r.2.nodes,
               m_edgeModel := m.m_edgeModel.setEdges r.2.edges })
  else if endsWithCI filePath ".xml" then
    let r := ConceptMapSerializer.loadFromXml file m.m_conceptMap
    if !r.1 then (false, { m with m_conceptMap := r.2 })
    else
      (true, { m_conceptMap := r.2, m_nodeModel := m.m_nodeModel.setNodes r.2.nodes,
               m_edgeModel := m.m_edgeModel.setEdges r.2.edges })
  else (false, m)

end MapModel

namespace NodeModel

/-- The method `NodeModel::findIndexById`: an invalid index (`none`) when the id has no
entry; otherwise `index(row, 0)`, which the table model makes valid only for a row below the
row count. -/
def findIndexById (m : NodeModel) (id : String) : Option Nat :=
  if !QMap.contains m.m_nodeIndexMap id then none
  else
    let row := QMap.value m.m_nodeIndexMap id 0
    if row < m.m_nodes.length then some row else none

/-- The method `NodeModel::removeNode(index)`: nothing for an invalid index or a row outside
the list; otherwise remove the row and refill the cleared index. -/
def removeNode (m : NodeModel) (index : Option Nat) : NodeModel :=
  match index with
  | none => m
  | some row =>
    if row ≥ m.m_nodes.length then m
    else
      let nodes := m.m_nodes.eraseIdx row
      { m_nodes := nodes, m_nodeIndexMap := reindexNodes nodes 0 [] }

end NodeModel

namespace EdgeModel

/-- The getter `EdgeModel::edges`. -/
def edges (m : EdgeModel) : List ConceptEdge := m.m_edges

/-- The method `EdgeModel::findIndexById`, as `NodeModel::findIndexById`. -/
def findIndexById (m : EdgeModel) (id : String) : Option Nat :=
  if !QMap.contains m.m_edgeIndexMap id then none
  else
    let row := QMap.value m.m_edgeIndexMap id 0
    if row < m.m_edges.length then some row else none

/-- The method `EdgeModel::removeEdge(index)`: nothing for an invalid index or a row outside
the list; otherwise remove the row and refill the cleared index. -/
def removeEdge (m : EdgeModel) (index : Option Nat) : EdgeModel :=
  match index with
  | none => m
  | some row =>
    if row ≥ m.m_edges.length then m
    else
      let edges := m.m_edges.eraseIdx row
      { m_edges := edges, m_edgeIndexMap := ConceptMap.reindexEdges edges 0 [] }

end EdgeModel

/-- The method `MapModel::removeNode`: remove the node from the store and fail when the store
does; then remove its row from the node table; then ask the store, as it is now, for the edges
of the node and remove the row of each of them from the edge table. -/
def MapModel.removeNode (m : MapModel) (nodeId : String) : Bool × MapModel :=
  let r := m.m_conceptMap.removeNode nodeId
  if !r.1 then (false, { m with m_conceptMap := r.2 })
  else
    let index := m.m_nodeModel.findIndexById nodeId
    let nodeModel := if index.isSome then m.m_nodeModel.removeNode index else m.m_nodeModel
    let relatedEdges := r.2.edgesByNodeId nodeId
    let edgeModel := relatedEdges.foldl
      (fun em edge =>
        let edgeIndex := em.findIndexById edge.id
        if edgeIndex.isSome then em.removeEdge edgeIndex else em)
      m.m_edgeModel
    (true, { m_conceptMap := r.2, m_nodeModel := nodeModel, m_edgeModel := edgeModel })

/-! ## Edge geometry

The geometry is written over an arbitrary ordered field `K` standing for `qreal`, so that
it can be evaluated on `ℚ` and reasoned about in exact arithmetic on `ℝ`. The square root
used by the ellipse case is a parameter. -/

/-- A rectangle (`QRectF`): top-left corner, width and height. -/
structure QRectF (K : Type) where
  xp : K
  yp : K
  w : K
  h : K
  deriving DecidableEq

namespace QRectF

variable {K : Type} [LinearOrderedField K]

/-- The getter `QRectF::width`. -/
def width (r : QRectF K) : K := r.w

/-- The getter `QRectF::height`. -/
def height (r : QRectF K) : K := r.h

/-- The getter `QRectF::topLeft`. -/
def topLeft (r : QRectF K) : QPointF K := ⟨r.xp, r.yp⟩

/-- The getter `QRectF::topRight`. -/
def topRight (r : QRectF K) : QPointF K := ⟨r.xp + r.w, r.yp⟩

/-- The getter `QRectF::bottomRight`. -/
def bottomRight (r : QRectF K) : QPointF K := ⟨r.xp + r.w, r.yp + r.h⟩

/-- The getter `QRectF::bottomLeft`. -/
def bottomLeft (r : QRectF K) : QPointF K := ⟨r.xp, r.yp + r.h⟩

/-- Modelled from the spec: the Qt library method `QRectF::adjusted(dx1, dy1, dx2, dy2)`,
which the repository calls but does not contain; with `(r, r, -r, -r)` it is the spec's
"rectangle inset by the corner radius on all sides": `dx1`, `dy1` are added to the top-left
corner and `dx2`, `dy2` to the bottom-right corner. -/
def adjusted (r : QRectF K) (dx1 dy1 dx2 dy2 : K) : QRectF K :=
  ⟨r.xp + dx1, r.yp + dy1, r.w + dx2 - dx1, r.h + dy2 - dy1⟩

/-- Modelled from the spec: the Qt library method `QRectF::contains(point)`, which the
repository calls but does not contain; the spec's "the point lies within that rectangle":
the point is inside or on the edge of the rectangle, and a rectangle of zero width or height
contains nothing. -/
def contains (r : QRectF K) (p : QPointF K) : Bool :=
  let l := if r.w < 0 then r.xp + r.w else r.xp
  let rr := if r.w < 0 then r.xp else r.xp + r.w
  if l = rr then false
  else if p.x < l ∨ p.x > rr then false
  else
    let t := if r.h < 0 then r.yp + r.h else r.yp
    let b := if r.h < 0 then r.yp else r.yp + r.h
    if t = b then false
    else if p.y < t ∨ p.y > b then false
    else true

end QRectF

/-- A line segment (`QLineF`): its two end points. -/
structure QLineF (K : Type) where
  pt1 : QPointF K
  pt2 : QPointF K
  deriving DecidableEq

/-- The enum `QLineF::IntersectionType`. -/
inductive IntersectionType where
  | NoIntersection
  | BoundedIntersection
  | UnboundedIntersection
  deriving DecidableEq, Repr

/-- Modelled from the spec: the Qt library method `QLineF::intersects(l, &point)`, which the
repository calls but does not contain. The spec's "bounded intersection" of two segments:
parallel lines do not intersect; otherwise the crossing point of the two infinite lines is
written to the out-parameter, and the intersection is bounded when the crossing point lies
within both segments. Computed as Qt does, with the parameters `na`, `nb` of the crossing
point along the two segments. The second component is the out-parameter afterwards. -/
def QLineF.intersects {K : Type} [LinearOrderedField K] (self l : QLineF K)
    (intersectionPoint : QPointF K) : IntersectionType × QPointF K :=
  let a : QPointF K := ⟨self.pt2.x - self.pt1.x, self.pt2.y - self.pt1.y⟩
  let b : QPointF K := ⟨l.pt1.x - l.pt2.x, l.pt1.y - l.pt2.y⟩
  let c : QPointF K := ⟨self.pt1.x - l.pt1.x, self.pt1.y - l.pt1.y⟩
  let denominator := a.y * b.x - a.x * b.y
  if denominator = 0 then (IntersectionType.NoIntersection, intersectionPoint)
  else
    let reciprocal := 1 / denominator
    let na := (b.y * c.x - b.x * c.y) * reciprocal
    let point : QPointF K := ⟨self.pt1.x + a.x * na, self.pt1.y + a.y * na⟩
    if na < 0 ∨ na > 1 then (IntersectionType.UnboundedIntersection, point)
    else
      let nb := (a.x * c.y - a.y * c.x) * reciprocal
      if nb < 0 ∨ nb > 1 then (IntersectionType.UnboundedIntersection, point)
      else (IntersectionType.BoundedIntersection, point)

namespace GraphicsEdge

variable {K : Type} [LinearOrderedField K]

/-- The method `GraphicsEdge::calculateRectangleIntersection`: test the segment from the
center to the target against the top, right, bottom and left side, in this order, and
return the first bounded intersection; the center when there is none. -/
def calculateRectangleIntersection (rect : QRectF K) (center target : QPointF K) :
    QPointF K :=
  let line : QLineF K := ⟨center, target⟩
  let intersectionPoint : QPointF K := ⟨0, 0⟩
  let r1 := line.intersects ⟨rect.topLeft, rect.topRight⟩ intersectionPoint
  if r1.1 = IntersectionType.BoundedIntersection then r1.2
  else
    let r2 := line.intersects ⟨rect.topRight, rect.bottomRight⟩ r1.2
    if r2.1 = IntersectionType.BoundedIntersection then r2.2
    else
      let r3 := line.intersects ⟨rect.bottomRight, rect.bottomLeft⟩ r2.2
      if r3.1 = IntersectionType.BoundedIntersection then r3.2
      else
        let r4 := line.intersects ⟨rect.bottomLeft, rect.topLeft⟩ r3.2
        if r4.1 = IntersectionType.BoundedIntersection then r4.2
        else center

/-- The method `GraphicsEdge::calculateEllipseIntersection`; `sqrt` is the square root of
the C library. -/
def calculateEllipseIntersection (sqrt : K → K) (rect : QRectF K) (center target : QPointF K) :
    QPointF K :=
  let a := rect.width / 2
  let b := rect.height / 2
  if a ≤ 0 ∨ b ≤ 0 then center
  else
    let dx := target.x - center.x
    let dy := target.y - center.y
    if dx = 0 ∧ dy = 0 then center
    else
      let t := 1 / sqrt ((dx * dx) / (a * a) + (dy * dy) / (b * b))
      ⟨center.x + t * dx, center.y + t * dy⟩

/-- The method `GraphicsEdge::calculateRoundedRectIntersection`. -/
def calculateRoundedRectIntersection (rect : QRectF K) (center target : QPointF K) :
    QPointF K :=
  let radius := min rect.width rect.height / 4
  let rectPart := rect.adjusted radius radius (-radius) (-radius)
  let rectIntersection := calculateRectangleIntersection rectPart center target
  if rectPart.contains rectIntersection then rectIntersection
  else calculateRectangleIntersection rect center target

/-- The method `GraphicsEdge::calculateIntersectionPoint`: dispatch on the shape (the
`default` branch of the `switch` has no enumerator left). -/
def calculateIntersectionPoint (sqrt : K → K) (rect : QRectF K) (center target : QPointF K)
    (shape : NodeShape) : QPointF K :=
  match shape with
  | NodeShape.Rectangle => calculateRectangleIntersection rect center target
  | NodeShape.Ellipse => calculateEllipseIntersection sqrt rect center target
  | NodeShape.RoundedRect => calculateRoundedRectIntersection rect center target

end GraphicsEdge

/-- The centre of a box, as `calculateSourcePoint` and `calculateTargetPoint` compute it:
`(x + width / 2, y + height / 2)`. -/
def QRectF.centre {K : Type} [LinearOrderedField K] (r : QRectF K) : QPointF K :=
  ⟨r.xp + r.w / 2, r.yp + r.h / 2⟩

/-- A point lies on the boundary of a box: on the top or bottom side, or on the left or
right side. -/
def QRectF.OnBoundary {K : Type} [LinearOrderedField K] (r : QRectF K) (p : QPointF K) :
    Prop :=
  ((p.y = r.yp ∨ p.y = r.yp + r.h) ∧ r.xp ≤ p.x ∧ p.x ≤ r.xp + r.w) ∨
  ((p.x = r.xp ∨ p.x = r.xp + r.w) ∧ r.yp ≤ p.y ∧ p.y ≤ r.yp + r.h)

/-- A point lies on the closed segment between two points. -/
def OnSegment {K : Type} [LinearOrderedField K] (p q x : QPointF K) : Prop :=
  ∃ t : K, 0 ≤ t ∧ t ≤ 1 ∧ x.x = p.x + (q.x - p.x) * t ∧ x.y = p.y + (q.y - p.y) * t

/-! ## The edge geometry in double precision

`qreal` is `double`. The geometry of the previous section is written over an exact ordered
field; here the same functions are written over a model of the IEEE 754 binary64 numbers,
operation by operation in the order of the source, so that a rounding error of the code can
be evaluated. Every operation rounds its exact result once, to the nearest double, a tie
going to the double with the even significand; no two operations are fused. -/

/-- The power `2 ^ e` as a rational number. -/
def twoPow (e : Int) : ℚ :=
  if 0 ≤ e then ((2 ^ e.toNat : ℕ) : ℚ) else 1 / ((2 ^ (-e).toNat : ℕ) : ℚ)

/-- The loop of `log2`: halve the number until it is below 2, counting the steps. -/
def log2Loop : Nat → Nat → Nat
  | 0, _ => 0
  | fuel + 1, n => if 2 ≤ n then log2Loop fuel (n / 2) + 1 else 0

/-- The exponent `⌊log₂ n⌋` of a positive natural number. -/
def log2 (n : Nat) : Nat := log2Loop n n

/-- The exponent `⌊log₂ q⌋` of a positive rational number: the difference of the exponents
of numerator and denominator, or one less. -/
def floorLog2 (q : ℚ) : Int :=
  let e0 : Int := (log2 q.num.natAbs : Int) - (log2 q.den : Int)
  if q < twoPow e0 then e0 - 1 else e0

/-- The integer nearest to a rational number that is not negative, a tie going to the even
one. -/
def roundHalfEven (q : ℚ) : Int :=
  let f : Int := ⌊q⌋
  let r : ℚ := q - f
  if r < 1 / 2 then f
  else if 1 / 2 < r then f + 1
  else if f % 2 = 0 then f
  else f + 1

/-- The loop of the integer square root: the bits of the root, from bit `k - 1` down. -/
def isqrtBits (n : Nat) : Nat → Nat → Nat
  | 0, r => r
  | k + 1, r => isqrtBits n k (if (r + 2 ^ k) * (r + 2 ^ k) ≤ n then r + 2 ^ k else r)

/-- The integer square root `⌊√n⌋`. -/
def isqrt (n : Nat) : Nat := isqrtBits n (log2 n / 2 + 1) 0

/-- Modelled from the spec: the values of the type `double` behind `qreal`, which the
repository uses but does not define (IEEE 754 binary64): a finite value, carried as the
rational number it denotes, an infinity with its sign, or a NaN. The two zeros are one
value, `finite 0`; the sign of a zero matters only to a division by zero, and the
divisions by zero that the geometry can reach divide by a square or by the `sqrt` of a sum
of squares, which are `+0`. -/
inductive Double where
  | finite (q : ℚ)
  | inf (negative : Bool)
  | nan
  deriving DecidableEq

namespace Double

/-- Modelled from the spec: rounding of an exact result to a double, to nearest, a tie to
the even significand. The significand has 53 bits, the least exponent of the last bit is
`-1074` (below it the subnormal numbers keep that exponent), and a result that rounds to
`2 ^ 1024` or more is an infinity. -/
def round (q : ℚ) : Double :=
  if q = 0 then finite 0
  else
    let a : ℚ := if q < 0 then -q else q
    let e : Int := max (floorLog2 a - 52) (-1074)
    let v : ℚ := (roundHalfEven (a / twoPow e) : ℚ) * twoPow e
    if twoPow 1024 ≤ v then inf (decide (q < 0))
    else finite (if q < 0 then -v else v)

/-- Modelled from the spec: the unary minus of `double`. -/
def neg : Double → Double
  | finite q => finite (-q)
  | inf s => inf (!s)
  | nan => nan

/-- Modelled from the spec: the addition of `double`. -/
def add : Double → Double → Double
  | finite a, finite b => round (a + b)
  | finite _, inf s => inf s
  | inf s, finite _ => inf s
  | inf s, inf t => if s = t then inf s else nan
  | _, _ => nan

/-- Modelled from the spec: the subtraction of `double`. -/
def sub (a b : Double) : Double := add a (neg b)

/-- Modelled from the spec: the multiplication of `double`. -/
def mul : Double → Double → Double
  | finite a, finite b => round (a * b)
  | finite a, inf s => if a = 0 then nan else inf (xor s (decide (a < 0)))
  | inf s, finite b => if b = 0 then nan else inf (xor s (decide (b < 0)))
  | inf s, inf t => inf (xor s t)
  | _, _ => nan

/-- Modelled from the spec: the division of `double`; a zero divisor is `+0`. -/
def div : Double → Double → Double
  | finite a, finite b =>
    if b = 0 then (if a = 0 then nan else inf (decide (a < 0))) else round (a / b)
  | finite _, inf _ => finite 0
  | inf s, finite b => inf (xor s (decide (b < 0)))
  | inf _, inf _ => nan
  | _, _ => nan

/-- Modelled from the spec: the function `sqrt` of the C library on `double`, correctly
rounded: the root is in `[2 ^ (e + 52), 2 ^ (e + 53))` for the exponent `e` chosen, its
integer part in units of `2 ^ e` is an integer square root, and the comparison with the
square of the midpoint rounds it. -/
def sqrt : Double → Double
  | finite q =>
    if q < 0 then nan
    else if q = 0 then finite 0
    else
      let e : Int := max (floorLog2 q / 2 - 52) (-1074)
      let x : ℚ := q / (twoPow e * twoPow e)
      let n : Nat := isqrt ⌊x⌋.toNat
      let h : ℚ := ((n : ℚ) + 1 / 2) * ((n : ℚ) + 1 / 2)
      let m : Nat := if x < h then n else if h < x then n + 1 else if n % 2 = 0 then n else n + 1
      finite ((m : ℚ) * twoPow e)
  | inf s => if s then nan else inf false
  | nan => nan

/-- Modelled from the spec: the comparison `<` of `double`; false when a side is a NaN. -/
def lt : Double → Double → Bool
  | finite a, finite b => decide (a < b)
  | finite _, inf s => !s
  | inf s, finite _ => s
  | inf s, inf t => s && !t
  | _, _ => false

/-- Modelled from the spec: the comparison `<=` of `double`; false when a side is a NaN. -/
def le : Double → Double → Bool
  | finite a, finite b => decide (a ≤ b)
  | finite _, inf s => !s
  | inf s, finite _ => s
  | inf s, inf t => s || !t
  | _, _ => false

/-- Modelled from the spec: the comparison `==` of `double`; false when a side is a NaN. -/
def eq : Double → Double → Bool
  | finite a, finite b => decide (a = b)
  | inf s, inf t => decide (s = t)
  | _, _ => false

/-- Modelled from the spec: the Qt library function `qt_is_finite`. -/
def isFinite : Double → Bool
  | finite _ => true
  | _ => false

end Double

namespace Ieee

/-- The getter `QRectF::topLeft`, in double precision. -/
def QRectF.topLeft (r : QRectF Double) : QPointF Double := ⟨r.xp, r.yp⟩

/-- The getter `QRectF::topRight`, in double precision. -/
def QRectF.topRight (r : QRectF Double) : QPointF Double := ⟨r.xp.add r.w, r.yp⟩

/-- The getter `QRectF::bottomRight`, in double precision. -/
def QRectF.bottomRight (r : QRectF Double) : QPointF Double := ⟨r.xp.add r.w, r.yp.add r.h⟩

/-- The getter `QRectF::bottomLeft`, in double precision. -/
def QRectF.bottomLeft (r : QRectF Double) : QPointF Double := ⟨r.xp, r.yp.add r.h⟩

/-- Modelled from the spec: the Qt library method `QRectF::adjusted(dx1, dy1, dx2, dy2)` in
double precision: `QRectF(xp + dx1, yp + dy1, w + dx2 - dx1, h + dy2 - dy1)`. -/
def QRectF.adjusted (r : QRectF Double) (dx1 dy1 dx2 dy2 : Double) : QRectF Double :=
  ⟨r.xp.add dx1, r.yp.add dy1, (r.w.add dx2).sub dx1, (r.h.add dy2).sub dy1⟩

/-- Modelled from the spec: the Qt library method `QRectF::contains(point)` in double
precision, with the tests of `QRectF.contains` in the same order. -/
def QRectF.contains (r : QRectF Double) (p : QPointF Double) : Bool :=
  let l := if r.w.lt (Double.finite 0) then r.xp.add r.w else r.xp
  let rr := if r.w.lt (Double.finite 0) then r.xp else r.xp.add r.w
  if l.eq rr then false
  else if p.x.lt l || rr.lt p.x then false
  else
    let t := if r.h.lt (Double.finite 0) then r.yp.add r.h else r.yp
    let b := if r.h.lt (Double.finite 0) then r.yp else r.yp.add r.h
    if t.eq b then false
    else if p.y.lt t || b.lt p.y then false
    else true

/-- Modelled from the spec: the Qt library method `QLineF::intersects(l, &point)` in double
precision, with the operations of `QLineF.intersects` in the same order; a denominator that
is zero or not finite gives no intersection. -/
def QLineF.intersects (self l : QLineF Double) (intersectionPoint : QPointF Double) :
    IntersectionType × QPointF Double :=
  let a : QPointF Double := ⟨self.pt2.x.sub self.pt1.x, self.pt2.y.sub self.pt1.y⟩
  let b : QPointF Double := ⟨l.pt1.x.sub l.pt2.x, l.pt1.y.sub l.pt2.y⟩
  let c : QPointF Double := ⟨self.pt1.x.sub l.pt1.x, self.pt1.y.sub l.pt1.y⟩
  let denominator := (a.y.mul b.x).sub (a.x.mul b.y)
  if denominator.eq (Double.finite 0) || !denominator.isFinite then
    (IntersectionType.NoIntersection, intersectionPoint)
  else
    let reciprocal := (Double.finite 1).div denominator
    let na := ((b.y.mul c.x).sub (b.x.mul c.y)).mul reciprocal
    let point : QPointF Double := ⟨self.pt1.x.add (a.x.mul na), self.pt1.y.add (a.y.mul na)⟩
    if na.lt (Double.finite 0) || (Double.finite 1).lt na then
      (IntersectionType.UnboundedIntersection, point)
    else
      let nb := ((a.x.mul c.y).sub (a.y.mul c.x)).mul reciprocal
      if nb.lt (Double.finite 0) || (Double.finite 1).lt nb then
        (IntersectionType.UnboundedIntersection, point)
      else (IntersectionType.BoundedIntersection, point)

/-- The method `GraphicsEdge::calculateRectangleIntersection`, in double precision. -/
def GraphicsEdge.calculateRectangleIntersection (rect : QRectF Double)
    (center target : QPointF Double) : QPointF Double :=
  let line : QLineF Double := ⟨center, target⟩
  let intersectionPoint : QPointF Double := ⟨Double.finite 0, Double.finite 0⟩
  let r1 := QLineF.intersects line ⟨QRectF.topLeft rect, QRectF.topRight rect⟩ intersectionPoint
  if r1.1 = IntersectionType.BoundedIntersection then r1.2
  else
    let r2 := QLineF.intersects line ⟨QRectF.topRight rect, QRectF.bottomRight rect⟩ r1.2
    if r2.1 = IntersectionType.BoundedIntersection then r2.2
    else
      let r3 := QLineF.intersects line ⟨QRectF.bottomRight rect, QRectF.bottomLeft rect⟩ r2.2
      if r3.1 = IntersectionType.BoundedIntersection then r3.2
      else
        let r4 := QLineF.intersects line ⟨QRectF.bottomLeft rect, QRectF.topLeft rect⟩ r3.2
        if r4.1 = IntersectionType.BoundedIntersection then r4.2
        else center

/-- The method `GraphicsEdge::calculateEllipseIntersection`, in double precision. -/
def GraphicsEdge.calculateEllipseIntersection (rect : QRectF Double)
    (center target : QPointF Double) : QPointF Double :=
  let a := rect.w.div (Double.finite 2)
  let b := rect.h.div (Double.finite 2)
  if a.le (Double.finite 0) || b.le (Double.finite 0) then center
  else
    let dx := target.x.sub center.x
    let dy := target.y.sub center.y
    if dx.eq (Double.finite 0) && dy.eq (Double.finite 0) then center
    else
      let t := (Double.finite 1).div
        (Double.sqrt (((dx.mul dx).div (a.mul a)).add ((dy.mul dy).div (b.mul b))))
      ⟨center.x.add (t.mul dx), center.y.add (t.mul dy)⟩

/-- Modelled from the spec: the Qt library template `qMin`: `(a < b) ? a : b`. -/
def qMin (a b : Double) : Double := if a.lt b then a else b

/-- The method `GraphicsEdge::calculateRoundedRectIntersection`, in double precision. -/
def GraphicsEdge.calculateRoundedRectIntersection (rect : QRectF Double)
    (center target : QPointF Double) : QPointF Double :=
  let radius := (qMin rect.w rect.h).div (Double.finite 4)
  let rectPart := QRectF.adjusted rect radius radius radius.neg radius.neg
  let rectIntersection := GraphicsEdge.calculateRectangleIntersection rectPart center target
  if QRectF.contains rectPart rectIntersection then rectIntersection
  else GraphicsEdge.calculateRectangleIntersection rect center target

end Ieee

/-! ## Pointer events of the scene

The scene reacts to the press, the move and the release of the pointer. What the Qt library
finds on the way is an argument of the handler: the item that `itemAt` returns at the
position of the event, the positions that the default move handler gives to the nodes it
drags, and the identifier that `QUuid::createUuid` yields for a new edge. A visual object is
named by the key under which its registry holds it, so a comparison of two pointers is a
comparison of two keys. -/

/-- The enum `Qt::MouseButton`, by the buttons of a mouse. -/
inductive MouseButton where
  | LeftButton
  | RightButton
  | MiddleButton
  deriving DecidableEq, Repr

/-- What `itemAt(event->scenePos(), QTransform())` returns, `none` being `nullptr`: a visual
node or a visual edge, named by its key in the registry, or an item of another type (the
preview line). -/
inductive SceneItem where
  | node (id : String)
  | edge (id : String)
  | other
  deriving DecidableEq, Repr

/-- The class `QGraphicsSceneMouseEvent`, by what the handlers read: the button, whether
`Qt::ShiftModifier` and `Qt::ControlModifier` are among the modifiers, the scene position. -/
structure QGraphicsSceneMouseEvent where
  button : MouseButton
  shiftModifier : Bool
  controlModifier : Bool
  scenePos : QPointF ℚ
  deriving DecidableEq

namespace GraphicsNode

/-- The getter `GraphicsNode::id`. -/
def id (g : GraphicsNode) : String := g.m_node.id

/-- The getter `GraphicsNode::isSelectedNode`. -/
def isSelectedNode (g : GraphicsNode) : Bool := g.m_isSelected

/-- The setter `GraphicsNode::setSelectedNode`. -/
def setSelectedNode (g : GraphicsNode) (selected : Bool) : GraphicsNode :=
  { g with m_isSelected := selected }

/-- The method `GraphicsNode::boundingRect`; the padding is `m_borderWidth + 5.0`, and the
border width is the `2.0` that the constructor sets. -/
def boundingRect (g : GraphicsNode) : QRectF ℚ :=
  let padding : ℚ := 2 + 5
  ⟨-padding, -padding, g.m_node.width + 2 * padding, g.m_node.height + 2 * padding⟩

/-- The handler `GraphicsNode::mousePressEvent`: a left press selects the node. The member
`m_dragStartPos`, written here, is read nowhere; the call of the base class that follows
keeps the selection flag of the Qt item, which the repository does not read. -/
def mousePressEvent (g : GraphicsNode) (event : QGraphicsSceneMouseEvent) : GraphicsNode :=
  if event.button = MouseButton.LeftButton then g.setSelectedNode true else g

/-- A change of the item position of a node that is in a scene: `GraphicsNode::itemChange`
records the new position in the carried node value, and the position changes. -/
def setPos (g : GraphicsNode) (pos : QPointF ℚ) : GraphicsNode :=
  { g with m_node := g.m_node.setPos pos, itemPos := pos }

end GraphicsNode

namespace GraphicsEdge

/-- The getter `GraphicsEdge::id`. -/
def id (g : GraphicsEdge) : String := g.m_edge.id

/-- The getter `GraphicsEdge::isSelectedEdge`. -/
def isSelectedEdge (g : GraphicsEdge) : Bool := g.m_isSelected

/-- The setter `GraphicsEdge::setSelectedEdge`. -/
def setSelectedEdge (g : GraphicsEdge) (selected : Bool) : GraphicsEdge :=
  { g with m_isSelected := selected }

/-- The handler `GraphicsEdge::mousePressEvent`: a left press selects the edge. -/
def mousePressEvent (g : GraphicsEdge) (event : QGraphicsSceneMouseEvent) : GraphicsEdge :=
  if event.button = MouseButton.LeftButton then g.setSelectedEdge true else g

end GraphicsEdge

/-- The constructor `ConceptEdge::ConceptEdge(sourceNodeId, targetNodeId, label, color)`;
`uuid` is what `generateId` yields. -/
def ConceptEdge.new (uuid sourceNodeId targetNodeId label : String) (color : QColor) :
    ConceptEdge :=
  { id := uuid, sourceNodeId := sourceNodeId, targetNodeId := targetNodeId, label := label,
    color := color, style := "default" }

namespace GraphicsScene

/-- The method `GraphicsScene::selectedNodes`: the loop over the values of the registry
appends each node whose flag is set. -/
def selectedNodes (sc : GraphicsScene) : List GraphicsNode :=
  (QMap.values sc.m_graphicsNodes).foldl
    (fun result node => if node.isSelectedNode then result ++ [node] else result) []

/-- The method `GraphicsScene::selectedEdges`. -/
def selectedEdges (sc : GraphicsScene) : List GraphicsEdge :=
  (QMap.values sc.m_graphicsEdges).foldl
    (fun result edge => if edge.isSelectedEdge then result ++ [edge] else result) []

/-- The point `node->pos() + node->boundingRect().center()` at which the preview line
starts. -/
def nodeCenter (node : GraphicsNode) : QPointF ℚ :=
  ⟨node.itemPos.x + node.boundingRect.centre.x, node.itemPos.y + node.boundingRect.centre.y⟩

/-- Modelled from the spec: the Qt library method `QGraphicsScene::mousePressEvent`, which
the repository calls but does not contain. The spec's "press on a node", "click" on an item:
Qt forwards the press to the topmost item at the position of the event, which is the item
that `itemAt` returns there, and the press handler of that item runs. -/
def baseMousePressEvent (sc : GraphicsScene) (event : QGraphicsSceneMouseEvent)
    (item : Option SceneItem) : GraphicsScene :=
  match item with
  | some (SceneItem.node id) =>
    { sc with
      m_graphicsNodes := QMap.update sc.m_graphicsNodes id (fun g => g.mousePressEvent event) }
  | some (SceneItem.edge id) =>
    { sc with
      m_graphicsEdges := QMap.update sc.m_graphicsEdges id (fun g => g.mousePressEvent event) }
  | _ => sc

/-- The second half of `GraphicsScene::mousePressEvent`, which inspects the item under the
pointer: with Control the flag of the item is inverted; without it the flag of every other
registered object of the same kind is cleared and the flag of the item is set. -/
def selectItemAt (sc : GraphicsScene) (event : QGraphicsSceneMouseEvent)
    (item : Option SceneItem) : GraphicsScene :=
  match item with
  | some (SceneItem.node id) =>
    if event.controlModifier then
      { sc with
        m_graphicsNodes :=
          QMap.update sc.m_graphicsNodes id (fun g => g.setSelectedNode (!g.isSelectedNode)) }
    else
      let cleared : QMap GraphicsNode :=
        sc.m_graphicsNodes.map (fun p => if p.1 ≠ id then (p.1, p.2.setSelectedNode false) else p)
      { sc with m_graphicsNodes := QMap.update cleared id (fun g => g.setSelectedNode true) }
  | some (SceneItem.edge id) =>
    if event.controlModifier then
      { sc with
        m_graphicsEdges :=
          QMap.update sc.m_graphicsEdges id (fun g => g.setSelectedEdge (!g.isSelectedEdge)) }
    else
      let cleared : QMap GraphicsEdge :=
        sc.m_graphicsEdges.map (fun p => if p.1 ≠ id then (p.1, p.2.setSelectedEdge false) else p)
      { sc with m_graphicsEdges := QMap.update cleared id (fun g => g.setSelectedEdge true) }
  | _ => sc

/-- The handler `GraphicsScene::mousePressEvent`. A left press starts a drag (the member
`m_dragStartPos`, written here, is read nowhere). A left press with Shift on a node starts
the creation of an edge and returns; every other press goes to the base class and then to the
selection of the item under the pointer. `item` is what `itemAt` returns at the position. -/
def mousePressEvent (sc : GraphicsScene) (event : QGraphicsSceneMouseEvent)
    (item : Option SceneItem) : GraphicsScene :=
  let sc1 :=
    if event.button = MouseButton.LeftButton then { sc with m_isDragging := true } else sc
  let rest := (sc1.baseMousePressEvent event item).selectItemAt event item
  if event.button = MouseButton.LeftButton ∧ event.shiftModifier = true then
    match item with
    | some (SceneItem.node id) =>
      match sc1.graphicsNodeById id with
      | some node =>
        { sc1 with
          m_isCreatingEdge := true
          m_edgeSourceNode := some id
          m_tempEdgeLine := some (nodeCenter node, event.scenePos) }
      | none => rest
    | _ => rest
  else rest

/-- Modelled from the spec: the Qt library method `QGraphicsScene::mouseMoveEvent`, which the
repository calls but does not contain. The spec's "move" of a node: Qt drags the movable
items it has grabbed; `dragged` lists the nodes it moves with the position each one gets. -/
def baseMouseMoveEvent (sc : GraphicsScene) (dragged : List (String × QPointF ℚ)) :
    GraphicsScene :=
  dragged.foldl
    (fun st d => { st with m_graphicsNodes := QMap.update st.m_graphicsNodes d.1 (fun g => g.setPos d.2) })
    sc

/-- The handler `GraphicsScene::mouseMoveEvent`: while an edge is being created the free end
of the preview line follows the pointer and nothing else happens; otherwise the move goes to
the base class. A source pointer that names no registered node (dangling in the source)
leaves the line as it is. -/
def mouseMoveEvent (sc : GraphicsScene) (event : QGraphicsSceneMouseEvent)
    (dragged : List (String × QPointF ℚ)) : GraphicsScene :=
  if sc.m_isCreatingEdge = true ∧ sc.m_tempEdgeLine.isSome = true ∧
      sc.m_edgeSourceNode.isSome = true then
    match sc.m_edgeSourceNode.bind sc.graphicsNodeById with
    | some node => { sc with m_tempEdgeLine := some (nodeCenter node, event.scenePos) }
    | none => sc
  else sc.baseMouseMoveEvent dragged

/-- The part of `GraphicsScene::mouseReleaseEvent` that looks at the item under the pointer
while an edge is being created: when the item is a node other than the source node, an edge
from the source node to it is built (label `连接`, colour `(100, 100, 100)`, identifier
`uuid`) and added through `GraphicsScene::addEdge`. A null source pointer, which the source
would dereference, adds nothing. -/
def createEdgeAt (sc : GraphicsScene) (item : Option SceneItem) (uuid : String) :
    GraphicsScene :=
  match item with
  | some (SceneItem.node id) =>
    match sc.graphicsNodeById id with
    | some targetNode =>
      if some id ≠ sc.m_edgeSourceNode then
        match sc.m_edgeSourceNode.bind sc.graphicsNodeById with
        | some sourceNode =>
          (sc.addEdge
            (ConceptEdge.new uuid sourceNode.id targetNode.id "连接" ⟨100, 100, 100, 255⟩)).2
        | none => sc
      else sc
    | none => sc
  | _ => sc

/-- The handler `GraphicsScene::mouseReleaseEvent`. While an edge is being created: the
preview line is destroyed, the item under the pointer is looked at (`createEdgeAt`), and the
gesture is reset. Otherwise the release goes to the base class, which writes no member of the
repository, and a left release ends the drag. -/
def mouseReleaseEvent (sc : GraphicsScene) (event : QGraphicsSceneMouseEvent)
    (item : Option SceneItem) (uuid : String) : GraphicsScene :=
  if sc.m_isCreatingEdge = true then
    let sc1 := { sc with m_tempEdgeLine := none }
    let sc2 := sc1.createEdgeAt item uuid
    { sc2 with m_isCreatingEdge := false, m_edgeSourceNode := none }
  else if event.button = MouseButton.LeftButton then { sc with m_isDragging := false }
  else sc

end GraphicsScene

/-! ## The undo stack and the deletion of the selection -/

/-- The commands that an undo stack holds: the subclasses of `QUndoCommand`. -/
inductive QUndoCommand where
  | addNode (c : AddNodeCommand)
  | addEdge (c : AddEdgeCommand)
  | deleteNode (c : DeleteNodeCommand)
  | deleteEdge (c : DeleteEdgeCommand)
  | moveNode (c : MoveNodeCommand)
  deriving DecidableEq

namespace QUndoCommand

/-- The virtual method `id`: `MoveNodeCommand` overrides it to return `1001`, the default of
the other commands is `-1`. -/
def id : QUndoCommand → Int
  | moveNode _ => 1001
  | _ => -1

/-- The virtual method `redo`. -/
def redo (c : QUndoCommand) (scene : Option GraphicsScene) :
    QUndoCommand × Option GraphicsScene :=
  match c with
  | addNode a => (addNode (a.redo scene).1, (a.redo scene).2)
  | addEdge a => (addEdge (a.redo scene).1, (a.redo scene).2)
  | deleteNode a => (deleteNode (a.redo scene).1, (a.redo scene).2)
  | deleteEdge a => (deleteEdge (a.redo scene).1, (a.redo scene).2)
  | moveNode a => (moveNode (a.redo scene).1, (a.redo scene).2)

/-- The virtual method `mergeWith`: `MoveNodeCommand` overrides it, the default returns
`false`. It is only called on two commands of the same `id`. -/
def mergeWith (c other : QUndoCommand) : Bool × QUndoCommand :=
  match c, other with
  | moveNode a, moveNode b => ((a.mergeWith b).1, moveNode (a.mergeWith b).2)
  | _, _ => (false, c)

end QUndoCommand

/-- The class `QUndoStack`, by the list of commands and the index of the next command to
redo. -/
structure QUndoStack where
  command_list : List QUndoCommand
  index : Nat
  deriving DecidableEq

/-- Modelled from the spec: the Qt library method `QUndoStack::push`, which the repository
calls but does not contain. The spec's linear history: the command is executed (its `redo`
runs), the entries that were undone are discarded, and the command is merged into the last
entry when both have the same identifier other than `-1` and `mergeWith` accepts it,
otherwise it becomes the new last entry. -/
def QUndoStack.push (st : QUndoStack) (cmd : QUndoCommand) (scene : Option GraphicsScene) :
    QUndoStack × Option GraphicsScene :=
  let r := cmd.redo scene
  let kept := st.command_list.take st.index
  let cur := if st.index > 0 then st.command_list[st.index - 1]? else none
  let appended : QUndoStack := { command_list := kept ++ [r.1], index := st.index + 1 }
  match cur with
  | some c =>
    if c.id ≠ -1 ∧ c.id = r.1.id then
      if (c.mergeWith r.1).1 then
        ({ command_list := kept.set (st.index - 1) (c.mergeWith r.1).2, index := st.index }, r.2)
      else (appended, r.2)
    else (appended, r.2)
  | none => (appended, r.2)

/-- The class `MainWindow`, by the members that `deleteSelected` touches; `m_scene` is the
scene object that the pointer of this name holds since the constructor. -/
structure MainWindow where
  m_scene : GraphicsScene
  m_undoStack : QUndoStack
  m_isModified : Bool
  deriving DecidableEq

namespace MainWindow

/-- The statement `m_undoStack.push(cmd)` of a window: the stack and the scene afterwards. -/
def pushCommand (w : MainWindow) (cmd : QUndoCommand) : MainWindow :=
  let r := w.m_undoStack.push cmd (some w.m_scene)
  { w with
    m_undoStack := r.1
    m_scene :=
      match r.2 with
      | some sc => sc
      | none => w.m_scene }

/-- The method `MainWindow::deleteSelected`: one `DeleteEdgeCommand` is built and pushed for
each element of `selectedEdges()`, then one `DeleteNodeCommand` for each element of
`selectedNodes()`, which is read after the first loop. `freshEdge` and `freshNode` are the
default-constructed members of the commands; `staleEdge id` and `staleNode id` are what the
constructor of the command for `id` reads through its dangling pointer. -/
def deleteSelected (w : MainWindow) (freshEdge : ConceptEdge) (staleEdge : String → ConceptEdge)
    (freshNode : ConceptNode) (staleNode : String → ConceptNode) : MainWindow :=
  let selectedEdges := w.m_scene.selectedEdges
  let w1 := selectedEdges.foldl
    (fun st edge =>
      st.pushCommand
        (QUndoCommand.deleteEdge
          (DeleteEdgeCommand.new (some st.m_scene) edge.id freshEdge (staleEdge edge.id))))
    w
  let selectedNodes := w1.m_scene.selectedNodes
  let w2 := selectedNodes.foldl
    (fun st node =>
      st.pushCommand
        (QUndoCommand.deleteNode
          (DeleteNodeCommand.new (some st.m_scene) node.id freshNode (staleNode node.id))))
    w1
  { w2 with m_isModified := true }

end MainWindow

/-! ## Invariants, as predicates -/

/-- An index map agrees with a list of ids: it sends `k` to `i` exactly when position `i` of
the list holds `k`. In particular the ids are pairwise distinct, every listed id has an
entry, and no other key has one. -/
def IndexOK (ids : List String) (m : QMap Nat) : Prop :=
  ∀ k i, QMap.find? m k = some i ↔ ids[i]? = some k

/-- Well-formedness of a store: both indexes agree with their vectors. -/
def ConceptMap.WF (s : ConceptMap) : Prop :=
  IndexOK (s.m_nodes.map (fun n => n.id)) s.m_nodeIndexMap ∧
  IndexOK (s.m_edges.map (fun e => e.id)) s.m_edgeIndexMap

/-- Referential integrity: every edge's source and target are ids of nodes of the store. -/
def ConceptMap.RefIntegrity (s : ConceptMap) : Prop :=
  ∀ e ∈ s.edges, (∃ n ∈ s.nodes, n.id = e.sourceNodeId) ∧ (∃ n ∈ s.nodes, n.id = e.targetNodeId)

/-- The stores that the public interface can produce from an empty one. -/
inductive ConceptMap.Reachable : ConceptMap → Prop
  | empty (name : String) : Reachable (ConceptMap.mk0 name)
  | addNode (s : ConceptMap) (n : ConceptNode) : Reachable s → Reachable (s.addNode n).2
  | removeNode (s : ConceptMap) (id : String) : Reachable s → Reachable (s.removeNode id).2
  | updateNode (s : ConceptMap) (n : ConceptNode) : Reachable s → Reachable (s.updateNode n).2
  | clearNodes (s : ConceptMap) : Reachable s → Reachable s.clearNodes
  | addEdge (s : ConceptMap) (e : ConceptEdge) : Reachable s → Reachable (s.addEdge e).2
  | removeEdge (s : ConceptMap) (id : String) : Reachable s → Reachable (s.removeEdge id).2
  | updateEdge (s : ConceptMap) (e : ConceptEdge) : Reachable s → Reachable (s.updateEdge e).2
  | clearEdges (s : ConceptMap) : Reachable s → Reachable s.clearEdges
  | clear (s : ConceptMap) : Reachable s → Reachable s.clear

/-- Lockstep of a scene: each registry has exactly the ids of the store's entities of its
kind as keys. -/
def GraphicsScene.Lockstep (sc : GraphicsScene) : Prop :=
  (∀ id, (sc.graphicsNodeById id).isSome ↔ ∃ n ∈ sc.m_conceptMap.nodes, n.id = id) ∧
  (∀ id, (sc.graphicsEdgeById id).isSome ↔ ∃ e ∈ sc.m_conceptMap.edges, e.id = id)

/-- The scene invariant: the store is well formed and referentially intact, and the
registries are in lockstep with it. -/
def GraphicsScene.Inv (sc : GraphicsScene) : Prop :=
  sc.m_conceptMap.WF ∧ sc.m_conceptMap.RefIntegrity ∧ sc.Lockstep

/-- The states of a scene that pointer events lead to from a newly constructed scene. Any
other operation of the scene may come in between: none of them writes the two members of the
edge-creation gesture. -/
inductive GraphicsScene.EventReachable : GraphicsScene → Prop
  | init : EventReachable GraphicsScene.mk0
  | press (sc : GraphicsScene) (event : QGraphicsSceneMouseEvent) (item : Option SceneItem) :
      EventReachable sc → EventReachable (sc.mousePressEvent event item)
  | move (sc : GraphicsScene) (event : QGraphicsSceneMouseEvent)
      (dragged : List (String × QPointF ℚ)) :
      EventReachable sc → EventReachable (sc.mouseMoveEvent event dragged)
  | release (sc : GraphicsScene) (event : QGraphicsSceneMouseEvent) (item : Option SceneItem)
      (uuid : String) : EventReachable sc → EventReachable (sc.mouseReleaseEvent event item uuid)
  | other (sc sc' : GraphicsScene) : EventReachable sc →
      sc'.m_isCreatingEdge = sc.m_isCreatingEdge → sc'.m_edgeSourceNode = sc.m_edgeSourceNode →
      EventReachable sc'

/-! ## Sample data -/

/-- Node A of the end-to-end scenario: id `n1`, box `(0, 0, 100, 50)`. -/
def nodeA : ConceptNode :=
  { id := "n1", text := "A", x := 0, y := 0, width := 100, height := 50,
    color := ⟨200, 220, 240, 255⟩, style := "default", shape := NodeShape.Rectangle }

/-- Node B of the end-to-end scenario: id `n2`, box `(300, 0, 100, 50)`. -/
def nodeB : ConceptNode :=
  { id := "n2", text := "B", x := 300, y := 0, width := 100, height := 50,
    color := ⟨200, 220, 240, 255⟩, style := "default", shape := NodeShape.Rectangle }

/-- A third node, id `n3`. -/
def nodeC : ConceptNode :=
  { id := "n3", text := "C", x := 0, y := 200, width := 120, height := 60,
    color := ⟨200, 220, 240, 255⟩, style := "default", shape := NodeShape.Ellipse }

/-- Node A with another text: a value that a read of node A through a dangling pointer may
yield. -/
def nodeAStale : ConceptNode := { nodeA with text := "" }

/-- An edge from `n1` to `n2`. -/
def edgeAB : ConceptEdge :=
  { id := "e1", sourceNodeId := "n1", targetNodeId := "n2", label := "连接",
    color := ⟨100, 100, 100, 255⟩, style := "default" }

/-- The edge `edgeAB` re-targeted to an id that no node carries. -/
def edgeDangling : ConceptEdge := { edgeAB with targetNodeId := "ghost" }

/-- The store holding nodes A and B. -/
def storeAB : ConceptMap := (((ConceptMap.mk0 "m").addNode nodeA).2.addNode nodeB).2

/-- The store holding nodes A and B and the edge between them. -/
def storeABe : ConceptMap := (storeAB.addEdge edgeAB).2

/-- The scene after `GraphicsScene::addNode` of node A on a fresh scene. -/
def sceneA : GraphicsScene := (GraphicsScene.mk0.addNode nodeA).2

/-- The scene holding nodes A and B and the edge between them, built through the scene's own
operations. -/
def sceneABe : GraphicsScene := ((sceneA.addNode nodeB).2.addEdge edgeAB).2

/-- A model whose store and node table hold node A. -/
def modelA : MapModel :=
  { m_conceptMap := ((ConceptMap.mk0 "未命名概念图").addNode nodeA).2
    m_nodeModel := { m_nodes := [nodeA], m_nodeIndexMap := [("n1", 0)] }
    m_edgeModel := { m_edges := [], m_edgeIndexMap := [] } }

/-- A model whose store and tables hold nodes A and B and the edge between them. -/
def modelABe : MapModel :=
  { m_conceptMap := storeABe
    m_nodeModel := NodeModel.setNodes ⟨[], []⟩ storeABe.nodes
    m_edgeModel := EdgeModel.setEdges ⟨[], []⟩ storeABe.edges }

/-- The record of a file node with id `n2`. -/
def recordB : NodeRecord :=
  { id := "n2", text := "B", x := 300, y := 0, width := 100, height := 50,
    red := 200, green := 220, blue := 240, style := "default" }

/-- A file that decodes to the single node `n2` and no edge. -/
def documentB : Document := { nodes := [recordB], edges := [] }

/-- A plain left click. -/
def leftClick : QGraphicsSceneMouseEvent :=
  { button := MouseButton.LeftButton, shiftModifier := false, controlModifier := false,
    scenePos := ⟨10, 10⟩ }

/-- A left click with Control held. -/
def ctrlClick : QGraphicsSceneMouseEvent := { leftClick with controlModifier := true }

/-- A left press with Shift held. -/
def shiftPress : QGraphicsSceneMouseEvent := { leftClick with shiftModifier := true }

/-- The scene with nodes A and B and their edge, after a plain click on the edge. -/
def sceneEdgeClicked : GraphicsScene :=
  sceneABe.mousePressEvent leftClick (some (SceneItem.edge "e1"))

/-- The scene with nodes A and B and their edge, in the middle of the creation of an edge
that starts at node A. -/
def sceneDragging : GraphicsScene :=
  sceneABe.mousePressEvent shiftPress (some (SceneItem.node "n1"))

/-- A window whose scene holds nodes A and B and their edge, all three selected, and whose
undo stack is empty. -/
def windowAll : MainWindow :=
  { m_scene :=
      { sceneABe with
        m_graphicsNodes := sceneABe.m_graphicsNodes.map (fun p => (p.1, p.2.setSelectedNode true))
        m_graphicsEdges := sceneABe.m_graphicsEdges.map (fun p => (p.1, p.2.setSelectedEdge true)) }
    m_undoStack := { command_list := [], index := 0 }
    m_isModified := false }

/-- The box `(0, 0, 100, 50)` of node A. -/
def boxA : QRectF ℚ := ⟨0, 0, 100, 50⟩

/-- The box of the two examples, in double precision: top-left `(-50, -25)`, width `100`,
height `50`. -/
def boxExampleDouble : QRectF Double :=
  ⟨Double.finite (-50), Double.finite (-25), Double.finite 100, Double.finite 50⟩

/-- The point with the given finite coordinates, in double precision. -/
def pointDouble (x y : ℚ) : QPointF Double := ⟨Double.finite x, Double.finite y⟩

/-- A move of node `n1` from `(0, 0)` to `(10, 20)`. -/
def moveA : MoveNodeCommand := MoveNodeCommand.new "n1" ⟨0, 0⟩ ⟨10, 20⟩

/-- A second move of node `n1`, from `(10, 20)` to `(30, 40)`. -/
def moveA2 : MoveNodeCommand := MoveNodeCommand.new "n1" ⟨10, 20⟩ ⟨30, 40⟩

/-! ## Lemmas on `QMap` -/

namespace QMap

variable {V : Type}

theorem find?_insert (m : QMap V) (k k' : String) (v : V) :
    find? (insert m k v) k' = if k = k' then some v else find? m k' := by
  induction m with
  | nil => simp [insert, find?]
  | cons p rest ih =>
    obtain ⟨a, b⟩ := p
    simp only [insert]
    by_cases h1 : utf16 k < utf16 a
    · simp [h1, find?]
    · by_cases h2 : k = a
      · subst h2
        by_cases h3 : k = k' <;> simp [h1, find?, h3]
      · simp only [h1, h2, if_false, find?, ih]
        by_cases h3 : a = k'
        · have : k ≠ k' := fun h => h2 (h.trans h3.symm)
          simp [h3, this]
        · simp [h3]

theorem remove_cons (a : String) (b : V) (rest : QMap V) (k : String) :
    remove ((a, b) :: rest) k = if a = k then remove rest k else (a, b) :: remove rest k := by
  by_cases h : a = k <;> simp [remove, List.filter_cons, h]

theorem find?_remove (m : QMap V) (k k' : String) :
    find? (remove m k) k' = if k = k' then none else find? m k' := by
  induction m with
  | nil => simp [remove, find?]
  | cons p rest ih =>
    obtain ⟨a, b⟩ := p
    rw [remove_cons]
    by_cases h1 : a = k
    · rw [if_pos h1, ih]
      subst h1
      by_cases h2 : a = k' <;> simp [find?, h2]
    · rw [if_neg h1]
      simp only [find?, ih]
      by_cases h2 : a = k'
      · have : k ≠ k' := fun h => h1 (h2.trans h.symm)
        simp [h2, this]
      · simp [h2]

theorem find?_mapValues (f : V → V) (m : QMap V) (k : String) :
    find? (mapValues f m) k = (find? m k).map f := by
  induction m with
  | nil => simp [mapValues, find?]
  | cons p rest ih =>
    obtain ⟨a, b⟩ := p
    simp only [mapValues] at ih ⊢
    by_cases h : a = k
    · simp [find?, h]
    · simp [find?, h, ih]

theorem contains_iff (m : QMap V) (k : String) :
    contains m k = true ↔ ∃ v, find? m k = some v := by
  simp [contains, Option.isSome_iff_exists]

theorem contains_false_iff (m : QMap V) (k : String) :
    contains m k = false ↔ find? m k = none := by
  simp [contains]

theorem value_of_find? (m : QMap V) (k : String) (d v : V) (h : find? m k = some v) :
    value m k d = v := by
  simp [value, h]

end QMap

/-! ## Lemmas on lists and on index maps -/

theorem map_eraseIdx {α β : Type} (f : α → β) (l : List α) (i : Nat) :
    (l.eraseIdx i).map f = (l.map f).eraseIdx i := by
  induction l generalizing i with
  | nil => simp
  | cons a as ih => cases i <;> simp [ih]

theorem eraseIdx_eq_filter {α : Type} (f : α → String) (l : List α)
    (h : (l.map f).Nodup) (i : Nat) (k : String) (hi : (l.map f)[i]? = some k) :
    l.eraseIdx i = l.filter (fun a => decide (f a ≠ k)) := by
  induction l generalizing i with
  | nil => simp at hi
  | cons a as ih =>
    rw [List.map_cons, List.nodup_cons] at h
    cases i with
    | zero =>
      simp only [List.map_cons, List.getElem?_cons_zero, Option.some.injEq] at hi
      subst hi
      have hself : as.filter (fun b => decide (f b ≠ f a)) = as := by
        rw [List.filter_eq_self]
        intro b hb
        have hne : f b ≠ f a := fun e => h.1 (e ▸ List.mem_map_of_mem f hb)
        simpa using hne
      rw [List.filter_cons]
      simp only [ne_eq, not_true_eq_false, decide_False, Bool.false_eq_true, if_false]
      exact hself.symm
    | succ j =>
      simp only [List.map_cons, List.getElem?_cons_succ] at hi
      have hmem : k ∈ as.map f := List.mem_iff_getElem?.2 ⟨j, hi⟩
      have hne : f a ≠ k := fun e => h.1 (e ▸ hmem)
      simp [List.filter_cons, hne, ih h.2 j hi]

theorem IndexOK.nodup {ids : List String} {m : QMap Nat} (h : IndexOK ids m) : ids.Nodup := by
  rw [List.nodup_iff_getElem?_ne_getElem?]
  intro i j hij hj heq
  have hj' : ids[j]? = some ids[j] := List.getElem?_eq_getElem hj
  have hi' : ids[i]? = some ids[j] := heq.trans hj'
  have a := (h _ _).2 hi'
  have b := (h _ _).2 hj'
  rw [a] at b
  injection b with b
  omega

theorem IndexOK.find?_none_iff {ids : List String} {m : QMap Nat} (h : IndexOK ids m)
    (k : String) : QMap.find? m k = none ↔ k ∉ ids := by
  constructor
  · intro hn hmem
    obtain ⟨i, hi⟩ := List.mem_iff_getElem?.1 hmem
    rw [(h k i).2 hi] at hn
    cases hn
  · intro hn
    cases hf : QMap.find? m k with
    | none => rfl
    | some i => exact absurd (List.mem_iff_getElem?.2 ⟨i, (h k i).1 hf⟩) hn

theorem IndexOK.contains_iff_mem {ids : List String} {m : QMap Nat} (h : IndexOK ids m)
    (k : String) : QMap.contains m k = true ↔ k ∈ ids := by
  rw [← not_iff_not, Bool.not_eq_true, QMap.contains_false_iff, h.find?_none_iff]

theorem IndexOK.nil : IndexOK [] [] := by
  intro k i
  simp [QMap.find?]

theorem IndexOK.append {ids : List String} {m : QMap Nat} (h : IndexOK ids m) {k : String}
    (hk : QMap.find? m k = none) :
    IndexOK (ids ++ [k]) (QMap.insert m k (ids.length + 1 - 1)) := by
  intro k' i
  rw [QMap.find?_insert, List.getElem?_append, Nat.add_sub_cancel]
  by_cases hkk : k = k'
  · subst hkk
    simp only [if_true, Option.some.injEq]
    constructor
    · intro e
      subst e
      simp
    · intro e
      by_cases hlt : i < ids.length
      · rw [if_pos hlt] at e
        rw [(h k i).2 e] at hk
        cases hk
      · rw [if_neg hlt] at e
        have : i - ids.length < 1 := by
          by_contra hc
          rw [List.getElem?_eq_none (by simp only [List.length_singleton]; omega)] at e
          cases e
        omega
  · simp only [hkk, if_false]
    by_cases hlt : i < ids.length
    · rw [if_pos hlt]
      exact h k' i
    · rw [if_neg hlt]
      constructor
      · intro e
        have := (h k' i).1 e
        rw [List.getElem?_eq_none (by omega)] at this
        cases this
      · intro e
        cases hd : i - ids.length with
        | zero =>
          rw [hd] at e
          simp at e
          exact absurd e hkk
        | succ d =>
          rw [hd] at e
          simp at e

theorem IndexOK.erase {ids : List String} {m : QMap Nat} (h : IndexOK ids m) {k : String}
    {i0 : Nat} (hk : QMap.find? m k = some i0) :
    IndexOK (ids.eraseIdx i0)
      (QMap.remove (QMap.mapValues (fun v => if v > i0 then v - 1 else v) m) k) := by
  intro k' j
  rw [QMap.find?_remove, QMap.find?_mapValues, List.getElem?_eraseIdx]
  have hk0 := (h k i0).1 hk
  by_cases hkk : k = k'
  · subst hkk
    simp only [if_true]
    constructor
    · intro e
      cases e
    · intro e
      exfalso
      by_cases hlt : j < i0
      · rw [if_pos hlt] at e
        have := (h k j).2 e
        rw [hk] at this
        injection this with this
        omega
      · rw [if_neg hlt] at e
        have := (h k (j + 1)).2 e
        rw [hk] at this
        injection this with this
        omega
  · simp only [hkk, if_false]
    have hne : ∀ v, QMap.find? m k' = some v → v ≠ i0 := by
      intro v hv e
      subst e
      have h1 := (h k' v).1 hv
      rw [hk0] at h1
      injection h1
      contradiction
    constructor
    · intro e
      cases hf : QMap.find? m k' with
      | none => rw [hf] at e; cases e
      | some v =>
        rw [hf] at e
        simp only [Option.map_some', Option.some.injEq] at e
        have hv := hne v hf
        by_cases hlt : j < i0
        · rw [if_pos hlt]
          have : v = j := by
            by_cases hgt : v > i0
            · rw [if_pos hgt] at e; omega
            · rw [if_neg hgt] at e; exact e
          exact this ▸ (h k' v).1 hf
        · rw [if_neg hlt]
          have : v = j + 1 := by
            by_cases hgt : v > i0
            · rw [if_pos hgt] at e; omega
            · rw [if_neg hgt] at e; omega
          exact this ▸ (h k' v).1 hf
    · intro e
      by_cases hlt : j < i0
      · rw [if_pos hlt] at e
        rw [(h k' j).2 e]
        simp only [Option.map_some', Option.some.injEq]
        rw [if_neg (by omega)]
      · rw [if_neg hlt] at e
        rw [(h k' (j + 1)).2 e]
        simp only [Option.map_some', Option.some.injEq]
        rw [if_pos (by omega)]
        omega

theorem find?_reindexEdges (es : List ConceptEdge) (i : Nat) (m : QMap Nat)
    (hnd : (es.map (fun e => e.id)).Nodup) (k : String) (j : Nat) :
    QMap.find? (ConceptMap.reindexEdges es i m) k = some j ↔
      (∃ p, (es.map (fun e => e.id))[p]? = some k ∧ j = i + p) ∨
      (k ∉ es.map (fun e => e.id) ∧ QMap.find? m k = some j) := by
  induction es generalizing i m with
  | nil => simp [ConceptMap.reindexEdges]
  | cons e es ih =>
    rw [List.map_cons, List.nodup_cons] at hnd
    simp only [ConceptMap.reindexEdges]
    rw [ih (i + 1) (QMap.insert m e.id i) hnd.2, QMap.find?_insert]
    constructor
    · rintro (⟨p, hp, rfl⟩ | ⟨hn, hv⟩)
      · exact Or.inl ⟨p + 1, by simpa using hp, by omega⟩
      · by_cases hek : e.id = k
        · rw [if_pos hek] at hv
          injection hv with hv
          exact Or.inl ⟨0, by simp [hek], by omega⟩
        · rw [if_neg hek] at hv
          refine Or.inr ⟨?_, hv⟩
          simp only [List.map_cons, List.mem_cons, not_or]
          exact ⟨fun e' => hek e'.symm, hn⟩
    · rintro (⟨p, hp, rfl⟩ | ⟨hn, hv⟩)
      · cases p with
        | zero =>
          simp only [List.map_cons, List.getElem?_cons_zero, Option.some.injEq] at hp
          refine Or.inr ⟨hp ▸ hnd.1, ?_⟩
          simp [hp]
        | succ q =>
          simp only [List.map_cons, List.getElem?_cons_succ] at hp
          exact Or.inl ⟨q, hp, by omega⟩
      · simp only [List.map_cons, List.mem_cons, not_or] at hn
        refine Or.inr ⟨hn.2, ?_⟩
        rw [if_neg (fun e' => hn.1 e'.symm)]
        exact hv

theorem IndexOK.reindex (es : List ConceptEdge) (hnd : (es.map (fun e => e.id)).Nodup) :
    IndexOK (es.map (fun e => e.id)) (ConceptMap.reindexEdges es 0 []) := by
  intro k j
  rw [find?_reindexEdges es 0 [] hnd]
  constructor
  · rintro (⟨p, hp, rfl⟩ | ⟨_, hv⟩)
    · simpa using hp
    · simp [QMap.find?] at hv
  · intro hj
    exact Or.inl ⟨j, hj, by omega⟩

theorem IndexOK.set_ids {α : Type} (f : α → String) (l : List α) {m : QMap Nat}
    (h : IndexOK (l.map f) m) (a : α) {i : Nat} (hi : QMap.find? m (f a) = some i) :
    (l.set i a).map f = l.map f := by
  have hget := (h _ _).1 hi
  apply List.ext_getElem?
  intro j
  rw [List.map_set, List.getElem?_set]
  by_cases hij : i = j
  · subst hij
    rw [if_pos rfl, hget]
    have hlt : i < (l.map f).length := by
      rcases List.getElem?_eq_some.1 hget with ⟨hlt, _⟩
      exact hlt
    have hlt2 : i < l.length := by simpa using hlt
    simp [hlt2]
  · rw [if_neg hij]

theorem edgesByNodeId_loop (es acc : List ConceptEdge) (nodeId : String) :
    es.foldl
      (fun result edge =>
        if edge.sourceNodeId = nodeId ∨ edge.targetNodeId = nodeId then result ++ [edge]
        else result)
      acc =
    acc ++ es.filter (fun e => decide (e.sourceNodeId = nodeId ∨ e.targetNodeId = nodeId)) := by
  induction es generalizing acc with
  | nil => simp
  | cons e es ih =>
    rw [List.foldl_cons, ih, List.filter_cons]
    by_cases h : e.sourceNodeId = nodeId ∨ e.targetNodeId = nodeId
    · simp [h]
    · simp [h]

theorem edgesByNodeId_eq_filter (s : ConceptMap) (nodeId : String) :
    s.edgesByNodeId nodeId =
      s.edges.filter (fun e => decide (e.sourceNodeId = nodeId ∨ e.targetNodeId = nodeId)) := by
  unfold ConceptMap.edgesByNodeId ConceptMap.edges
  rw [edgesByNodeId_loop]
  simp

/-! ## Lemmas on the store operations -/

namespace ConceptMap

theorem mem_nodeIds (s : ConceptMap) (id : String) :
    id ∈ s.m_nodes.map (fun n => n.id) ↔ ∃ n ∈ s.nodes, n.id = id := by
  simp [nodes, List.mem_map]

theorem mem_edgeIds (s : ConceptMap) (id : String) :
    id ∈ s.m_edges.map (fun e => e.id) ↔ ∃ e ∈ s.edges, e.id = id := by
  simp [edges, List.mem_map]

theorem hasNode_iff {s : ConceptMap} (h : s.WF) (id : String) :
    s.hasNode id = true ↔ ∃ n ∈ s.nodes, n.id = id := by
  rw [hasNode, h.1.contains_iff_mem, mem_nodeIds]

theorem hasEdge_iff {s : ConceptMap} (h : s.WF) (id : String) :
    s.hasEdge id = true ↔ ∃ e ∈ s.edges, e.id = id := by
  rw [hasEdge, h.2.contains_iff_mem, mem_edgeIds]

theorem hasNode_false_iff {s : ConceptMap} (h : s.WF) (id : String) :
    s.hasNode id = false ↔ ∀ n ∈ s.nodes, n.id ≠ id := by
  rw [← Bool.not_eq_true, hasNode_iff h]
  simp

theorem hasEdge_false_iff {s : ConceptMap} (h : s.WF) (id : String) :
    s.hasEdge id = false ↔ ∀ e ∈ s.edges, e.id ≠ id := by
  rw [← Bool.not_eq_true, hasEdge_iff h]
  simp

theorem nodeById_of_find? {s : ConceptMap} {id : String} {i : Nat}
    (h : QMap.find? s.m_nodeIndexMap id = some i) : s.nodeById id = s.m_nodes[i]? := by
  simp [nodeById, QMap.contains, QMap.value, h]

theorem edgeById_of_find? {s : ConceptMap} {id : String} {i : Nat}
    (h : QMap.find? s.m_edgeIndexMap id = some i) : s.edgeById id = s.m_edges[i]? := by
  simp [edgeById, QMap.contains, QMap.value, h]

theorem nodeById_of_absent {s : ConceptMap} {id : String} (h : s.hasNode id = false) :
    s.nodeById id = none := by
  simp only [hasNode] at h
  simp [nodeById, h]

theorem edgeById_of_absent {s : ConceptMap} {id : String} (h : s.hasEdge id = false) :
    s.edgeById id = none := by
  simp only [hasEdge] at h
  simp [edgeById, h]

/-- In a well-formed store a lookup returns an element of the vector with the asked id. -/
theorem nodeById_eq_some_iff {s : ConceptMap} (h : s.WF) (id : String) (n : ConceptNode) :
    s.nodeById id = some n ↔ n ∈ s.nodes ∧ n.id = id := by
  constructor
  · intro hn
    cases hf : QMap.find? s.m_nodeIndexMap id with
    | none =>
      rw [nodeById_of_absent ((QMap.contains_false_iff _ _).2 hf)] at hn
      cases hn
    | some i =>
      rw [nodeById_of_find? hf] at hn
      have hi := (h.1 id i).1 hf
      rw [List.getElem?_map, hn] at hi
      exact ⟨List.mem_iff_getElem?.2 ⟨i, hn⟩, by simpa using hi⟩
  · rintro ⟨hmem, hid⟩
    obtain ⟨i, hi⟩ := List.mem_iff_getElem?.1 (show n ∈ s.m_nodes from hmem)
    have hf : QMap.find? s.m_nodeIndexMap id = some i := by
      apply (h.1 id i).2
      rw [List.getElem?_map, hi]
      simp [hid]
    rw [nodeById_of_find? hf, hi]

theorem edgeById_eq_some_iff {s : ConceptMap} (h : s.WF) (id : String) (e : ConceptEdge) :
    s.edgeById id = some e ↔ e ∈ s.edges ∧ e.id = id := by
  constructor
  · intro hn
    cases hf : QMap.find? s.m_edgeIndexMap id with
    | none =>
      rw [edgeById_of_absent ((QMap.contains_false_iff _ _).2 hf)] at hn
      cases hn
    | some i =>
      rw [edgeById_of_find? hf] at hn
      have hi := (h.2 id i).1 hf
      rw [List.getElem?_map, hn] at hi
      exact ⟨List.mem_iff_getElem?.2 ⟨i, hn⟩, by simpa using hi⟩
  · rintro ⟨hmem, hid⟩
    obtain ⟨i, hi⟩ := List.mem_iff_getElem?.1 (show e ∈ s.m_edges from hmem)
    have hf : QMap.find? s.m_edgeIndexMap id = some i := by
      apply (h.2 id i).2
      rw [List.getElem?_map, hi]
      simp [hid]
    rw [edgeById_of_find? hf, hi]

/-! ### `addNode`, `addEdge` -/

theorem addNode_of_absent {s : ConceptMap} {n : ConceptNode} (h : s.hasNode n.id = false) :
    s.addNode n = (true, { s with
      m_nodes := s.m_nodes ++ [n]
      m_nodeIndexMap := QMap.insert s.m_nodeIndexMap n.id (s.m_nodes.length + 1 - 1) }) := by
  simp [addNode, h]

theorem addNode_of_present {s : ConceptMap} {n : ConceptNode} (h : s.hasNode n.id = true) :
    s.addNode n = (false, s) := by
  simp [addNode, h]

theorem addNode_wf {s : ConceptMap} (h : s.WF) (n : ConceptNode) : (s.addNode n).2.WF := by
  cases hp : s.hasNode n.id with
  | true => rw [addNode_of_present hp]; exact h
  | false =>
    rw [addNode_of_absent hp]
    refine ⟨?_, h.2⟩
    simp only [List.map_append, List.map_cons, List.map_nil]
    have := h.1.append ((QMap.contains_false_iff _ _).1 hp)
    simpa using this

theorem addEdge_of_ok {s : ConceptMap} {e : ConceptEdge} (h1 : s.hasEdge e.id = false)
    (h2 : s.hasNode e.sourceNodeId = true) (h3 : s.hasNode e.targetNodeId = true) :
    s.addEdge e = (true, { s with
      m_edges := s.m_edges ++ [e]
      m_edgeIndexMap := QMap.insert s.m_edgeIndexMap e.id (s.m_edges.length + 1 - 1) }) := by
  simp [addEdge, h1, h2, h3]

theorem addEdge_fst (s : ConceptMap) (e : ConceptEdge) :
    (s.addEdge e).1 = true ↔
      s.hasEdge e.id = false ∧ s.hasNode e.sourceNodeId = true ∧
        s.hasNode e.targetNodeId = true := by
  unfold addEdge
  cases s.hasEdge e.id <;> cases s.hasNode e.sourceNodeId <;>
    cases s.hasNode e.targetNodeId <;> simp

theorem addEdge_of_fail {s : ConceptMap} {e : ConceptEdge} (h : (s.addEdge e).1 = false) :
    s.addEdge e = (false, s) := by
  unfold addEdge at h ⊢
  cases h1 : s.hasEdge e.id <;> cases h2 : s.hasNode e.sourceNodeId <;>
    cases h3 : s.hasNode e.targetNodeId <;> simp [h1, h2, h3] at h ⊢

theorem addEdge_wf {s : ConceptMap} (h : s.WF) (e : ConceptEdge) : (s.addEdge e).2.WF := by
  cases hr : (s.addEdge e).1 with
  | false => rw [addEdge_of_fail hr]; exact h
  | true =>
    obtain ⟨h1, h2, h3⟩ := (addEdge_fst s e).1 hr
    rw [addEdge_of_ok h1 h2 h3]
    refine ⟨h.1, ?_⟩
    simp only [List.map_append, List.map_cons, List.map_nil]
    have := h.2.append ((QMap.contains_false_iff _ _).1 h1)
    simpa using this

/-! ### `removeEdge` -/

theorem removeEdge_of_absent {s : ConceptMap} {id : String} (h : s.hasEdge id = false) :
    s.removeEdge id = (false, s) := by
  simp [removeEdge, h]

theorem removeEdge_of_present {s : ConceptMap} {id : String} {i : Nat}
    (h : QMap.find? s.m_edgeIndexMap id = some i) :
    s.removeEdge id = (true, { s with
      m_edges := s.m_edges.eraseIdx i
      m_edgeIndexMap := reindexEdges (s.m_edges.eraseIdx i) 0 [] }) := by
  have hc : s.hasEdge id = true := (QMap.contains_iff _ _).2 ⟨i, h⟩
  simp [removeEdge, hc, QMap.value, h]

theorem removeEdge_fst (s : ConceptMap) (id : String) :
    (s.removeEdge id).1 = s.hasEdge id := by
  unfold removeEdge
  cases s.hasEdge id <;> simp

theorem removeEdge_nodes (s : ConceptMap) (id : String) :
    (s.removeEdge id).2.m_nodes = s.m_nodes ∧
      (s.removeEdge id).2.m_nodeIndexMap = s.m_nodeIndexMap := by
  unfold removeEdge
  cases s.hasEdge id <;> simp

theorem removeEdge_edges {s : ConceptMap}
    (h : IndexOK (s.m_edges.map (fun e => e.id)) s.m_edgeIndexMap) (id : String) :
    (s.removeEdge id).2.m_edges = s.m_edges.filter (fun e => decide (e.id ≠ id)) := by
  cases hf : QMap.find? s.m_edgeIndexMap id with
  | none =>
    rw [removeEdge_of_absent ((QMap.contains_false_iff _ _).2 hf)]
    symm
    rw [List.filter_eq_self]
    intro e he
    have hn := (h.find?_none_iff id).1 hf
    have : e.id ≠ id := fun heq => hn (heq ▸ List.mem_map_of_mem (fun e => e.id) he)
    simpa using this
  | some i =>
    rw [removeEdge_of_present hf]
    exact eraseIdx_eq_filter (fun e => e.id) s.m_edges h.nodup i id ((h id i).1 hf)

theorem removeEdge_indexOK {s : ConceptMap}
    (h : IndexOK (s.m_edges.map (fun e => e.id)) s.m_edgeIndexMap) (id : String) :
    IndexOK ((s.removeEdge id).2.m_edges.map (fun e => e.id)) (s.removeEdge id).2.m_edgeIndexMap := by
  cases hf : QMap.find? s.m_edgeIndexMap id with
  | none =>
    rw [removeEdge_of_absent ((QMap.contains_false_iff _ _).2 hf)]
    exact h
  | some i =>
    rw [removeEdge_of_present hf]
    apply IndexOK.reindex
    exact List.Nodup.sublist ((List.eraseIdx_sublist _ _).map _) h.nodup

theorem removeEdge_wf {s : ConceptMap} (h : s.WF) (id : String) : (s.removeEdge id).2.WF := by
  refine ⟨?_, removeEdge_indexOK h.2 id⟩
  rw [(removeEdge_nodes s id).1, (removeEdge_nodes s id).2]
  exact h.1

/-- The loop of `removeNode` over the related edges. -/
theorem removeEdge_loop (rem : List ConceptEdge) (s : ConceptMap) (h : s.WF) :
    (rem.foldl (fun st edge => (st.removeEdge edge.id).2) s).WF ∧
    (rem.foldl (fun st edge => (st.removeEdge edge.id).2) s).m_nodes = s.m_nodes ∧
    (rem.foldl (fun st edge => (st.removeEdge edge.id).2) s).m_nodeIndexMap =
      s.m_nodeIndexMap ∧
    (rem.foldl (fun st edge => (st.removeEdge edge.id).2) s).m_edges =
      s.m_edges.filter (fun e => decide (e.id ∉ rem.map (fun r => r.id))) := by
  induction rem generalizing s with
  | nil => simp [h]
  | cons r rem ih =>
    rw [List.foldl_cons]
    obtain ⟨h1, h2, h3, h4⟩ := ih (s.removeEdge r.id).2 (removeEdge_wf h r.id)
    refine ⟨h1, ?_, ?_, ?_⟩
    · rw [h2, (removeEdge_nodes s r.id).1]
    · rw [h3, (removeEdge_nodes s r.id).2]
    · rw [h4, removeEdge_edges h.2, List.filter_filter]
      apply List.filter_congr
      intro e _
      by_cases hr : e.id = r.id
      · simp [hr]
      · simp [hr]

/-! ### `removeNode` -/

theorem removeNode_of_absent {s : ConceptMap} {id : String} (h : s.hasNode id = false) :
    s.removeNode id = (false, s) := by
  simp [removeNode, h]

theorem removeNode_fst (s : ConceptMap) (id : String) :
    (s.removeNode id).1 = s.hasNode id := by
  unfold removeNode
  cases s.hasNode id <;> simp

/-- The edges that survive the cascade of `removeNode` are those not incident to the node. -/
theorem cascade_filter {s : ConceptMap} (h : s.WF) (id : String) :
    s.m_edges.filter
        (fun e => decide (e.id ∉ (s.edgesByNodeId id).map (fun r => r.id))) =
      s.m_edges.filter (fun e => decide (¬(e.sourceNodeId = id ∨ e.targetNodeId = id))) := by
  apply List.filter_congr
  intro e he
  rw [edgesByNodeId_eq_filter]
  have hinj := List.inj_on_of_nodup_map h.2.nodup
  by_cases hinc : e.sourceNodeId = id ∨ e.targetNodeId = id
  · have hmem : e.id ∈ (s.edges.filter
        (fun e => decide (e.sourceNodeId = id ∨ e.targetNodeId = id))).map (fun r => r.id) := by
      apply List.mem_map_of_mem (fun r : ConceptEdge => r.id)
      rw [List.mem_filter]
      exact ⟨he, by simpa using hinc⟩
    simp only [hmem, hinc, not_true_eq_false, decide_False]
  · have hmem : e.id ∉ (s.edges.filter
        (fun e => decide (e.sourceNodeId = id ∨ e.targetNodeId = id))).map (fun r => r.id) := by
      intro hm
      obtain ⟨r, hr, hid⟩ := List.mem_map.1 hm
      rw [List.mem_filter] at hr
      have : r = e := hinj hr.1 he hid
      subst this
      exact hinc (by simpa using hr.2)
    simp only [hmem, hinc, not_false_eq_true, decide_True]

theorem removeNode_spec {s : ConceptMap} (h : s.WF) {id : String} (hp : s.hasNode id = true) :
    (s.removeNode id).2.WF ∧
    (s.removeNode id).2.m_nodes = s.m_nodes.filter (fun n => decide (n.id ≠ id)) ∧
    (s.removeNode id).2.m_edges =
      s.m_edges.filter (fun e => decide (¬(e.sourceNodeId = id ∨ e.targetNodeId = id))) := by
  obtain ⟨i, hi⟩ := (QMap.contains_iff _ _).1 hp
  obtain ⟨h1, h2, h3, h4⟩ := removeEdge_loop (s.edgesByNodeId id) s h
  have hv : QMap.value
      ((s.edgesByNodeId id).foldl (fun st edge => (st.removeEdge edge.id).2) s).m_nodeIndexMap
      id 0 = i := by
    rw [h3]
    exact QMap.value_of_find? _ _ _ _ hi
  simp only [removeNode, hp, Bool.not_true, Bool.false_eq_true, if_false, hv]
  refine ⟨⟨?_, h1.2⟩, ?_, ?_⟩
  · simp only [h2, h3]
    rw [map_eraseIdx]
    exact h.1.erase hi
  · simp only [h2]
    exact eraseIdx_eq_filter (fun n => n.id) s.m_nodes h.1.nodup i id ((h.1 id i).1 hi)
  · simp only [h4]
    exact cascade_filter h id

theorem removeNode_wf {s : ConceptMap} (h : s.WF) (id : String) : (s.removeNode id).2.WF := by
  cases hp : s.hasNode id with
  | false => rw [removeNode_of_absent hp]; exact h
  | true => exact (removeNode_spec h hp).1

/-! ### `updateNode`, `updateEdge` and the clearing operations -/

theorem updateNode_of_absent {s : ConceptMap} {n : ConceptNode} (h : s.hasNode n.id = false) :
    s.updateNode n = (false, s) := by
  simp [updateNode, h]

theorem updateNode_fst (s : ConceptMap) (n : ConceptNode) :
    (s.updateNode n).1 = s.hasNode n.id := by
  unfold updateNode
  cases s.hasNode n.id <;> simp

theorem updateEdge_of_absent {s : ConceptMap} {e : ConceptEdge} (h : s.hasEdge e.id = false) :
    s.updateEdge e = (false, s) := by
  simp [updateEdge, h]

theorem updateEdge_fst (s : ConceptMap) (e : ConceptEdge) :
    (s.updateEdge e).1 = s.hasEdge e.id := by
  unfold updateEdge
  cases s.hasEdge e.id <;> simp

theorem updateNode_wf {s : ConceptMap} (h : s.WF) (n : ConceptNode) :
    (s.updateNode n).2.WF := by
  cases hp : s.hasNode n.id with
  | false => rw [updateNode_of_absent hp]; exact h
  | true =>
    obtain ⟨i, hi⟩ := (QMap.contains_iff _ _).1 hp
    simp only [updateNode, hp, Bool.not_true, Bool.false_eq_true, if_false,
      QMap.value_of_find? _ _ _ _ hi]
    refine ⟨?_, h.2⟩
    show IndexOK ((s.m_nodes.set i n).map (fun n => n.id)) s.m_nodeIndexMap
    rw [IndexOK.set_ids (fun n : ConceptNode => n.id) s.m_nodes h.1 n hi]
    exact h.1

theorem updateEdge_wf {s : ConceptMap} (h : s.WF) (e : ConceptEdge) :
    (s.updateEdge e).2.WF := by
  cases hp : s.hasEdge e.id with
  | false => rw [updateEdge_of_absent hp]; exact h
  | true =>
    obtain ⟨i, hi⟩ := (QMap.contains_iff _ _).1 hp
    simp only [updateEdge, hp, Bool.not_true, Bool.false_eq_true, if_false,
      QMap.value_of_find? _ _ _ _ hi]
    refine ⟨h.1, ?_⟩
    show IndexOK ((s.m_edges.set i e).map (fun e => e.id)) s.m_edgeIndexMap
    rw [IndexOK.set_ids (fun e : ConceptEdge => e.id) s.m_edges h.2 e hi]
    exact h.2

theorem clearNodes_wf {s : ConceptMap} (h : s.WF) : s.clearNodes.WF :=
  ⟨IndexOK.nil, h.2⟩

theorem clearEdges_wf {s : ConceptMap} (h : s.WF) : s.clearEdges.WF :=
  ⟨h.1, IndexOK.nil⟩

theorem mk0_wf (name : String) : (mk0 name).WF := ⟨IndexOK.nil, IndexOK.nil⟩

/-- Every store that the public interface can produce is well formed. -/
theorem wf_reachable {s : ConceptMap} (h : s.Reachable) : s.WF := by
  induction h with
  | empty name => exact mk0_wf name
  | addNode s n _ ih => exact addNode_wf ih n
  | removeNode s id _ ih => exact removeNode_wf ih id
  | updateNode s n _ ih => exact updateNode_wf ih n
  | clearNodes s _ ih => exact clearNodes_wf ih
  | addEdge s e _ ih => exact addEdge_wf ih e
  | removeEdge s id _ ih => exact removeEdge_wf ih id
  | updateEdge s e _ ih => exact updateEdge_wf ih e
  | clearEdges s _ ih => exact clearEdges_wf ih
  | clear s _ ih => exact clearEdges_wf (clearNodes_wf ih)

theorem addNode_lookup {s : ConceptMap} {n : ConceptNode} (h : s.hasNode n.id = false) :
    (s.addNode n).1 = true ∧ (s.addNode n).2.nodeById n.id = some n ∧
      (s.addNode n).2.nodes = s.nodes ++ [n] ∧ (s.addNode n).2.edges = s.edges := by
  rw [addNode_of_absent h]
  refine ⟨rfl, ?_, rfl, rfl⟩
  have hf : QMap.find? (QMap.insert s.m_nodeIndexMap n.id (s.m_nodes.length + 1 - 1)) n.id =
      some s.m_nodes.length := by
    rw [QMap.find?_insert]
    simp
  rw [nodeById_of_find? hf]
  simp

theorem eraseIdx_split {α : Type} (l : List α) (i : Nat) (a : α) (h : l[i]? = some a) :
    ∃ pre post, l = pre ++ a :: post ∧ l.eraseIdx i = pre ++ post := by
  induction l generalizing i with
  | nil => simp at h
  | cons b bs ih =>
    cases i with
    | zero =>
      simp only [List.getElem?_cons_zero, Option.some.injEq] at h
      exact ⟨[], bs, by simp [h], by simp⟩
    | succ j =>
      simp only [List.getElem?_cons_succ] at h
      obtain ⟨pre, post, h1, h2⟩ := ih j h
      exact ⟨b :: pre, post, by simp [h1], by simp [h2]⟩

theorem filter_split {α : Type} (f : α → String) (l : List α) (h : (l.map f).Nodup)
    (k : String) (hk : k ∈ l.map f) :
    ∃ pre a post, l = pre ++ a :: post ∧ f a = k ∧
      l.filter (fun x => decide (f x ≠ k)) = pre ++ post := by
  obtain ⟨i, hi⟩ := List.mem_iff_getElem?.1 hk
  rw [← eraseIdx_eq_filter f l h i k hi]
  rw [List.getElem?_map] at hi
  cases ha : l[i]? with
  | none => rw [ha] at hi; cases hi
  | some a =>
    rw [ha] at hi
    obtain ⟨pre, post, h1, h2⟩ := eraseIdx_split l i a ha
    exact ⟨pre, a, post, h1, by simpa using hi, h2⟩

theorem addNode_fst (s : ConceptMap) (n : ConceptNode) :
    (s.addNode n).1 = !s.hasNode n.id := by
  unfold addNode
  cases s.hasNode n.id <;> simp

theorem indexOK_entry {α : Type} (f : α → String) (l : List α) {m : QMap Nat}
    (h : IndexOK (l.map f) m) (id : String) (hid : ∃ a ∈ l, f a = id) :
    ∃ i a, QMap.find? m id = some i ∧ i < l.length ∧ l[i]? = some a ∧ f a = id := by
  obtain ⟨a, ha, hfa⟩ := hid
  obtain ⟨i, hi⟩ := List.mem_iff_getElem?.1 ha
  refine ⟨i, a, ?_, ?_, hi, hfa⟩
  · apply (h id i).2
    rw [List.getElem?_map, hi]
    simp [hfa]
  · rcases List.getElem?_eq_some.1 hi with ⟨hlt, _⟩
    exact hlt

theorem indexOK_no_entry {α : Type} (f : α → String) (l : List α) {m : QMap Nat}
    (h : IndexOK (l.map f) m) (id : String) (hid : ∀ a ∈ l, f a ≠ id) :
    QMap.find? m id = none := by
  rw [h.find?_none_iff]
  intro hm
  obtain ⟨a, ha, hfa⟩ := List.mem_map.1 hm
  exact hid a ha hfa

theorem storeAB_wf : storeAB.WF := addNode_wf (addNode_wf (mk0_wf "m") nodeA) nodeB

theorem storeABe_wf : storeABe.WF := addEdge_wf storeAB_wf edgeAB

end ConceptMap

/-! ## The store: theorems -/

/-- C1: for every (well-formed) store `s` and every node `n` whose id is not the id of any
node of `s`, `addNode n` returns `true`; afterwards `nodeById n.id` returns a node equal to
`n`, and `nodes()` is the previous `nodes()` with `n` appended as its last element. -/
theorem addNode_then_lookup (s : ConceptMap) (n : ConceptNode) (hwf : s.WF)
    (hfresh : ∀ m ∈ s.nodes, m.id ≠ n.id) :
    (s.addNode n).1 = true ∧ (s.addNode n).2.nodeById n.id = some n ∧
      (s.addNode n).2.nodes = s.nodes ++ [n] ∧
      (s.addNode n).2.nodes.getLast? = some n := by
  have h := ConceptMap.addNode_lookup ((ConceptMap.hasNode_false_iff hwf n.id).2 hfresh)
  refine ⟨h.1, h.2.1, h.2.2.1, ?_⟩
  rw [h.2.2.1]
  simp

theorem addNode_then_lookup_witness :
    storeAB.WF ∧ (∀ m ∈ storeAB.nodes, m.id ≠ nodeC.id) ∧
      (storeAB.addNode nodeC).1 = true ∧ (storeAB.addNode nodeC).2.nodeById nodeC.id = some nodeC ∧
      (storeAB.addNode nodeC).2.nodes = storeAB.nodes ++ [nodeC] ∧
      (storeAB.addNode nodeC).2.nodes.getLast? = some nodeC :=
  ⟨ConceptMap.storeAB_wf, by decide,
    addNode_then_lookup storeAB nodeC ConceptMap.storeAB_wf (by decide)⟩

/-- C2: for every (well-formed) store `s` and every edge `e`, `addEdge e` returns `true` if
and only if no edge of `s` has id `e.id` and both `e.sourceNodeId` and `e.targetNodeId` are
ids of nodes of `s`; whenever it returns `false` the store, hence `nodes()` and `edges()`,
is unchanged. -/
theorem addEdge_contract (s : ConceptMap) (e : ConceptEdge) (hwf : s.WF) :
    ((s.addEdge e).1 = true ↔
        (∀ e' ∈ s.edges, e'.id ≠ e.id) ∧ (∃ n ∈ s.nodes, n.id = e.sourceNodeId) ∧
          (∃ n ∈ s.nodes, n.id = e.targetNodeId)) ∧
      ((s.addEdge e).1 = false →
        (s.addEdge e).2.nodes = s.nodes ∧ (s.addEdge e).2.edges = s.edges ∧
          (s.addEdge e).2 = s) := by
  constructor
  · rw [ConceptMap.addEdge_fst, ConceptMap.hasEdge_false_iff hwf, ConceptMap.hasNode_iff hwf,
      ConceptMap.hasNode_iff hwf]
  · intro h
    rw [ConceptMap.addEdge_of_fail h]
    exact ⟨rfl, rfl, rfl⟩

theorem addEdge_contract_witness :
    storeAB.WF ∧
      ((storeAB.addEdge edgeAB).1 = true ↔
        (∀ e' ∈ storeAB.edges, e'.id ≠ edgeAB.id) ∧
          (∃ n ∈ storeAB.nodes, n.id = edgeAB.sourceNodeId) ∧
          (∃ n ∈ storeAB.nodes, n.id = edgeAB.targetNodeId)) ∧
      ((storeAB.addEdge edgeAB).1 = false →
        (storeAB.addEdge edgeAB).2.nodes = storeAB.nodes ∧
          (storeAB.addEdge edgeAB).2.edges = storeAB.edges ∧
          (storeAB.addEdge edgeAB).2 = storeAB) :=
  ⟨ConceptMap.storeAB_wf, addEdge_contract storeAB edgeAB ConceptMap.storeAB_wf⟩

/-- C3: for every (well-formed) store and every node id present in it, `removeNode id`
returns `true`, and afterwards the node is absent (`nodeById id` is null, `hasNode id` is
false, no node carries the id), no edge of `edges()` has source or target `id`, and
`edgesByNodeId id` is empty. -/
theorem removeNode_cascade (s : ConceptMap) (id : String) (hwf : s.WF)
    (hpresent : ∃ n ∈ s.nodes, n.id = id) :
    (s.removeNode id).1 = true ∧ (s.removeNode id).2.nodeById id = none ∧
      (s.removeNode id).2.hasNode id = false ∧
      (∀ n ∈ (s.removeNode id).2.nodes, n.id ≠ id) ∧
      (∀ e ∈ (s.removeNode id).2.edges, e.sourceNodeId ≠ id ∧ e.targetNodeId ≠ id) ∧
      (s.removeNode id).2.edgesByNodeId id = [] := by
  have hp := (ConceptMap.hasNode_iff hwf id).2 hpresent
  obtain ⟨hwf', hnodes, hedges⟩ := ConceptMap.removeNode_spec hwf hp
  have hno : ∀ n ∈ (s.removeNode id).2.nodes, n.id ≠ id := by
    intro n hn
    have hn' : n ∈ (s.removeNode id).2.m_nodes := hn
    rw [hnodes, List.mem_filter] at hn'
    simpa using hn'.2
  have habs := (ConceptMap.hasNode_false_iff hwf' id).2 hno
  have hinc : ∀ e ∈ (s.removeNode id).2.edges, e.sourceNodeId ≠ id ∧ e.targetNodeId ≠ id := by
    intro e he
    have he' : e ∈ (s.removeNode id).2.m_edges := he
    rw [hedges, List.mem_filter] at he'
    simpa using he'.2
  refine ⟨by rw [ConceptMap.removeNode_fst, hp], ConceptMap.nodeById_of_absent habs, habs, hno,
    hinc, ?_⟩
  rw [edgesByNodeId_eq_filter, List.filter_eq_nil_iff]
  intro e he
  have := hinc e he
  simp [this.1, this.2]

theorem removeNode_cascade_witness :
    storeABe.WF ∧ (∃ n ∈ storeABe.nodes, n.id = "n1") ∧
      (storeABe.removeNode "n1").1 = true ∧ (storeABe.removeNode "n1").2.nodeById "n1" = none ∧
      (storeABe.removeNode "n1").2.hasNode "n1" = false ∧
      (∀ n ∈ (storeABe.removeNode "n1").2.nodes, n.id ≠ "n1") ∧
      (∀ e ∈ (storeABe.removeNode "n1").2.edges,
        e.sourceNodeId ≠ "n1" ∧ e.targetNodeId ≠ "n1") ∧
      (storeABe.removeNode "n1").2.edgesByNodeId "n1" = [] :=
  ⟨ConceptMap.storeABe_wf, by decide,
    removeNode_cascade storeABe "n1" ConceptMap.storeABe_wf (by decide)⟩

/-- C5: failure contract of a (well-formed) store. `addNode` returns `false` exactly when a
node with the given id is present; `removeNode`, `updateNode` return `false` exactly when no
node has the given id, `removeEdge`, `updateEdge` exactly when no edge has it; and in every
failing case the store, hence `nodes()` and `edges()`, is unchanged. -/
theorem failure_contract (s : ConceptMap) (hwf : s.WF) (n : ConceptNode) (e : ConceptEdge)
    (id : String) :
    (((s.addNode n).1 = false ↔ ∃ m ∈ s.nodes, m.id = n.id) ∧
      ((s.addNode n).1 = false →
        (s.addNode n).2.nodes = s.nodes ∧ (s.addNode n).2.edges = s.edges)) ∧
    (((s.removeNode id).1 = false ↔ ∀ m ∈ s.nodes, m.id ≠ id) ∧
      ((s.removeNode id).1 = false →
        (s.removeNode id).2.nodes = s.nodes ∧ (s.removeNode id).2.edges = s.edges)) ∧
    (((s.removeEdge id).1 = false ↔ ∀ e' ∈ s.edges, e'.id ≠ id) ∧
      ((s.removeEdge id).1 = false →
        (s.removeEdge id).2.nodes = s.nodes ∧ (s.removeEdge id).2.edges = s.edges)) ∧
    (((s.updateNode n).1 = false ↔ ∀ m ∈ s.nodes, m.id ≠ n.id) ∧
      ((s.updateNode n).1 = false →
        (s.updateNode n).2.nodes = s.nodes ∧ (s.updateNode n).2.edges = s.edges)) ∧
    (((s.updateEdge e).1 = false ↔ ∀ e' ∈ s.edges, e'.id ≠ e.id) ∧
      ((s.updateEdge e).1 = false →
        (s.updateEdge e).2.nodes = s.nodes ∧ (s.updateEdge e).2.edges = s.edges)) := by
  refine ⟨⟨?_, ?_⟩, ⟨?_, ?_⟩, ⟨?_, ?_⟩, ⟨?_, ?_⟩, ⟨?_, ?_⟩⟩
  · rw [ConceptMap.addNode_fst, Bool.not_eq_false', ConceptMap.hasNode_iff hwf]
  · intro h
    rw [ConceptMap.addNode_fst, Bool.not_eq_false'] at h
    rw [ConceptMap.addNode_of_present h]
    exact ⟨rfl, rfl⟩
  · rw [ConceptMap.removeNode_fst, ConceptMap.hasNode_false_iff hwf]
  · intro h
    rw [ConceptMap.removeNode_fst] at h
    rw [ConceptMap.removeNode_of_absent h]
    exact ⟨rfl, rfl⟩
  · rw [ConceptMap.removeEdge_fst, ConceptMap.hasEdge_false_iff hwf]
  · intro h
    rw [ConceptMap.removeEdge_fst] at h
    rw [ConceptMap.removeEdge_of_absent h]
    exact ⟨rfl, rfl⟩
  · rw [ConceptMap.updateNode_fst, ConceptMap.hasNode_false_iff hwf]
  · intro h
    rw [ConceptMap.updateNode_fst] at h
    rw [ConceptMap.updateNode_of_absent h]
    exact ⟨rfl, rfl⟩
  · rw [ConceptMap.updateEdge_fst, ConceptMap.hasEdge_false_iff hwf]
  · intro h
    rw [ConceptMap.updateEdge_fst] at h
    rw [ConceptMap.updateEdge_of_absent h]
    exact ⟨rfl, rfl⟩

theorem failure_contract_witness :
    storeABe.WF ∧ (storeABe.addNode nodeA).1 = false ∧ (storeABe.removeNode "n3").1 = false ∧
      (storeABe.removeEdge "e9").1 = false ∧ (storeABe.updateNode nodeC).1 = false ∧
      (storeABe.addNode nodeA).2.nodes = storeABe.nodes ∧
      (storeABe.removeNode "n3").2.edges = storeABe.edges :=
  have h := failure_contract storeABe ConceptMap.storeABe_wf nodeA edgeAB "n3"
  ⟨ConceptMap.storeABe_wf, by decide, by decide, by decide, by decide,
    (h.1.2 (by decide)).1, (h.2.1.2 (by decide)).2⟩

/-- C6: removal preserves insertion order and touches nothing else, in a (well-formed)
store. After a successful `removeNode id`, `nodes()` is the previous `nodes()` with the
single node of that id deleted (`pre ++ n :: post` becomes `pre ++ post`) and `edges()` is
the previous `edges()` without the edges incident to `id`, the others kept in order; after a
successful `removeEdge id`, `edges()` is the previous `edges()` with that one edge deleted
in unchanged order, and `nodes()` is unchanged. -/
theorem removal_keeps_order (s : ConceptMap) (hwf : s.WF) (id : String) :
    ((s.removeNode id).1 = true →
      (∃ pre n post, s.nodes = pre ++ n :: post ∧ n.id = id ∧
        (∀ m ∈ pre ++ post, m.id ≠ id) ∧ (s.removeNode id).2.nodes = pre ++ post) ∧
      (s.removeNode id).2.edges =
        s.edges.filter (fun e => decide (¬(e.sourceNodeId = id ∨ e.targetNodeId = id)))) ∧
    ((s.removeEdge id).1 = true →
      (∃ pre e post, s.edges = pre ++ e :: post ∧ e.id = id ∧
        (∀ e' ∈ pre ++ post, e'.id ≠ id) ∧ (s.removeEdge id).2.edges = pre ++ post) ∧
      (s.removeEdge id).2.nodes = s.nodes) := by
  constructor
  · intro h
    rw [ConceptMap.removeNode_fst] at h
    obtain ⟨_, hnodes, hedges⟩ := ConceptMap.removeNode_spec hwf h
    have hmem : id ∈ s.m_nodes.map (fun n => n.id) := (hwf.1.contains_iff_mem id).1 h
    obtain ⟨pre, n, post, h1, h2, h3⟩ :=
      ConceptMap.filter_split (fun n : ConceptNode => n.id) s.m_nodes hwf.1.nodup id hmem
    refine ⟨⟨pre, n, post, h1, h2, ?_, ?_⟩, hedges⟩
    · intro m hm
      rw [← h3, List.mem_filter] at hm
      simpa using hm.2
    · exact hnodes.trans h3
  · intro h
    rw [ConceptMap.removeEdge_fst] at h
    have hmem : id ∈ s.m_edges.map (fun e => e.id) := (hwf.2.contains_iff_mem id).1 h
    obtain ⟨pre, e, post, h1, h2, h3⟩ :=
      ConceptMap.filter_split (fun e : ConceptEdge => e.id) s.m_edges hwf.2.nodup id hmem
    refine ⟨⟨pre, e, post, h1, h2, ?_, ?_⟩, (ConceptMap.removeEdge_nodes s id).1⟩
    · intro m hm
      rw [← h3, List.mem_filter] at hm
      simpa using hm.2
    · exact (ConceptMap.removeEdge_edges hwf.2 id).trans h3

theorem removal_keeps_order_witness :
    storeABe.WF ∧ (storeABe.removeNode "n1").1 = true ∧
      (storeABe.removeNode "n1").2.edges =
        storeABe.edges.filter
          (fun e => decide (¬(e.sourceNodeId = "n1" ∨ e.targetNodeId = "n1"))) :=
  ⟨ConceptMap.storeABe_wf, by decide,
    ((removal_keeps_order storeABe ConceptMap.storeABe_wf "n1").1 (by decide)).2⟩

/-- C7: for every (well-formed) store and every id, present or not, `edgesByNodeId id` is
the sub-list of `edges()` of the edges whose source or target is `id`, in the order of
`edges()`: an edge of the store that touches `id` occurs exactly once in the result (a
self-loop too), and nothing else occurs. The method is `const`: it is a function of the
store and returns no new store. -/
theorem edgesByNodeId_exact (s : ConceptMap) (hwf : s.WF) (id : String) :
    s.edgesByNodeId id =
        s.edges.filter (fun e => decide (e.sourceNodeId = id ∨ e.targetNodeId = id)) ∧
      (∀ e, e ∈ s.edgesByNodeId id ↔
        e ∈ s.edges ∧ (e.sourceNodeId = id ∨ e.targetNodeId = id)) ∧
      (∀ e, (s.edgesByNodeId id).count e =
        if e ∈ s.edges ∧ (e.sourceNodeId = id ∨ e.targetNodeId = id) then 1 else 0) := by
  have hnd : s.edges.Nodup := List.Nodup.of_map _ hwf.2.nodup
  have hmem : ∀ e, e ∈ s.edgesByNodeId id ↔
      e ∈ s.edges ∧ (e.sourceNodeId = id ∨ e.targetNodeId = id) := by
    intro e
    rw [edgesByNodeId_eq_filter, List.mem_filter]
    simp
  refine ⟨edgesByNodeId_eq_filter s id, hmem, ?_⟩
  intro e
  have hnd' : (s.edgesByNodeId id).Nodup := by
    rw [edgesByNodeId_eq_filter]
    exact hnd.filter _
  by_cases h : e ∈ s.edges ∧ (e.sourceNodeId = id ∨ e.targetNodeId = id)
  · rw [if_pos h]
    exact List.count_eq_one_of_mem hnd' ((hmem e).2 h)
  · rw [if_neg h]
    exact List.count_eq_zero_of_not_mem (fun hm => h ((hmem e).1 hm))

theorem edgesByNodeId_exact_witness :
    storeABe.WF ∧ storeABe.edgesByNodeId "n2" = [edgeAB] ∧
      (storeABe.edgesByNodeId "n2").count edgeAB = 1 ∧ storeABe.edgesByNodeId "zz" = [] :=
  have h := edgesByNodeId_exact storeABe ConceptMap.storeABe_wf "n2"
  ⟨ConceptMap.storeABe_wf, h.1.trans (by decide), (h.2.2 edgeAB).trans (by decide),
    by decide⟩

/-- C8: id uniqueness and index consistency hold in every store reachable from an empty
store by `addNode`, `removeNode`, `updateNode`, `addEdge`, `removeEdge`, `updateEdge` and
the clear operations: no two nodes share an id and no two edges share an id; each index maps
every present id to a valid position whose entity has exactly that id, and has no entry for
an absent id; so `nodeById` / `edgeById` return the entity of the store with the requested
id when there is one, and null otherwise. -/
theorem reachable_index_consistent (s : ConceptMap) (h : s.Reachable) :
    (s.nodes.map (fun n => n.id)).Nodup ∧ (s.edges.map (fun e => e.id)).Nodup ∧
    (∀ id, (∃ n ∈ s.nodes, n.id = id) →
      ∃ i n, QMap.find? s.m_nodeIndexMap id = some i ∧ i < s.nodes.length ∧
        s.nodes[i]? = some n ∧ n.id = id ∧ s.nodeById id = some n) ∧
    (∀ id, (∀ n ∈ s.nodes, n.id ≠ id) →
      QMap.find? s.m_nodeIndexMap id = none ∧ s.nodeById id = none) ∧
    (∀ id, (∃ e ∈ s.edges, e.id = id) →
      ∃ i e, QMap.find? s.m_edgeIndexMap id = some i ∧ i < s.edges.length ∧
        s.edges[i]? = some e ∧ e.id = id ∧ s.edgeById id = some e) ∧
    (∀ id, (∀ e ∈ s.edges, e.id ≠ id) →
      QMap.find? s.m_edgeIndexMap id = none ∧ s.edgeById id = none) := by
  have hwf := ConceptMap.wf_reachable h
  refine ⟨hwf.1.nodup, hwf.2.nodup, ?_, ?_, ?_, ?_⟩
  · intro id hid
    obtain ⟨i, n, h1, h2, h3, h4⟩ :=
      ConceptMap.indexOK_entry (fun n : ConceptNode => n.id) s.m_nodes hwf.1 id hid
    exact ⟨i, n, h1, h2, h3, h4, (ConceptMap.nodeById_of_find? h1).trans h3⟩
  · intro id hid
    exact ⟨ConceptMap.indexOK_no_entry (fun n : ConceptNode => n.id) s.m_nodes hwf.1 id hid,
      ConceptMap.nodeById_of_absent ((ConceptMap.hasNode_false_iff hwf id).2 hid)⟩
  · intro id hid
    obtain ⟨i, e, h1, h2, h3, h4⟩ :=
      ConceptMap.indexOK_entry (fun e : ConceptEdge => e.id) s.m_edges hwf.2 id hid
    exact ⟨i, e, h1, h2, h3, h4, (ConceptMap.edgeById_of_find? h1).trans h3⟩
  · intro id hid
    exact ⟨ConceptMap.indexOK_no_entry (fun e : ConceptEdge => e.id) s.m_edges hwf.2 id hid,
      ConceptMap.edgeById_of_absent ((ConceptMap.hasEdge_false_iff hwf id).2 hid)⟩

theorem reachable_index_consistent_witness :
    (storeABe.removeNode "n2").2.Reachable ∧
      ((storeABe.removeNode "n2").2.nodes.map (fun n => n.id)).Nodup ∧
      (storeABe.removeNode "n2").2.nodeById "n1" = some nodeA ∧
      (storeABe.removeNode "n2").2.nodeById "n2" = none :=
  have hr : (storeABe.removeNode "n2").2.Reachable :=
    ConceptMap.Reachable.removeNode _ "n2"
      (ConceptMap.Reachable.addEdge _ edgeAB
        (ConceptMap.Reachable.addNode _ nodeB
          (ConceptMap.Reachable.addNode _ nodeA (ConceptMap.Reachable.empty "m"))))
  have h := reachable_index_consistent (storeABe.removeNode "n2").2 hr
  ⟨hr, h.1, by decide, (h.2.2.2.1 "n2" (by decide)).2⟩

namespace ConceptMap

theorem refIntegrity_iff (s : ConceptMap) :
    s.RefIntegrity ↔ ∀ e ∈ s.m_edges,
      e.sourceNodeId ∈ s.m_nodes.map (fun n => n.id) ∧
        e.targetNodeId ∈ s.m_nodes.map (fun n => n.id) := by
  unfold RefIntegrity
  simp only [mem_nodeIds]
  rfl

/-- Referential integrity survives any change that keeps every node id and adds no edge. -/
theorem refIntegrity_mono {s t : ConceptMap} (h : s.RefIntegrity)
    (hn : ∀ id, id ∈ s.m_nodes.map (fun n => n.id) → id ∈ t.m_nodes.map (fun n => n.id))
    (he : ∀ e ∈ t.m_edges, e ∈ s.m_edges) : t.RefIntegrity := by
  rw [refIntegrity_iff] at h ⊢
  intro e het
  exact ⟨hn _ (h e (he e het)).1, hn _ (h e (he e het)).2⟩

/-- The operations that keep referential integrity: every public mutating operation except
`clearNodes`, and `updateEdge` as long as the new value's endpoints are present. -/
theorem refIntegrity_preserved (s : ConceptMap) (hwf : s.WF) (h : s.RefIntegrity)
    (n : ConceptNode) (e : ConceptEdge) (id : String) :
    (s.addNode n).2.RefIntegrity ∧ (s.removeNode id).2.RefIntegrity ∧
    (s.updateNode n).2.RefIntegrity ∧ (s.addEdge e).2.RefIntegrity ∧
    (s.removeEdge id).2.RefIntegrity ∧ s.clearEdges.RefIntegrity ∧ s.clear.RefIntegrity ∧
    ((∃ a ∈ s.nodes, a.id = e.sourceNodeId) → (∃ b ∈ s.nodes, b.id = e.targetNodeId) →
      (s.updateEdge e).2.RefIntegrity) := by
  refine ⟨?_, ?_, ?_, ?_, ?_, ?_, ?_, ?_⟩
  · cases hp : s.hasNode n.id with
    | true => rw [addNode_of_present hp]; exact h
    | false =>
      rw [addNode_of_absent hp]
      refine refIntegrity_mono h ?_ (fun e he => he)
      intro k hk
      simp only [List.map_append, List.mem_append]
      exact Or.inl hk
  · cases hp : s.hasNode id with
    | false => rw [removeNode_of_absent hp]; exact h
    | true =>
      obtain ⟨_, hnodes, hedges⟩ := removeNode_spec hwf hp
      rw [refIntegrity_iff] at h ⊢
      intro x hx
      rw [hedges, List.mem_filter] at hx
      have hinc : x.sourceNodeId ≠ id ∧ x.targetNodeId ≠ id := by simpa using hx.2
      have hkeep : ∀ k, k ≠ id → k ∈ s.m_nodes.map (fun n => n.id) →
          k ∈ (s.removeNode id).2.m_nodes.map (fun n => n.id) := by
        intro k hk hmem
        obtain ⟨a, ha, hak⟩ := List.mem_map.1 hmem
        rw [hnodes]
        refine List.mem_map.2 ⟨a, ?_, hak⟩
        rw [List.mem_filter]
        exact ⟨ha, by simpa [hak] using hk⟩
      exact ⟨hkeep _ hinc.1 (h x hx.1).1, hkeep _ hinc.2 (h x hx.1).2⟩
  · cases hp : s.hasNode n.id with
    | false => rw [updateNode_of_absent hp]; exact h
    | true =>
      obtain ⟨i, hi⟩ := (QMap.contains_iff _ _).1 hp
      simp only [updateNode, hp, Bool.not_true, Bool.false_eq_true, if_false,
        QMap.value_of_find? _ _ _ _ hi]
      refine refIntegrity_mono h ?_ (fun e he => he)
      intro k hk
      show k ∈ (s.m_nodes.set i n).map (fun n => n.id)
      rw [IndexOK.set_ids (fun n : ConceptNode => n.id) s.m_nodes hwf.1 n hi]
      exact hk
  · cases hr : (s.addEdge e).1 with
    | false => rw [addEdge_of_fail hr]; exact h
    | true =>
      obtain ⟨h1, h2, h3⟩ := (addEdge_fst s e).1 hr
      rw [addEdge_of_ok h1 h2 h3]
      rw [refIntegrity_iff] at h ⊢
      intro x hx
      simp only [List.mem_append, List.mem_singleton] at hx
      rcases hx with hx | hx
      · exact h x hx
      · subst hx
        exact ⟨(hwf.1.contains_iff_mem _).1 h2, (hwf.1.contains_iff_mem _).1 h3⟩
  · refine refIntegrity_mono h ?_ ?_
    · intro k hk
      rw [(removeEdge_nodes s id).1]
      exact hk
    · intro x hx
      rw [removeEdge_edges hwf.2, List.mem_filter] at hx
      exact hx.1
  · intro x hx
    simp [clearEdges, edges] at hx
  · intro x hx
    simp [clear, clearEdges, edges] at hx
  · intro hsrc htgt
    cases hp : s.hasEdge e.id with
    | false => rw [updateEdge_of_absent hp]; exact h
    | true =>
      obtain ⟨i, hi⟩ := (QMap.contains_iff _ _).1 hp
      simp only [updateEdge, hp, Bool.not_true, Bool.false_eq_true, if_false,
        QMap.value_of_find? _ _ _ _ hi]
      intro x hx
      have hx' : x ∈ s.m_edges.set i e := hx
      rcases List.mem_or_eq_of_mem_set hx' with hx'' | hx''
      · exact h x hx''
      · subst hx''
        exact ⟨hsrc, htgt⟩

end ConceptMap

/-- C4, at the inputs where the code departs from it. The store `storeABe` (nodes `n1`,
`n2`, edge `e1` from `n1` to `n2`) is well formed and satisfies referential integrity, yet
`updateEdge` with the edge re-targeted to the absent id `ghost` succeeds and leaves an edge
whose target is no node of the store, and `clearNodes` leaves the edge `e1` in a store
without nodes: neither result satisfies referential integrity. -/
theorem refIntegrity_broken_by_updateEdge_and_clearNodes :
    storeABe.WF ∧ storeABe.RefIntegrity ∧
      (storeABe.updateEdge edgeDangling).1 = true ∧
      (storeABe.updateEdge edgeDangling).2.edges = [edgeDangling] ∧
      ¬ (storeABe.updateEdge edgeDangling).2.RefIntegrity ∧
      storeABe.clearNodes.nodes = [] ∧ storeABe.clearNodes.edges = [edgeAB] ∧
      ¬ storeABe.clearNodes.RefIntegrity := by
  refine ⟨ConceptMap.storeABe_wf, ?_, by decide, by decide, ?_, by decide, by decide, ?_⟩
  · unfold ConceptMap.RefIntegrity
    decide
  · unfold ConceptMap.RefIntegrity
    decide
  · unfold ConceptMap.RefIntegrity
    decide

/-! ## The scene and the `AddNode` command -/

namespace GraphicsScene

theorem removeEdge_store (sc : GraphicsScene) (id : String) :
    (sc.removeEdge id).2.m_conceptMap = sc.m_conceptMap ∨
      (sc.removeEdge id).2.m_conceptMap = (sc.m_conceptMap.removeEdge id).2 := by
  unfold removeEdge
  cases sc.graphicsEdgeById id with
  | none => exact Or.inl rfl
  | some g => exact Or.inr rfl

theorem removeEdge_nodeRegistry (sc : GraphicsScene) (id : String) :
    (sc.removeEdge id).2.m_graphicsNodes = sc.m_graphicsNodes := by
  unfold removeEdge
  cases sc.graphicsEdgeById id <;> rfl

/-- The loop of `GraphicsScene::removeNode` over the related edges keeps the store well
formed and leaves the nodes, their index and the node registry alone. -/
theorem registry_removeEdge_loop (rem : List ConceptEdge) (sc : GraphicsScene)
    (h : sc.m_conceptMap.WF) :
    (rem.foldl (fun st edge => (st.removeEdge edge.id).2) sc).m_conceptMap.WF ∧
    (rem.foldl (fun st edge => (st.removeEdge edge.id).2) sc).m_conceptMap.m_nodes =
      sc.m_conceptMap.m_nodes ∧
    (rem.foldl (fun st edge => (st.removeEdge edge.id).2) sc).m_conceptMap.m_nodeIndexMap =
      sc.m_conceptMap.m_nodeIndexMap ∧
    (rem.foldl (fun st edge => (st.removeEdge edge.id).2) sc).m_graphicsNodes =
      sc.m_graphicsNodes := by
  induction rem generalizing sc with
  | nil => exact ⟨h, rfl, rfl, rfl⟩
  | cons r rem ih =>
    rw [List.foldl_cons]
    have hstep : (sc.removeEdge r.id).2.m_conceptMap.WF ∧
        (sc.removeEdge r.id).2.m_conceptMap.m_nodes = sc.m_conceptMap.m_nodes ∧
        (sc.removeEdge r.id).2.m_conceptMap.m_nodeIndexMap =
          sc.m_conceptMap.m_nodeIndexMap := by
      rcases removeEdge_store sc r.id with e | e
      · rw [e]
        exact ⟨h, rfl, rfl⟩
      · rw [e]
        exact ⟨ConceptMap.removeEdge_wf h r.id, (ConceptMap.removeEdge_nodes _ _).1,
          (ConceptMap.removeEdge_nodes _ _).2⟩
    obtain ⟨h1, h2, h3, h4⟩ := ih (sc.removeEdge r.id).2 hstep.1
    exact ⟨h1, h2.trans hstep.2.1, h3.trans hstep.2.2,
      h4.trans (removeEdge_nodeRegistry sc r.id)⟩

/-- What `GraphicsScene::removeNode` does to the store when the registry knows the id and
the store holds a node of that id. -/
theorem removeNode_store {sc : GraphicsScene} (hwf : sc.m_conceptMap.WF) {id : String}
    {g : GraphicsNode} (hreg : sc.graphicsNodeById id = some g)
    (hp : sc.m_conceptMap.hasNode id = true) :
    (sc.removeNode id).1 = true ∧ (sc.removeNode id).2.m_conceptMap.WF ∧
      (sc.removeNode id).2.m_conceptMap.m_nodes =
        sc.m_conceptMap.m_nodes.filter (fun n => decide (n.id ≠ id)) ∧
      (sc.removeNode id).2.graphicsNodeById id = none := by
  obtain ⟨h1, h2, h3, h4⟩ :=
    registry_removeEdge_loop (sc.m_conceptMap.edgesByNodeId id) sc hwf
  have hp' : ((sc.m_conceptMap.edgesByNodeId id).foldl
      (fun st edge => (st.removeEdge edge.id).2) sc).m_conceptMap.hasNode id = true := by
    unfold ConceptMap.hasNode
    rw [h3]
    exact hp
  obtain ⟨w, hn, _⟩ := ConceptMap.removeNode_spec h1 hp'
  simp only [removeNode, hreg]
  refine ⟨trivial, w, hn.trans (by rw [h2]), ?_⟩
  simp only [graphicsNodeById, QMap.find?_remove, if_true]

theorem addNode_store (sc : GraphicsScene) (n : ConceptNode) :
    (sc.addNode n).2.m_conceptMap = (sc.m_conceptMap.addNode n).2 := rfl

/-- `GraphicsScene::addNode` keeps a well-formed store well formed and the scene in
lockstep. -/
theorem addNode_lockstep {sc : GraphicsScene} (hwf : sc.m_conceptMap.WF) (hl : sc.Lockstep)
    (n : ConceptNode) :
    (sc.addNode n).2.m_conceptMap.WF ∧ (sc.addNode n).2.Lockstep := by
  refine ⟨ConceptMap.addNode_wf hwf n, ?_, ?_⟩
  · intro id
    show (QMap.find? (QMap.insert sc.m_graphicsNodes n.id (GraphicsNode.new n)) id).isSome ↔
      ∃ m ∈ (sc.m_conceptMap.addNode n).2.nodes, m.id = id
    rw [QMap.find?_insert]
    have hl1 := hl.1 id
    unfold graphicsNodeById at hl1
    cases hp : sc.m_conceptMap.hasNode n.id with
    | true =>
      rw [ConceptMap.addNode_of_present hp]
      by_cases hk : n.id = id
      · rw [if_pos hk]
        simp only [Option.isSome_some, true_iff]
        exact hk ▸ (ConceptMap.hasNode_iff hwf n.id).1 hp
      · rw [if_neg hk]
        exact hl1
    | false =>
      rw [(ConceptMap.addNode_lookup hp).2.2.1]
      by_cases hk : n.id = id
      · rw [if_pos hk]
        simp only [Option.isSome_some, true_iff]
        exact ⟨n, by simp, hk⟩
      · rw [if_neg hk, hl1]
        constructor
        · rintro ⟨m, hm, hid⟩
          exact ⟨m, by simp [hm], hid⟩
        · rintro ⟨m, hm, hid⟩
          simp only [List.mem_append, List.mem_singleton] at hm
          rcases hm with hm | hm
          · exact ⟨m, hm, hid⟩
          · exact absurd (hm ▸ hid) hk
  · intro id
    have hl2 := hl.2 id
    show (QMap.find? sc.m_graphicsEdges id).isSome ↔
      ∃ e ∈ (sc.m_conceptMap.addNode n).2.edges, e.id = id
    unfold graphicsEdgeById at hl2
    cases hp : sc.m_conceptMap.hasNode n.id with
    | true => rw [ConceptMap.addNode_of_present hp]; exact hl2
    | false => rw [(ConceptMap.addNode_lookup hp).2.2.2]; exact hl2

theorem mk0_lockstep : mk0.m_conceptMap.WF ∧ mk0.Lockstep := by
  refine ⟨ConceptMap.mk0_wf _, ?_, ?_⟩
  · intro id
    simp [graphicsNodeById, mk0, QMap.find?, ConceptMap.mk0, ConceptMap.nodes]
  · intro id
    simp [graphicsEdgeById, mk0, QMap.find?, ConceptMap.mk0, ConceptMap.edges]

theorem sceneA_lockstep : sceneA.m_conceptMap.WF ∧ sceneA.Lockstep :=
  addNode_lockstep mk0_lockstep.1 mk0_lockstep.2 nodeA

end GraphicsScene

/-- C10: take a scene whose registry is in lockstep with its (well-formed) store and which
holds a node of id `n.id`, and the `AddNodeCommand` built from `n` after its first `redo`
(a no-op on the scene it ran on, which only clears the flag). Then `undo` leaves a store
without any node of id `n.id` (and `nodeById n.id` null), and a following `redo` makes the
store's `nodeById n.id` return a node equal to `n` in every field. -/
theorem addNodeCommand_undo_redo (sc sc0 : GraphicsScene) (n : ConceptNode)
    (hwf : sc.m_conceptMap.WF) (hl : sc.Lockstep)
    (hn : ∃ m ∈ sc.m_conceptMap.nodes, m.id = n.id) :
    ∃ c sc1 sc2,
      (AddNodeCommand.new n).redo (some sc0) = (c, some sc0) ∧
      c.undo (some sc) = (c, some sc1) ∧
      (∀ m ∈ sc1.m_conceptMap.nodes, m.id ≠ n.id) ∧
      sc1.m_conceptMap.nodeById n.id = none ∧
      c.redo (some sc1) = (c, some sc2) ∧
      sc2.m_conceptMap.nodeById n.id = some n := by
  have hreg : (sc.graphicsNodeById n.id).isSome := (hl.1 n.id).2 hn
  obtain ⟨g, hg⟩ := Option.isSome_iff_exists.1 hreg
  have hp := (ConceptMap.hasNode_iff hwf n.id).2 hn
  obtain ⟨_, w1, hnodes, _⟩ := GraphicsScene.removeNode_store hwf hg hp
  have hno : ∀ m ∈ (sc.removeNode n.id).2.m_conceptMap.nodes, m.id ≠ n.id := by
    intro m hm
    have hm' : m ∈ (sc.removeNode n.id).2.m_conceptMap.m_nodes := hm
    rw [hnodes, List.mem_filter] at hm'
    simpa using hm'.2
  have habs := (ConceptMap.hasNode_false_iff w1 n.id).2 hno
  refine ⟨{ m_node := n, m_isFirstRedo := false }, (sc.removeNode n.id).2,
    ((sc.removeNode n.id).2.addNode n).2, rfl, rfl, hno,
    ConceptMap.nodeById_of_absent habs, rfl, ?_⟩
  rw [GraphicsScene.addNode_store]
  exact (ConceptMap.addNode_lookup habs).2.1

theorem addNodeCommand_undo_redo_witness :
    sceneA.m_conceptMap.WF ∧ sceneA.Lockstep ∧
      (∃ m ∈ sceneA.m_conceptMap.nodes, m.id = nodeA.id) ∧
      ∃ c sc1 sc2,
        (AddNodeCommand.new nodeA).redo (some sceneA) = (c, some sceneA) ∧
        c.undo (some sceneA) = (c, some sc1) ∧
        (∀ m ∈ sc1.m_conceptMap.nodes, m.id ≠ nodeA.id) ∧
        sc1.m_conceptMap.nodeById nodeA.id = none ∧
        c.redo (some sc1) = (c, some sc2) ∧
        sc2.m_conceptMap.nodeById nodeA.id = some nodeA :=
  ⟨GraphicsScene.sceneA_lockstep.1, GraphicsScene.sceneA_lockstep.2, by decide,
    addNodeCommand_undo_redo sceneA sceneA nodeA GraphicsScene.sceneA_lockstep.1
      GraphicsScene.sceneA_lockstep.2 (by decide)⟩

/-! ## The other commands -/

/-- C12: the double-apply guard. For a freshly constructed `AddNodeCommand` or
`AddEdgeCommand` on any scene, the first `redo` returns the scene unchanged (registries and
store) and only clears the first-redo flag; from then on the command stays as it is under
`undo` and `redo`, and every `redo` performs the scene's `addNode` (resp. `addEdge`) of the
captured entity. -/
theorem first_redo_is_noop (n : ConceptNode) (e : ConceptEdge) (sc sc' : GraphicsScene) :
    ((AddNodeCommand.new n).redo (some sc) =
        ({ m_node := n, m_isFirstRedo := false }, some sc) ∧
      (({ m_node := n, m_isFirstRedo := false } : AddNodeCommand).redo (some sc') =
        ({ m_node := n, m_isFirstRedo := false }, some (sc'.addNode n).2)) ∧
      (({ m_node := n, m_isFirstRedo := false } : AddNodeCommand).undo (some sc')).1 =
        { m_node := n, m_isFirstRedo := false }) ∧
    ((AddEdgeCommand.new e).redo (some sc) =
        ({ m_edge := e, m_isFirstRedo := false }, some sc) ∧
      (({ m_edge := e, m_isFirstRedo := false } : AddEdgeCommand).redo (some sc') =
        ({ m_edge := e, m_isFirstRedo := false }, some (sc'.addEdge e).2)) ∧
      (({ m_edge := e, m_isFirstRedo := false } : AddEdgeCommand).undo (some sc')).1 =
        { m_edge := e, m_isFirstRedo := false }) :=
  ⟨⟨rfl, rfl, rfl⟩, ⟨rfl, rfl, rfl⟩⟩

namespace MoveNodeCommand

theorem mergeWith_same_id {c d : MoveNodeCommand} (h : d.m_nodeId = c.m_nodeId) :
    c.mergeWith d = (true, { c with m_newPos := d.m_newPos }) := by
  simp [mergeWith, h]

end MoveNodeCommand

/-- C13: for every `K ≥ 1` and every sequence `c :: rest` of `K` move commands on the same
node id, merging the commands `2..K` in order into the first with `mergeWith` returns `true`
each time (`K - 1` calls) and leaves one command on that node id whose old position is the
old position of the first command and whose new position is the new position of the last
one. -/
theorem mergeWith_collapses (c : MoveNodeCommand) (rest : List MoveNodeCommand)
    (hid : ∀ d ∈ rest, d.m_nodeId = c.m_nodeId) :
    (MoveNodeCommand.mergeAll c rest).1 = List.replicate rest.length true ∧
      (MoveNodeCommand.mergeAll c rest).2.m_nodeId = c.m_nodeId ∧
      (MoveNodeCommand.mergeAll c rest).2.m_oldPos = c.m_oldPos ∧
      (c :: rest).getLast?.map (fun d => d.m_newPos) =
        some (MoveNodeCommand.mergeAll c rest).2.m_newPos := by
  induction rest generalizing c with
  | nil => simp [MoveNodeCommand.mergeAll]
  | cons d rest ih =>
    have hd : d.m_nodeId = c.m_nodeId := hid d (by simp)
    have hrest : ∀ d' ∈ rest, d'.m_nodeId = ({ c with m_newPos := d.m_newPos } :
        MoveNodeCommand).m_nodeId := fun d' hd' => hid d' (by simp [hd'])
    obtain ⟨h1, h2, h3, h4⟩ := ih { c with m_newPos := d.m_newPos } hrest
    simp only [MoveNodeCommand.mergeAll, MoveNodeCommand.mergeWith_same_id hd]
    refine ⟨?_, h2, h3, ?_⟩
    · rw [h1]
      rfl
    · rw [← h4, List.getLast?_cons_cons]
      cases rest with
      | nil => rfl
      | cons d' rest' => simp [List.getLast?_cons_cons]

theorem mergeWith_collapses_witness :
    (∀ d ∈ [moveA2], d.m_nodeId = moveA.m_nodeId) ∧
      (MoveNodeCommand.mergeAll moveA [moveA2]).1 = [true] ∧
      (MoveNodeCommand.mergeAll moveA [moveA2]).2.m_oldPos = moveA.m_oldPos ∧
      some moveA2.m_newPos = some (MoveNodeCommand.mergeAll moveA [moveA2]).2.m_newPos :=
  have h := mergeWith_collapses moveA [moveA2] (by decide)
  ⟨by decide, h.1, h.2.2.1, h.2.2.2⟩

namespace MoveNodeCommand

/-- What `redo` and `undo` do when the registry has a visual node for the command's id: the
visual node, and the node value it carries, get the new (resp. old) position; the store of
the scene is not written. -/
theorem redo_undo_mirror (c : MoveNodeCommand) (sc : GraphicsScene) (g : GraphicsNode)
    (hg : sc.graphicsNodeById c.m_nodeId = some g) :
    (∃ sc1, c.redo (some sc) = (c, some sc1) ∧
      sc1.graphicsNodeById c.m_nodeId = some (g.updatePosition c.m_newPos) ∧
      (g.updatePosition c.m_newPos).itemPos = c.m_newPos ∧
      (g.updatePosition c.m_newPos).m_node.pos = c.m_newPos ∧
      sc1.m_conceptMap = sc.m_conceptMap) ∧
    (∃ sc2, c.undo (some sc) = (c, some sc2) ∧
      sc2.graphicsNodeById c.m_nodeId = some (g.updatePosition c.m_oldPos) ∧
      (g.updatePosition c.m_oldPos).itemPos = c.m_oldPos ∧
      (g.updatePosition c.m_oldPos).m_node.pos = c.m_oldPos ∧
      sc2.m_conceptMap = sc.m_conceptMap) := by
  constructor
  · refine ⟨{ sc with
        m_graphicsNodes :=
          QMap.insert sc.m_graphicsNodes c.m_nodeId (g.updatePosition c.m_newPos) },
      by simp only [redo, hg], ?_, rfl, rfl, rfl⟩
    simp [GraphicsScene.graphicsNodeById, QMap.find?_insert]
  · refine ⟨{ sc with
        m_graphicsNodes :=
          QMap.insert sc.m_graphicsNodes c.m_nodeId (g.updatePosition c.m_oldPos) },
      by simp only [undo, hg], ?_, rfl, rfl, rfl⟩
    simp [GraphicsScene.graphicsNodeById, QMap.find?_insert]

end MoveNodeCommand

/-- C14, at an input where the code departs from it. The scene `sceneA` (one node `n1` at
`(0, 0)`, registry in lockstep with a well-formed store) and the command that moves `n1`
from `(0, 0)` to `(10, 20)`: after `redo` the visual node and the node value it carries are
at `(10, 20)`, but the store entry `conceptMap().nodeById "n1"` is still at `(0, 0)`. -/
theorem moveNode_redo_leaves_store_stale :
    sceneA.m_conceptMap.WF ∧ sceneA.Lockstep ∧
      (moveA.redo (some sceneA)).2.map
          (fun sc => (sc.graphicsNodeById "n1").map (fun g => (g.itemPos, g.m_node.pos))) =
        some (some (⟨10, 20⟩, ⟨10, 20⟩)) ∧
      (moveA.redo (some sceneA)).2.map
          (fun sc => (sc.m_conceptMap.nodeById "n1").map ConceptNode.pos) =
        some (some ⟨0, 0⟩) ∧
      moveA.m_newPos = ⟨10, 20⟩ :=
  ⟨GraphicsScene.sceneA_lockstep.1, GraphicsScene.sceneA_lockstep.2, by decide, by decide,
    rfl⟩

/-! ## The scene operations keep the scene invariant -/

namespace ConceptMap

theorem addEdge_nodes (s : ConceptMap) (e : ConceptEdge) :
    (s.addEdge e).2.m_nodes = s.m_nodes := by
  cases hr : (s.addEdge e).1 with
  | false => rw [addEdge_of_fail hr]
  | true =>
    obtain ⟨h1, h2, h3⟩ := (addEdge_fst s e).1 hr
    rw [addEdge_of_ok h1 h2 h3]

theorem addEdge_edges_of_ok {s : ConceptMap} {e : ConceptEdge} (h : (s.addEdge e).1 = true) :
    (s.addEdge e).2.m_edges = s.m_edges ++ [e] := by
  obtain ⟨h1, h2, h3⟩ := (addEdge_fst s e).1 h
  rw [addEdge_of_ok h1 h2 h3]

end ConceptMap

namespace GraphicsScene

theorem lockstep_hasNode {sc : GraphicsScene} (h : sc.Inv) (id : String) :
    (sc.graphicsNodeById id).isSome = sc.m_conceptMap.hasNode id := by
  rw [Bool.eq_iff_iff, h.2.2.1 id, ConceptMap.hasNode_iff h.1]

theorem lockstep_hasEdge {sc : GraphicsScene} (h : sc.Inv) (id : String) :
    (sc.graphicsEdgeById id).isSome = sc.m_conceptMap.hasEdge id := by
  rw [Bool.eq_iff_iff, h.2.2.2 id, ConceptMap.hasEdge_iff h.1]

/-- In a scene that satisfies the invariant, `GraphicsScene::removeEdge` does to the store
what the store's own `removeEdge` does, and drops the key from the edge registry. -/
theorem sceneRemoveEdge_spec {sc : GraphicsScene} (h : sc.Inv) (id : String) :
    (sc.removeEdge id).1 = sc.m_conceptMap.hasEdge id ∧
    (sc.removeEdge id).2.m_conceptMap = (sc.m_conceptMap.removeEdge id).2 ∧
    (∀ k, (sc.removeEdge id).2.graphicsEdgeById k =
      if id = k then none else sc.graphicsEdgeById k) ∧
    (sc.removeEdge id).2.m_graphicsNodes = sc.m_graphicsNodes := by
  have hl := lockstep_hasEdge h id
  cases hg : sc.graphicsEdgeById id with
  | none =>
    rw [hg] at hl
    have hab : sc.m_conceptMap.hasEdge id = false := by simpa using hl.symm
    simp only [removeEdge, hg, ConceptMap.removeEdge_of_absent hab]
    refine ⟨hab.symm, trivial, ?_, trivial⟩
    intro k
    by_cases hk : id = k
    · rw [if_pos hk, ← hk, hg]
    · rw [if_neg hk]
  | some g =>
    rw [hg] at hl
    have hpr : sc.m_conceptMap.hasEdge id = true := by simpa using hl.symm
    simp only [removeEdge, hg]
    refine ⟨hpr.symm, trivial, ?_, trivial⟩
    intro k
    simp only [graphicsEdgeById, QMap.find?_remove]

theorem sceneRemoveEdge_inv {sc : GraphicsScene} (h : sc.Inv) (id : String) :
    (sc.removeEdge id).2.Inv := by
  obtain ⟨_, hs, he, hn⟩ := sceneRemoveEdge_spec h id
  have hri := (ConceptMap.refIntegrity_preserved sc.m_conceptMap h.1 h.2.1 nodeA edgeAB
    id).2.2.2.2.1
  refine ⟨hs ▸ ConceptMap.removeEdge_wf h.1 id, hs ▸ hri, ?_, ?_⟩
  · intro k
    show (QMap.find? (sc.removeEdge id).2.m_graphicsNodes k).isSome ↔ _
    rw [hn, hs]
    have := h.2.2.1 k
    unfold graphicsNodeById at this
    rw [this]
    unfold ConceptMap.nodes
    rw [(ConceptMap.removeEdge_nodes _ _).1]
  · intro k
    rw [he k, hs]
    unfold ConceptMap.edges
    rw [ConceptMap.removeEdge_edges h.1.2]
    by_cases hk : id = k
    · rw [if_pos hk]
      simp only [Option.isSome_none, Bool.false_eq_true, false_iff]
      rintro ⟨e, he', hek⟩
      rw [List.mem_filter] at he'
      have : e.id ≠ id := by simpa using he'.2
      exact this (hek.trans hk.symm)
    · rw [if_neg hk, h.2.2.2 k]
      constructor
      · rintro ⟨e, he', hek⟩
        refine ⟨e, ?_, hek⟩
        rw [List.mem_filter]
        exact ⟨he', by simpa [hek] using fun e' => hk e'.symm⟩
      · rintro ⟨e, he', hek⟩
        rw [List.mem_filter] at he'
        exact ⟨e, he'.1, hek⟩

/-- The loop of `GraphicsScene::removeNode` over the related edges, in a scene that
satisfies the invariant. -/
theorem sceneRemoveEdge_loop (rem : List ConceptEdge) (sc : GraphicsScene) (h : sc.Inv) :
    (rem.foldl (fun st edge => (st.removeEdge edge.id).2) sc).Inv ∧
    (rem.foldl (fun st edge => (st.removeEdge edge.id).2) sc).m_conceptMap =
      rem.foldl (fun st edge => (st.removeEdge edge.id).2) sc.m_conceptMap ∧
    (rem.foldl (fun st edge => (st.removeEdge edge.id).2) sc).m_graphicsNodes =
      sc.m_graphicsNodes := by
  induction rem generalizing sc with
  | nil => exact ⟨h, rfl, rfl⟩
  | cons r rem ih =>
    rw [List.foldl_cons, List.foldl_cons]
    obtain ⟨h1, h2, h3⟩ := ih (sc.removeEdge r.id).2 (sceneRemoveEdge_inv h r.id)
    obtain ⟨_, hs, _, hn⟩ := sceneRemoveEdge_spec h r.id
    exact ⟨h1, by rw [h2, hs], by rw [h3, hn]⟩

theorem sceneRemoveNode_of_absent {sc : GraphicsScene} {id : String}
    (h : sc.graphicsNodeById id = none) : sc.removeNode id = (false, sc) := by
  simp only [removeNode, h]

/-- In a scene that satisfies the invariant, `GraphicsScene::removeNode` of a present id
removes the node and exactly the incident edges from the store, drops the key from the node
registry, and the invariant holds again. -/
theorem sceneRemoveNode_spec {sc : GraphicsScene} (h : sc.Inv) {id : String}
    (hp : sc.m_conceptMap.hasNode id = true) :
    (sc.removeNode id).1 = true ∧ (sc.removeNode id).2.Inv ∧
    (sc.removeNode id).2.m_conceptMap.m_nodes =
      sc.m_conceptMap.m_nodes.filter (fun n => decide (n.id ≠ id)) ∧
    (sc.removeNode id).2.m_conceptMap.m_edges =
      sc.m_conceptMap.m_edges.filter
        (fun e => decide (¬(e.sourceNodeId = id ∨ e.targetNodeId = id))) := by
  have hreg : (sc.graphicsNodeById id).isSome = true := (lockstep_hasNode h id).trans hp
  obtain ⟨g, hg⟩ := Option.isSome_iff_exists.1 hreg
  obtain ⟨i1, s1, n1⟩ := sceneRemoveEdge_loop (sc.m_conceptMap.edgesByNodeId id) sc h
  obtain ⟨_, t2, t3, t4⟩ :=
    ConceptMap.removeEdge_loop (sc.m_conceptMap.edgesByNodeId id) sc.m_conceptMap h.1
  rw [← s1] at t2 t3 t4
  have hp1 : ((sc.m_conceptMap.edgesByNodeId id).foldl
      (fun st edge => (st.removeEdge edge.id).2) sc).m_conceptMap.hasNode id = true := by
    unfold ConceptMap.hasNode
    rw [t3]
    exact hp
  obtain ⟨w, hn, he⟩ := ConceptMap.removeNode_spec i1.1 hp1
  have hri := (ConceptMap.refIntegrity_preserved _ i1.1 i1.2.1 nodeA edgeAB id).2.1
  have hedges : (((sc.m_conceptMap.edgesByNodeId id).foldl
      (fun st edge => (st.removeEdge edge.id).2) sc).m_conceptMap.removeNode id).2.m_edges =
      ((sc.m_conceptMap.edgesByNodeId id).foldl
        (fun st edge => (st.removeEdge edge.id).2) sc).m_conceptMap.m_edges := by
    rw [he, t4, ConceptMap.cascade_filter h.1 id, List.filter_filter]
    apply List.filter_congr
    intro e _
    simp
  simp only [removeNode, hg]
  refine ⟨trivial, ⟨w, hri, ?_, ?_⟩, by rw [hn, t2], ?_⟩
  · intro k
    show (QMap.find? (QMap.remove _ id) k).isSome ↔ _
    rw [QMap.find?_remove, n1]
    unfold ConceptMap.nodes
    rw [hn, t2]
    have hl1 := h.2.2.1 k
    unfold graphicsNodeById at hl1
    by_cases hk : id = k
    · rw [if_pos hk]
      simp only [Option.isSome_none, Bool.false_eq_true, false_iff]
      rintro ⟨n, hn', hnk⟩
      rw [List.mem_filter] at hn'
      have : n.id ≠ id := by simpa using hn'.2
      exact this (hnk.trans hk.symm)
    · rw [if_neg hk, hl1]
      constructor
      · rintro ⟨n, hn', hnk⟩
        refine ⟨n, ?_, hnk⟩
        rw [List.mem_filter]
        exact ⟨hn', by simpa [hnk] using fun e' => hk e'.symm⟩
      · rintro ⟨n, hn', hnk⟩
        rw [List.mem_filter] at hn'
        exact ⟨n, hn'.1, hnk⟩
  · intro k
    have hl2 := i1.2.2.2 k
    show (QMap.find? ((sc.m_conceptMap.edgesByNodeId id).foldl
      (fun st edge => (st.removeEdge edge.id).2) sc).m_graphicsEdges k).isSome ↔ _
    unfold graphicsEdgeById at hl2
    rw [hl2]
    unfold ConceptMap.edges
    rw [hedges]
  · rw [hedges, t4, ConceptMap.cascade_filter h.1 id]

theorem sceneRemoveNode_inv {sc : GraphicsScene} (h : sc.Inv) (id : String) :
    (sc.removeNode id).2.Inv := by
  cases hp : sc.m_conceptMap.hasNode id with
  | true => exact (sceneRemoveNode_spec h hp).2.1
  | false =>
    have hreg : sc.graphicsNodeById id = none := by
      have := (lockstep_hasNode h id).trans hp
      simpa using this
    rw [sceneRemoveNode_of_absent hreg]
    exact h

theorem sceneAddNode_inv {sc : GraphicsScene} (h : sc.Inv) (n : ConceptNode) :
    (sc.addNode n).2.Inv := by
  obtain ⟨w, l⟩ := addNode_lockstep h.1 h.2.2 n
  exact ⟨w, (ConceptMap.refIntegrity_preserved sc.m_conceptMap h.1 h.2.1 n edgeAB "").1, l⟩

/-- In a scene that satisfies the invariant, `GraphicsScene::addEdge` does to the store what
the store's own `addEdge` does. -/
theorem sceneAddEdge_store {sc : GraphicsScene} (h : sc.Inv) (e : ConceptEdge) :
    (sc.addEdge e).2.m_conceptMap = (sc.m_conceptMap.addEdge e).2 := by
  have h1 := lockstep_hasNode h e.sourceNodeId
  have h2 := lockstep_hasNode h e.targetNodeId
  cases hs : sc.graphicsNodeById e.sourceNodeId with
  | none =>
    rw [hs] at h1
    have hfail : (sc.m_conceptMap.addEdge e).1 = false := by
      rw [← Bool.not_eq_true, ConceptMap.addEdge_fst]
      intro hc
      rw [hc.2.1] at h1
      cases h1
    simp only [addEdge, hs, ConceptMap.addEdge_of_fail hfail]
  | some gs =>
    cases ht : sc.graphicsNodeById e.targetNodeId with
    | none =>
      rw [ht] at h2
      have hfail : (sc.m_conceptMap.addEdge e).1 = false := by
        rw [← Bool.not_eq_true, ConceptMap.addEdge_fst]
        intro hc
        rw [hc.2.2] at h2
        cases h2
      simp only [addEdge, hs, ht, ConceptMap.addEdge_of_fail hfail]
    | some gt => simp only [addEdge, hs, ht]

theorem sceneAddEdge_inv {sc : GraphicsScene} (h : sc.Inv) (e : ConceptEdge) :
    (sc.addEdge e).2.Inv := by
  have hst := sceneAddEdge_store h e
  have hri := (ConceptMap.refIntegrity_preserved sc.m_conceptMap h.1 h.2.1 nodeA e "").2.2.2.1
  refine ⟨hst ▸ ConceptMap.addEdge_wf h.1 e, hst ▸ hri, ?_, ?_⟩
  · intro k
    have hreg : (sc.addEdge e).2.m_graphicsNodes = sc.m_graphicsNodes := by
      unfold addEdge
      cases sc.graphicsNodeById e.sourceNodeId <;>
        cases sc.graphicsNodeById e.targetNodeId <;> rfl
    show (QMap.find? (sc.addEdge e).2.m_graphicsNodes k).isSome ↔ _
    rw [hreg, hst]
    unfold ConceptMap.nodes
    rw [ConceptMap.addEdge_nodes]
    exact h.2.2.1 k
  · intro k
    rw [hst]
    have hl2 := h.2.2.2 k
    have h1 := lockstep_hasNode h e.sourceNodeId
    have h2 := lockstep_hasNode h e.targetNodeId
    cases hr : (sc.m_conceptMap.addEdge e).1 with
    | true =>
      obtain ⟨c1, c2, c3⟩ := (ConceptMap.addEdge_fst _ e).1 hr
      rw [c2] at h1
      rw [c3] at h2
      obtain ⟨gs, hs⟩ := Option.isSome_iff_exists.1 h1
      obtain ⟨gt, ht⟩ := Option.isSome_iff_exists.1 h2
      unfold ConceptMap.edges
      rw [ConceptMap.addEdge_edges_of_ok hr]
      simp only [addEdge, hs, ht, graphicsEdgeById, QMap.find?_insert]
      unfold graphicsEdgeById ConceptMap.edges at hl2
      by_cases hk : e.id = k
      · rw [if_pos hk]
        simp only [Option.isSome_some, true_iff]
        exact ⟨e, by simp, hk⟩
      · rw [if_neg hk, hl2]
        constructor
        · rintro ⟨x, hx, hxk⟩
          exact ⟨x, by simp [hx], hxk⟩
        · rintro ⟨x, hx, hxk⟩
          simp only [List.mem_append, List.mem_singleton] at hx
          rcases hx with hx | hx
          · exact ⟨x, hx, hxk⟩
          · exact absurd (hx ▸ hxk) hk
    | false =>
      rw [ConceptMap.addEdge_of_fail hr]
      cases hs : sc.graphicsNodeById e.sourceNodeId with
      | none =>
        simp only [addEdge, hs]
        exact hl2
      | some gs =>
        cases ht : sc.graphicsNodeById e.targetNodeId with
        | none =>
          simp only [addEdge, hs, ht]
          exact hl2
        | some gt =>
          have hdup : sc.m_conceptMap.hasEdge e.id = true := by
            by_contra hc
            have hc' : sc.m_conceptMap.hasEdge e.id = false := by simpa using hc
            have : (sc.m_conceptMap.addEdge e).1 = true := by
              rw [ConceptMap.addEdge_fst]
              refine ⟨hc', ?_, ?_⟩
              · rw [← h1, hs]; rfl
              · rw [← h2, ht]; rfl
            rw [hr] at this
            cases this
          simp only [addEdge, hs, ht, graphicsEdgeById, QMap.find?_insert]
          unfold graphicsEdgeById at hl2
          by_cases hk : e.id = k
          · rw [if_pos hk]
            simp only [Option.isSome_some, true_iff]
            exact hk ▸ (ConceptMap.hasEdge_iff h.1 e.id).1 hdup
          · rw [if_neg hk]
            exact hl2

/-- The loop of `DeleteNodeCommand::undo` over the captured edges: when their ids are
pairwise distinct and new to the store, and their endpoints are nodes of the store, each
`GraphicsScene::addEdge` appends its edge. -/
theorem sceneAddEdge_loop (es : List ConceptEdge) (sc : GraphicsScene) (h : sc.Inv)
    (hnd : (es.map (fun e => e.id)).Nodup)
    (hfresh : ∀ e ∈ es, sc.m_conceptMap.hasEdge e.id = false)
    (hend : ∀ e ∈ es, sc.m_conceptMap.hasNode e.sourceNodeId = true ∧
      sc.m_conceptMap.hasNode e.targetNodeId = true) :
    (es.foldl (fun st edge => (st.addEdge edge).2) sc).Inv ∧
    (es.foldl (fun st edge => (st.addEdge edge).2) sc).m_conceptMap.m_edges =
      sc.m_conceptMap.m_edges ++ es ∧
    (es.foldl (fun st edge => (st.addEdge edge).2) sc).m_conceptMap.m_nodes =
      sc.m_conceptMap.m_nodes := by
  induction es generalizing sc with
  | nil => exact ⟨h, by simp, rfl⟩
  | cons r es ih =>
    rw [List.map_cons, List.nodup_cons] at hnd
    rw [List.foldl_cons]
    have hinv := sceneAddEdge_inv h r
    have hst := sceneAddEdge_store h r
    have hok : (sc.m_conceptMap.addEdge r).1 = true := by
      rw [ConceptMap.addEdge_fst]
      exact ⟨hfresh r (by simp), hend r (by simp)⟩
    have hedges : (sc.addEdge r).2.m_conceptMap.m_edges = sc.m_conceptMap.m_edges ++ [r] := by
      rw [hst, ConceptMap.addEdge_edges_of_ok hok]
    have hnodes : (sc.addEdge r).2.m_conceptMap.m_nodes = sc.m_conceptMap.m_nodes := by
      rw [hst, ConceptMap.addEdge_nodes]
    have hhas : ∀ k, (sc.addEdge r).2.m_conceptMap.hasNode k = sc.m_conceptMap.hasNode k := by
      intro k
      rw [Bool.eq_iff_iff, ConceptMap.hasNode_iff hinv.1, ConceptMap.hasNode_iff h.1]
      unfold ConceptMap.nodes
      rw [hnodes]
    obtain ⟨i1, i2, i3⟩ := ih (sc.addEdge r).2 hinv hnd.2
      (by
        intro e he
        rw [ConceptMap.hasEdge_false_iff hinv.1]
        unfold ConceptMap.edges
        rw [hedges]
        intro x hx
        simp only [List.mem_append, List.mem_singleton] at hx
        rcases hx with hx | hx
        · exact (ConceptMap.hasEdge_false_iff h.1 e.id).1 (hfresh e (by simp [he])) x hx
        · rw [hx]
          intro heq
          exact hnd.1 (heq ▸ List.mem_map_of_mem (fun e => e.id) he))
      (by
        intro e he
        rw [hhas, hhas]
        exact hend e (by simp [he]))
    exact ⟨i1, by rw [i2, hedges]; simp, by rw [i3, hnodes]⟩

theorem mk0_inv : mk0.Inv := by
  refine ⟨mk0_lockstep.1, ?_, mk0_lockstep.2⟩
  intro e he
  simp [mk0, ConceptMap.mk0, ConceptMap.edges] at he

theorem sceneA_inv : sceneA.Inv := sceneAddNode_inv mk0_inv nodeA

end GraphicsScene

/-- C15: dual-write lockstep is an invariant. If the node registry has exactly the ids of
the store's nodes as keys and the edge registry exactly the ids of the store's edges, and
the (well-formed) store satisfies referential integrity, then all of this holds again after
each of `GraphicsScene::addNode`, `removeNode`, `addEdge` and `removeEdge`, for every
argument: a duplicate id, an absent id, an edge with a missing endpoint included. -/
theorem dual_write_lockstep (sc : GraphicsScene) (hwf : sc.m_conceptMap.WF)
    (hri : sc.m_conceptMap.RefIntegrity) (hl : sc.Lockstep)
    (n : ConceptNode) (e : ConceptEdge) (id : String) :
    ((sc.addNode n).2.Lockstep ∧ (sc.addNode n).2.m_conceptMap.RefIntegrity ∧
      (sc.addNode n).2.m_conceptMap.WF) ∧
    ((sc.removeNode id).2.Lockstep ∧ (sc.removeNode id).2.m_conceptMap.RefIntegrity ∧
      (sc.removeNode id).2.m_conceptMap.WF) ∧
    ((sc.addEdge e).2.Lockstep ∧ (sc.addEdge e).2.m_conceptMap.RefIntegrity ∧
      (sc.addEdge e).2.m_conceptMap.WF) ∧
    ((sc.removeEdge id).2.Lockstep ∧ (sc.removeEdge id).2.m_conceptMap.RefIntegrity ∧
      (sc.removeEdge id).2.m_conceptMap.WF) := by
  have h : sc.Inv := ⟨hwf, hri, hl⟩
  have h1 := GraphicsScene.sceneAddNode_inv h n
  have h2 := GraphicsScene.sceneRemoveNode_inv h id
  have h3 := GraphicsScene.sceneAddEdge_inv h e
  have h4 := GraphicsScene.sceneRemoveEdge_inv h id
  exact ⟨⟨h1.2.2, h1.2.1, h1.1⟩, ⟨h2.2.2, h2.2.1, h2.1⟩, ⟨h3.2.2, h3.2.1, h3.1⟩,
    ⟨h4.2.2, h4.2.1, h4.1⟩⟩

theorem dual_write_lockstep_witness :
    sceneA.m_conceptMap.WF ∧ sceneA.m_conceptMap.RefIntegrity ∧ sceneA.Lockstep ∧
      (sceneA.addNode nodeA).2.Lockstep ∧ (sceneA.removeNode "zz").2.Lockstep ∧
      (sceneA.addEdge edgeAB).2.Lockstep ∧ (sceneA.removeEdge "e1").2.Lockstep :=
  have h := dual_write_lockstep sceneA GraphicsScene.sceneA_inv.1 GraphicsScene.sceneA_inv.2.1
    GraphicsScene.sceneA_inv.2.2 nodeA edgeAB
  ⟨GraphicsScene.sceneA_inv.1, GraphicsScene.sceneA_inv.2.1, GraphicsScene.sceneA_inv.2.2,
    (h "zz").1.1, (h "zz").2.1.1, (h "zz").2.2.1.1, (h "e1").2.2.2.1⟩

theorem GraphicsScene.sceneABe_inv : sceneABe.Inv :=
  GraphicsScene.sceneAddEdge_inv (GraphicsScene.sceneAddNode_inv GraphicsScene.sceneA_inv nodeB)
    edgeAB

/-- The `DeleteNode` round trip for any value that the read of the constructor yields under
the id of the node. Take a scene whose registry is in lockstep with a (well-formed) store
satisfying referential integrity, and an id of a node present in it. Build
`DeleteNodeCommand(id)` on it, apply `redo`, then `undo`. After the `redo` the node is absent
and no edge of the store is incident to `id`. After the `undo` the nodes are the other nodes
in their order followed by the captured value, which is what `nodeById id` returns; the
edges are those before the `redo`, up to order, every edge incident to `id` among them. -/
theorem DeleteNodeCommand.round_trip_of_read (sc : GraphicsScene) (id : String)
    (fresh stale : ConceptNode)
    (hwf : sc.m_conceptMap.WF) (hri : sc.m_conceptMap.RefIntegrity) (hl : sc.Lockstep)
    (hpres : sc.m_conceptMap.hasNode id = true) (hn0id : stale.id = id) :
    ∃ sc1 sc2,
      (DeleteNodeCommand.new (some sc) id fresh stale).redo (some sc) =
        (DeleteNodeCommand.new (some sc) id fresh stale, some sc1) ∧
      (DeleteNodeCommand.new (some sc) id fresh stale).undo (some sc1) =
        (DeleteNodeCommand.new (some sc) id fresh stale, some sc2) ∧
      sc1.m_conceptMap.nodeById id = none ∧
      (∀ e ∈ sc1.m_conceptMap.edges, ¬(e.sourceNodeId = id ∨ e.targetNodeId = id)) ∧
      sc2.m_conceptMap.nodes =
        sc.m_conceptMap.nodes.filter (fun n => decide (n.id ≠ id)) ++ [stale] ∧
      sc2.m_conceptMap.edges.Perm sc.m_conceptMap.edges ∧
      sc2.m_conceptMap.nodeById id = some stale ∧
      (∀ e ∈ sc.m_conceptMap.edges, (e.sourceNodeId = id ∨ e.targetNodeId = id) →
        e ∈ sc2.m_conceptMap.edges) := by
  have h : sc.Inv := ⟨hwf, hri, hl⟩
  obtain ⟨m0, hm0mem, hm0id⟩ := (ConceptMap.hasNode_iff hwf id).1 hpres
  have hby : sc.m_conceptMap.nodeById id = some m0 :=
    (ConceptMap.nodeById_eq_some_iff hwf id m0).2 ⟨hm0mem, hm0id⟩
  generalize stale = n0 at *
  have hc : DeleteNodeCommand.new (some sc) id fresh n0 =
      { m_nodeId := id, m_node := n0, m_relatedEdges := sc.m_conceptMap.edgesByNodeId id } := by
    simp only [DeleteNodeCommand.new, hby]
  obtain ⟨_, inv1, nodes1, edges1⟩ := GraphicsScene.sceneRemoveNode_spec h hpres
  -- the node comes back
  have habs : (sc.removeNode id).2.m_conceptMap.hasNode n0.id = false := by
    rw [ConceptMap.hasNode_false_iff inv1.1]
    intro m hm
    have hm' : m ∈ (sc.removeNode id).2.m_conceptMap.m_nodes := hm
    rw [nodes1, List.mem_filter] at hm'
    rw [hn0id]
    simpa using hm'.2
  have inv1a := GraphicsScene.sceneAddNode_inv inv1 n0
  obtain ⟨_, _, nodes1a, edges1a⟩ := ConceptMap.addNode_lookup habs
  have nodes1a' : ((sc.removeNode id).2.addNode n0).2.m_conceptMap.m_nodes =
      sc.m_conceptMap.m_nodes.filter (fun n => decide (n.id ≠ id)) ++ [n0] := by
    rw [GraphicsScene.addNode_store]
    exact nodes1a.trans (by rw [ConceptMap.nodes, nodes1])
  have edges1a' : ((sc.removeNode id).2.addNode n0).2.m_conceptMap.m_edges =
      sc.m_conceptMap.m_edges.filter
        (fun e => decide (¬(e.sourceNodeId = id ∨ e.targetNodeId = id))) := by
    rw [GraphicsScene.addNode_store]
    exact edges1a.trans (by rw [ConceptMap.edges, edges1])
  -- the captured edges come back
  have hrel := edgesByNodeId_eq_filter sc.m_conceptMap id
  have hinj := List.inj_on_of_nodup_map hwf.2.nodup
  have hloop := GraphicsScene.sceneAddEdge_loop (sc.m_conceptMap.edgesByNodeId id)
    ((sc.removeNode id).2.addNode n0).2 inv1a
    (by
      rw [hrel]
      exact List.Nodup.sublist ((List.filter_sublist _).map _) hwf.2.nodup)
    (by
      intro e he
      rw [hrel, List.mem_filter] at he
      rw [ConceptMap.hasEdge_false_iff inv1a.1]
      intro x hx
      have hx' : x ∈ ((sc.removeNode id).2.addNode n0).2.m_conceptMap.m_edges := hx
      rw [edges1a', List.mem_filter] at hx'
      intro heq
      have : x = e := hinj hx'.1 he.1 heq
      subst this
      have h1 : ¬(x.sourceNodeId = id ∨ x.targetNodeId = id) := by simpa using hx'.2
      exact h1 (by simpa using he.2))
    (by
      intro e he
      rw [hrel, List.mem_filter] at he
      have hkeep : ∀ k, (∃ m ∈ sc.m_conceptMap.nodes, m.id = k) →
          ((sc.removeNode id).2.addNode n0).2.m_conceptMap.hasNode k = true := by
        intro k hk
        rw [ConceptMap.hasNode_iff inv1a.1]
        unfold ConceptMap.nodes
        rw [nodes1a']
        obtain ⟨m, hm, hmk⟩ := hk
        by_cases hmid : m.id = id
        · exact ⟨n0, by simp, hn0id.trans (hmid.symm.trans hmk)⟩
        · refine ⟨m, ?_, hmk⟩
          rw [List.mem_append, List.mem_filter]
          exact Or.inl ⟨hm, by simpa using hmid⟩
      exact ⟨hkeep _ (hri e he.1).1, hkeep _ (hri e he.1).2⟩)
  obtain ⟨inv2, edges2, nodes2⟩ := hloop
  rw [edges1a'] at edges2
  rw [nodes1a'] at nodes2
  refine ⟨(sc.removeNode id).2,
    (sc.m_conceptMap.edgesByNodeId id).foldl (fun st edge => (st.addEdge edge).2)
      ((sc.removeNode id).2.addNode n0).2, by rw [hc]; rfl, by rw [hc]; rfl, ?_, ?_, ?_, ?_, ?_, ?_⟩
  · have hnone := ConceptMap.nodeById_of_absent habs
    rw [hn0id] at hnone
    exact hnone
  · intro e he
    have he' : e ∈ (sc.removeNode id).2.m_conceptMap.m_edges := he
    rw [edges1, List.mem_filter] at he'
    simpa using he'.2
  · unfold ConceptMap.nodes
    rw [nodes2]
  · unfold ConceptMap.edges
    rw [edges2, hrel]
    unfold ConceptMap.edges
    have hperm := List.filter_append_perm
      (fun e : ConceptEdge => decide (¬(e.sourceNodeId = id ∨ e.targetNodeId = id)))
      sc.m_conceptMap.m_edges
    have hcongr : sc.m_conceptMap.m_edges.filter
        (fun x => !(fun e : ConceptEdge =>
          decide (¬(e.sourceNodeId = id ∨ e.targetNodeId = id))) x) =
        sc.m_conceptMap.m_edges.filter
          (fun e => decide (e.sourceNodeId = id ∨ e.targetNodeId = id)) := by
      apply List.filter_congr
      intro e _
      simp
    rw [hcongr] at hperm
    exact hperm
  · rw [ConceptMap.nodeById_eq_some_iff inv2.1]
    refine ⟨?_, hn0id⟩
    unfold ConceptMap.nodes
    rw [nodes2]
    simp
  · intro e he hinc
    unfold ConceptMap.edges
    rw [edges2, hrel, List.mem_append]
    right
    rw [List.mem_filter]
    exact ⟨he, by simpa using hinc⟩

/-- The `DeleteNode` round trip when the read of the constructor yields the value that the
store holds for the node (`hread`): after the `redo` the node is absent and no edge of the
store is incident to `id`; after the `undo` the store holds the same nodes and the same
edges as before the `redo`, each with identical field values (the lists are permutations of
the old ones: the node and its edges come back at the end), `nodeById id` returns the same
node as before and every edge that was incident to `id` is present again. -/
theorem DeleteNodeCommand.round_trip_of_intact_read (sc : GraphicsScene) (id : String)
    (fresh stale : ConceptNode)
    (hwf : sc.m_conceptMap.WF) (hri : sc.m_conceptMap.RefIntegrity) (hl : sc.Lockstep)
    (hread : sc.m_conceptMap.nodeById id = some stale) :
    ∃ sc1 sc2,
      (DeleteNodeCommand.new (some sc) id fresh stale).redo (some sc) =
        (DeleteNodeCommand.new (some sc) id fresh stale, some sc1) ∧
      (DeleteNodeCommand.new (some sc) id fresh stale).undo (some sc1) =
        (DeleteNodeCommand.new (some sc) id fresh stale, some sc2) ∧
      sc1.m_conceptMap.nodeById id = none ∧
      (∀ e ∈ sc1.m_conceptMap.edges, ¬(e.sourceNodeId = id ∨ e.targetNodeId = id)) ∧
      sc2.m_conceptMap.nodes.Perm sc.m_conceptMap.nodes ∧
      sc2.m_conceptMap.edges.Perm sc.m_conceptMap.edges ∧
      sc2.m_conceptMap.nodeById id = sc.m_conceptMap.nodeById id ∧
      (∀ e ∈ sc.m_conceptMap.edges, (e.sourceNodeId = id ∨ e.targetNodeId = id) →
        e ∈ sc2.m_conceptMap.edges) := by
  obtain ⟨hn0mem, hn0id⟩ := (ConceptMap.nodeById_eq_some_iff hwf id stale).1 hread
  have hpres : sc.m_conceptMap.hasNode id = true :=
    (ConceptMap.hasNode_iff hwf id).2 ⟨stale, hn0mem, hn0id⟩
  obtain ⟨sc1, sc2, h1, h2, h3, h4, h5, h6, h7, h8⟩ :=
    DeleteNodeCommand.round_trip_of_read sc id fresh stale hwf hri hl hpres hn0id
  refine ⟨sc1, sc2, h1, h2, h3, h4, ?_, h6, h7.trans hread.symm, h8⟩
  rw [h5]
  unfold ConceptMap.nodes
  obtain ⟨pre, a, post, e1, e2, e3⟩ :=
    ConceptMap.filter_split (fun n : ConceptNode => n.id) sc.m_conceptMap.m_nodes
      hwf.1.nodup id ((ConceptMap.mem_nodeIds _ _).2 ⟨stale, hn0mem, hn0id⟩)
  have ha : a = stale := by
    apply List.inj_on_of_nodup_map hwf.1.nodup _ hn0mem (e2.trans hn0id.symm)
    rw [e1]
    simp
  rw [e3, e1, ha]
  have hcomm : (pre ++ post ++ [stale]).Perm (stale :: (pre ++ post)) := List.perm_append_comm
  exact hcomm.trans List.perm_middle.symm
/-- The round trip on the scene with nodes `n1`, `n2` and the edge between them, for the
command that deletes `n1`, when the read of the constructor yields node A itself. -/
theorem DeleteNodeCommand.round_trip_of_intact_read_sample :
    sceneABe.m_conceptMap.nodeById "n1" = some nodeA ∧
      ∃ sc1 sc2,
        (DeleteNodeCommand.new (some sceneABe) "n1" nodeC nodeA).redo (some sceneABe) =
          (DeleteNodeCommand.new (some sceneABe) "n1" nodeC nodeA, some sc1) ∧
        (DeleteNodeCommand.new (some sceneABe) "n1" nodeC nodeA).undo (some sc1) =
          (DeleteNodeCommand.new (some sceneABe) "n1" nodeC nodeA, some sc2) ∧
        sc1.m_conceptMap.nodeById "n1" = none ∧
        (∀ e ∈ sc1.m_conceptMap.edges, ¬(e.sourceNodeId = "n1" ∨ e.targetNodeId = "n1")) ∧
        sc2.m_conceptMap.nodes.Perm sceneABe.m_conceptMap.nodes ∧
        sc2.m_conceptMap.edges.Perm sceneABe.m_conceptMap.edges ∧
        sc2.m_conceptMap.nodeById "n1" = sceneABe.m_conceptMap.nodeById "n1" ∧
        (∀ e ∈ sceneABe.m_conceptMap.edges, (e.sourceNodeId = "n1" ∨ e.targetNodeId = "n1") →
          e ∈ sc2.m_conceptMap.edges) :=
  ⟨by decide,
    DeleteNodeCommand.round_trip_of_intact_read sceneABe "n1" nodeC nodeA
      GraphicsScene.sceneABe_inv.1 GraphicsScene.sceneABe_inv.2.1 GraphicsScene.sceneABe_inv.2.2
      (by decide)⟩

/-- C11 (defect of the code): the `DeleteNode` round trip does not restore the node. On the
scene with nodes `n1`, `n2` and the edge `e1` between them, build the command that deletes
`n1`, apply `redo`, then `undo`. The constructor copies the node through a pointer into a
copy of the store that is already destroyed, so the captured value is whatever that read
yields. `redo` removes the node and its edge. When the read yields node A with another text,
`undo` puts that value in the store: the node `n1` is present again with field values that
differ from those before the `redo`. When the read yields a value with another id, `undo`
adds that node instead, the edge `e1` is refused for want of its endpoint, and neither `n1`
nor `e1` is present again. -/
theorem deleteNode_restores_stale_read :
    sceneABe.m_conceptMap.nodeById "n1" = some nodeA ∧
    sceneABe.m_conceptMap.edges = [edgeAB] ∧
    ((DeleteNodeCommand.new (some sceneABe) "n1" nodeC nodeAStale).redo (some sceneABe)).2 =
      some (sceneABe.removeNode "n1").2 ∧
    (sceneABe.removeNode "n1").2.m_conceptMap.nodes = [nodeB] ∧
    (sceneABe.removeNode "n1").2.m_conceptMap.edges = [] ∧
    (((DeleteNodeCommand.new (some sceneABe) "n1" nodeC nodeAStale).undo
        (some (sceneABe.removeNode "n1").2)).2.map
      (fun sc => (sc.m_conceptMap.nodes, sc.m_conceptMap.edges))) =
        some ([nodeB, nodeAStale], [edgeAB]) ∧
    nodeAStale ≠ nodeA ∧
    (((DeleteNodeCommand.new (some sceneABe) "n1" nodeC nodeC).undo
        (some (sceneABe.removeNode "n1").2)).2.map
      (fun sc => (sc.m_conceptMap.nodes, sc.m_conceptMap.edges))) =
        some ([nodeB, nodeC], []) := by
  refine ⟨by decide, by decide, by decide, by decide, by decide, by decide, by decide,
    by decide⟩

/-! ## Refreshing the scene from a snapshot -/

namespace QMap

variable {V : Type}

theorem mem_insert {m : QMap V} {k : String} {v : V} {p : String × V}
    (h : p ∈ insert m k v) : p = (k, v) ∨ p ∈ m := by
  induction m with
  | nil => simpa [insert] using h
  | cons q rest ih =>
    obtain ⟨a, b⟩ := q
    simp only [insert] at h
    by_cases h1 : utf16 k < utf16 a
    · rw [if_pos h1] at h
      simpa using h
    · rw [if_neg h1] at h
      by_cases h2 : k = a
      · rw [if_pos h2] at h
        rcases List.mem_cons.1 h with h | h
        · exact Or.inl h
        · exact Or.inr (List.mem_cons_of_mem _ h)
      · rw [if_neg h2] at h
        rcases List.mem_cons.1 h with h | h
        · exact Or.inr (h ▸ List.mem_cons_self _ _)
        · rcases ih h with h | h
          · exact Or.inl h
          · exact Or.inr (List.mem_cons_of_mem _ h)

theorem mem_keys_iff (m : QMap V) (k : String) : k ∈ keys m ↔ (find? m k).isSome = true := by
  induction m with
  | nil => simp [keys, find?]
  | cons q rest ih =>
    obtain ⟨a, b⟩ := q
    unfold keys at ih ⊢
    by_cases h : a = k
    · simp [find?, h]
    · have h' : ¬k = a := fun e => h e.symm
      simp [find?, h, h', ih]

theorem keys_insert_perm {m : QMap V} {k : String} (v : V) (h : k ∉ keys m) :
    (keys (insert m k v)).Perm (k :: keys m) := by
  induction m with
  | nil => simp [insert, keys]
  | cons q rest ih =>
    obtain ⟨a, b⟩ := q
    have hka : k ≠ a := by
      intro e
      exact h (by simp [keys, e])
    have hrest : k ∉ keys rest := by
      intro e
      exact h (by
        unfold keys at e ⊢
        exact List.mem_cons_of_mem _ e)
    simp only [insert]
    by_cases h1 : utf16 k < utf16 a
    · rw [if_pos h1]
      exact List.Perm.refl _
    · rw [if_neg h1, if_neg hka]
      have := (ih hrest).cons a
      exact this.trans (List.Perm.swap k a _)

end QMap

/-- A loop that writes `m[key n] = val n` for each element of a list: what a lookup finds
afterwards, which entries the map has, and which keys. -/
theorem foldl_insert_spec {α V : Type} (key : α → String) (val : α → V) (ns : List α)
    (m0 : QMap V) (hnd : (ns.map key).Nodup) :
    (∀ n ∈ ns, QMap.find? (ns.foldl (fun m n => QMap.insert m (key n) (val n)) m0) (key n) =
      some (val n)) ∧
    (∀ k, (∀ n ∈ ns, key n ≠ k) →
      QMap.find? (ns.foldl (fun m n => QMap.insert m (key n) (val n)) m0) k =
        QMap.find? m0 k) ∧
    (∀ p ∈ ns.foldl (fun m n => QMap.insert m (key n) (val n)) m0,
      p ∈ m0 ∨ ∃ n ∈ ns, p = (key n, val n)) ∧
    ((∀ n ∈ ns, key n ∉ QMap.keys m0) →
      (QMap.keys (ns.foldl (fun m n => QMap.insert m (key n) (val n)) m0)).Perm
        (QMap.keys m0 ++ ns.map key)) := by
  induction ns generalizing m0 with
  | nil => exact ⟨by simp, by simp, fun p hp => Or.inl hp, by simp⟩
  | cons a ns ih =>
    rw [List.map_cons, List.nodup_cons] at hnd
    obtain ⟨i1, i2, i3, i4⟩ := ih (QMap.insert m0 (key a) (val a)) hnd.2
    simp only [List.foldl_cons]
    refine ⟨?_, ?_, ?_, ?_⟩
    · intro n hn
      rcases List.mem_cons.1 hn with hn | hn
      · subst hn
        rw [i2 (key n) (fun x hx e => hnd.1 (e ▸ List.mem_map_of_mem key hx)),
          QMap.find?_insert, if_pos rfl]
      · exact i1 n hn
    · intro k hk
      rw [i2 k (fun n hn => hk n (List.mem_cons_of_mem _ hn)), QMap.find?_insert,
        if_neg (hk a (List.mem_cons_self _ _))]
    · intro p hp
      rcases i3 p hp with hp | ⟨n, hn, hp⟩
      · rcases QMap.mem_insert hp with hp | hp
        · exact Or.inr ⟨a, List.mem_cons_self _ _, hp⟩
        · exact Or.inl hp
      · exact Or.inr ⟨n, List.mem_cons_of_mem _ hn, hp⟩
    · intro hnew
      have ha : key a ∉ QMap.keys m0 := hnew a (List.mem_cons_self _ _)
      have hperm := QMap.keys_insert_perm (val a) ha
      have hnew' : ∀ n ∈ ns, key n ∉ QMap.keys (QMap.insert m0 (key a) (val a)) := by
        intro n hn hmem
        rcases List.mem_cons.1 (hperm.subset hmem) with e | e
        · exact hnd.1 (e ▸ List.mem_map_of_mem key hn)
        · exact hnew n (List.mem_cons_of_mem _ hn) e
      refine (i4 hnew').trans ?_
      refine (List.Perm.append_right _ hperm).trans ?_
      simp only [List.map_cons, List.cons_append]
      exact List.perm_middle.symm

namespace GraphicsScene

/-- The first loop of `refreshScene` only writes the node registry. -/
theorem refresh_nodeLoop (ns : List ConceptNode) (sc0 : GraphicsScene) :
    ns.foldl
        (fun st node =>
          { st with
            m_graphicsNodes := QMap.insert st.m_graphicsNodes node.id (GraphicsNode.new node) })
        sc0 =
      { sc0 with
        m_graphicsNodes :=
          ns.foldl (fun m n => QMap.insert m n.id (GraphicsNode.new n)) sc0.m_graphicsNodes } := by
  induction ns generalizing sc0 with
  | nil => rfl
  | cons n ns ih =>
    rw [List.foldl_cons, ih]
    rfl

/-- The second loop of `refreshScene` only writes the edge registry, one new visual edge per
edge, as long as every endpoint has a visual node that carries the endpoint's id. -/
theorem refresh_edgeLoop (es : List ConceptEdge) (st : GraphicsScene)
    (hend : ∀ e ∈ es,
      (∃ gs, st.graphicsNodeById e.sourceNodeId = some gs ∧ gs.m_node.id = e.sourceNodeId) ∧
      (∃ gt, st.graphicsNodeById e.targetNodeId = some gt ∧ gt.m_node.id = e.targetNodeId)) :
    es.foldl
        (fun st edge =>
          match st.graphicsNodeById edge.sourceNodeId, st.graphicsNodeById edge.targetNodeId with
          | some sourceNode, some targetNode =>
            { st with
              m_graphicsEdges :=
                QMap.insert st.m_graphicsEdges edge.id
                  (GraphicsEdge.new edge sourceNode targetNode) }
          | _, _ => st)
        st =
      { st with
        m_graphicsEdges :=
          es.foldl
            (fun m e => QMap.insert m e.id
              ({ m_edge := e, m_sourceNode := e.sourceNodeId, m_targetNode := e.targetNodeId,
                 m_isSelected := false, m_isHovered := false } : GraphicsEdge))
            st.m_graphicsEdges } := by
  induction es generalizing st with
  | nil => rfl
  | cons e es ih =>
    obtain ⟨⟨gs, hs, hsid⟩, ⟨gt, ht, htid⟩⟩ := hend e (List.mem_cons_self _ _)
    rw [List.foldl_cons, List.foldl_cons]
    simp only [hs, ht]
    rw [ih]
    · simp only [GraphicsEdge.new, hsid, htid]
    · intro e' he'
      exact hend e' (List.mem_cons_of_mem _ he')

end GraphicsScene

/-- C16: refresh from a snapshot. For every store snapshot that satisfies the store
invariants (well formed, so ids are unique; referentially intact) and every prior scene,
after `setConceptMap snapshot` the scene's store is the snapshot; the node registry has
exactly one entry per node of the snapshot (its keys are a permutation of the node ids),
every entry is a new visual node made from the node of that id, and the entry of each node
carries that node's value; the same holds for the edge registry and the edges, whose visual
edges point to the visual nodes of their endpoints. Since every entry is newly made from the
snapshot, no visual object from before the refresh remains in either registry. -/
theorem setConceptMap_rebuilds (sc : GraphicsScene) (snap : ConceptMap) (hwf : snap.WF)
    (hri : snap.RefIntegrity) :
    (sc.setConceptMap snap).m_conceptMap = snap ∧
    (QMap.keys (sc.setConceptMap snap).m_graphicsNodes).Perm (snap.nodes.map (fun n => n.id)) ∧
    (∀ p ∈ (sc.setConceptMap snap).m_graphicsNodes,
      ∃ n ∈ snap.nodes, p = (n.id, GraphicsNode.new n)) ∧
    (∀ n ∈ snap.nodes,
      (sc.setConceptMap snap).graphicsNodeById n.id = some (GraphicsNode.new n) ∧
        (GraphicsNode.new n).m_node = n) ∧
    (QMap.keys (sc.setConceptMap snap).m_graphicsEdges).Perm (snap.edges.map (fun e => e.id)) ∧
    (∀ p ∈ (sc.setConceptMap snap).m_graphicsEdges,
      ∃ e ∈ snap.edges, p.1 = e.id ∧ p.2.m_edge = e ∧ p.2.m_isSelected = false) ∧
    (∀ e ∈ snap.edges, ∃ g,
      (sc.setConceptMap snap).graphicsEdgeById e.id = some g ∧ g.m_edge = e ∧
        g.m_sourceNode = e.sourceNodeId ∧ g.m_targetNode = e.targetNodeId) := by
  obtain ⟨n1, _, n3, n4⟩ := foldl_insert_spec (fun n : ConceptNode => n.id) GraphicsNode.new
    snap.nodes [] hwf.1.nodup
  obtain ⟨e1, _, e3, e4⟩ := foldl_insert_spec (fun e : ConceptEdge => e.id)
    (fun e => ({ m_edge := e, m_sourceNode := e.sourceNodeId, m_targetNode := e.targetNodeId,
                 m_isSelected := false, m_isHovered := false } : GraphicsEdge))
    snap.edges [] hwf.2.nodup
  have hshape : sc.setConceptMap snap =
      { sc with
        m_conceptMap := snap
        m_graphicsNodes :=
          snap.nodes.foldl (fun m n => QMap.insert m n.id (GraphicsNode.new n)) []
        m_graphicsEdges :=
          snap.edges.foldl
            (fun m e => QMap.insert m e.id
              ({ m_edge := e, m_sourceNode := e.sourceNodeId, m_targetNode := e.targetNodeId,
                 m_isSelected := false, m_isHovered := false } : GraphicsEdge))
            [] } := by
    unfold GraphicsScene.setConceptMap GraphicsScene.refreshScene GraphicsScene.clearScene
    simp only [GraphicsScene.refresh_nodeLoop]
    rw [GraphicsScene.refresh_edgeLoop]
    intro e he
    obtain ⟨⟨a, ha, haid⟩, ⟨b, hb, hbid⟩⟩ := hri e he
    refine ⟨⟨GraphicsNode.new a, ?_, haid⟩, ⟨GraphicsNode.new b, ?_, hbid⟩⟩
    · rw [← haid]
      exact n1 a ha
    · rw [← hbid]
      exact n1 b hb
  rw [hshape]
  refine ⟨rfl, ?_, ?_, ?_, ?_, ?_, ?_⟩
  · simpa [QMap.keys] using n4 (by simp [QMap.keys])
  · intro p hp
    rcases n3 p hp with h | h
    · cases h
    · exact h
  · intro n hn
    exact ⟨n1 n hn, rfl⟩
  · simpa [QMap.keys] using e4 (by simp [QMap.keys])
  · intro p hp
    rcases e3 p hp with h | ⟨e, he, hpe⟩
    · cases h
    · exact ⟨e, he, by rw [hpe], by rw [hpe], by rw [hpe]⟩
  · intro e he
    exact ⟨_, e1 e he, rfl, rfl, rfl⟩

theorem setConceptMap_rebuilds_witness :
    storeABe.WF ∧ storeABe.RefIntegrity ∧
      (sceneA.setConceptMap storeABe).m_conceptMap = storeABe ∧
      (QMap.keys (sceneA.setConceptMap storeABe).m_graphicsNodes).Perm
        (storeABe.nodes.map (fun n => n.id)) ∧
      (QMap.keys (sceneA.setConceptMap storeABe).m_graphicsEdges).Perm
        (storeABe.edges.map (fun e => e.id)) ∧
      (sceneA.setConceptMap storeABe).graphicsNodeById "n2" = some (GraphicsNode.new nodeB) :=
  have hri : storeABe.RefIntegrity := by
    unfold ConceptMap.RefIntegrity
    decide
  have h := setConceptMap_rebuilds sceneA storeABe ConceptMap.storeABe_wf hri
  ⟨ConceptMap.storeABe_wf, hri, h.1, h.2.1, h.2.2.2.2.1, by decide⟩

/-! ## The load path -/

namespace ConceptMap

/-- A loop of `addNode` over nodes with pairwise distinct ids that are new to a well-formed
store appends them in order. -/
theorem addNode_loop (ns : List ConceptNode) (s : ConceptMap) (h : s.WF)
    (hnd : (ns.map (fun n => n.id)).Nodup) (hfresh : ∀ n ∈ ns, s.hasNode n.id = false) :
    (ns.foldl (fun m node => (m.addNode node).2) s).WF ∧
    (ns.foldl (fun m node => (m.addNode node).2) s).m_nodes = s.m_nodes ++ ns ∧
    (ns.foldl (fun m node => (m.addNode node).2) s).m_edges = s.m_edges := by
  induction ns generalizing s with
  | nil => exact ⟨h, by simp, rfl⟩
  | cons a ns ih =>
    rw [List.map_cons, List.nodup_cons] at hnd
    rw [List.foldl_cons]
    have ha := hfresh a (List.mem_cons_self _ _)
    obtain ⟨_, _, hn, he⟩ := addNode_lookup ha
    have hw := addNode_wf h a
    obtain ⟨i1, i2, i3⟩ := ih (s.addNode a).2 hw hnd.2
      (by
        intro n hn'
        rw [hasNode_false_iff hw, hn]
        intro x hx
        simp only [List.mem_append, List.mem_singleton] at hx
        rcases hx with hx | hx
        · exact (hasNode_false_iff h n.id).1 (hfresh n (List.mem_cons_of_mem _ hn')) x hx
        · rw [hx]
          intro heq
          exact hnd.1 (heq ▸ List.mem_map_of_mem (fun n => n.id) hn'))
    refine ⟨i1, ?_, ?_⟩
    · rw [i2]
      show (s.addNode a).2.nodes ++ ns = _
      rw [hn]
      simp [nodes]
    · rw [i3]
      exact he

/-- A loop of `addEdge` over edges with pairwise distinct ids that are new to a well-formed
store, whose endpoints are nodes of the store, appends them in order. -/
theorem addEdge_loop (es : List ConceptEdge) (s : ConceptMap) (h : s.WF)
    (hnd : (es.map (fun e => e.id)).Nodup) (hfresh : ∀ e ∈ es, s.hasEdge e.id = false)
    (hend : ∀ e ∈ es, s.hasNode e.sourceNodeId = true ∧ s.hasNode e.targetNodeId = true) :
    (es.foldl (fun m edge => (m.addEdge edge).2) s).WF ∧
    (es.foldl (fun m edge => (m.addEdge edge).2) s).m_edges = s.m_edges ++ es ∧
    (es.foldl (fun m edge => (m.addEdge edge).2) s).m_nodes = s.m_nodes := by
  induction es generalizing s with
  | nil => exact ⟨h, by simp, rfl⟩
  | cons r es ih =>
    rw [List.map_cons, List.nodup_cons] at hnd
    rw [List.foldl_cons]
    have hok : (s.addEdge r).1 = true := by
      rw [addEdge_fst]
      exact ⟨hfresh r (by simp), hend r (by simp)⟩
    have hw := addEdge_wf h r
    have hedges := addEdge_edges_of_ok hok
    have hnodes := addEdge_nodes s r
    have hhas : ∀ k, (s.addEdge r).2.hasNode k = s.hasNode k := by
      intro k
      rw [Bool.eq_iff_iff, hasNode_iff hw, hasNode_iff h]
      unfold nodes
      rw [hnodes]
    obtain ⟨i1, i2, i3⟩ := ih (s.addEdge r).2 hw hnd.2
      (by
        intro e he
        rw [hasEdge_false_iff hw]
        unfold edges
        rw [hedges]
        intro x hx
        simp only [List.mem_append, List.mem_singleton] at hx
        rcases hx with hx | hx
        · exact (hasEdge_false_iff h e.id).1 (hfresh e (by simp [he])) x hx
        · rw [hx]
          intro heq
          exact hnd.1 (heq ▸ List.mem_map_of_mem (fun e => e.id) he))
      (by
        intro e he
        rw [hhas, hhas]
        exact hend e (by simp [he]))
    exact ⟨i1, by rw [i2, hedges]; simp, by rw [i3, hnodes]⟩

end ConceptMap

/-- What the load path does on a model whose store is empty: for a file that decodes to
nodes with distinct ids and edges with distinct ids whose endpoints are among the nodes, the
store afterwards holds exactly the decoded nodes and edges, in file order. -/
theorem MapModel.loadFromFile_on_empty (m : MapModel) (filePath : String) (doc : Document)
    (hwf : m.m_conceptMap.WF) (hn0 : m.m_conceptMap.m_nodes = [])
    (he0 : m.m_conceptMap.m_edges = [])
    (hext : endsWithCI filePath ".json" = true ∨ endsWithCI filePath ".xml" = true)
    (hnd : ((doc.nodes.map NodeRecord.toNode).map (fun n => n.id)).Nodup)
    (hed : ((doc.edges.map EdgeRecord.toEdge).map (fun e => e.id)).Nodup)
    (hend : ∀ e ∈ doc.edges.map EdgeRecord.toEdge,
      (∃ n ∈ doc.nodes.map NodeRecord.toNode, n.id = e.sourceNodeId) ∧
      (∃ n ∈ doc.nodes.map NodeRecord.toNode, n.id = e.targetNodeId)) :
    (m.loadFromFile filePath (some doc)).1 = true ∧
    (m.loadFromFile filePath (some doc)).2.m_conceptMap.nodes =
      doc.nodes.map NodeRecord.toNode ∧
    (m.loadFromFile filePath (some doc)).2.m_conceptMap.edges =
      doc.edges.map EdgeRecord.toEdge := by
  obtain ⟨w1, n1, e1⟩ := ConceptMap.addNode_loop (doc.nodes.map NodeRecord.toNode)
    m.m_conceptMap hwf hnd
    (by
      intro n _
      rw [ConceptMap.hasNode_false_iff hwf]
      intro x hx
      rw [ConceptMap.nodes, hn0] at hx
      cases hx)
  rw [hn0, List.nil_append] at n1
  rw [he0] at e1
  obtain ⟨_, e2, n2⟩ := ConceptMap.addEdge_loop (doc.edges.map EdgeRecord.toEdge) _ w1 hed
    (by
      intro e _
      rw [ConceptMap.hasEdge_false_iff w1]
      intro x hx
      rw [ConceptMap.edges, e1] at hx
      cases hx)
    (by
      intro e he
      rw [ConceptMap.hasNode_iff w1, ConceptMap.hasNode_iff w1, ConceptMap.nodes, n1]
      exact hend e he)
  rw [e1, List.nil_append] at e2
  rw [n1] at n2
  by_cases hj : endsWithCI filePath ".json" = true
  · simp only [MapModel.loadFromFile, hj, ConceptMapSerializer.loadFromJson, if_true,
      Bool.not_true, Bool.false_eq_true, if_false, ConceptMap.nodes, ConceptMap.edges]
    exact ⟨trivial, n2, e2⟩
  · have hx : endsWithCI filePath ".xml" = true := hext.resolve_left hj
    simp only [MapModel.loadFromFile, hj, hx, ConceptMapSerializer.loadFromXml, if_true,
      Bool.not_true, Bool.false_eq_true, if_false, ConceptMap.nodes, ConceptMap.edges]
    exact ⟨trivial, n2, e2⟩

/-- C17, at an input where the code departs from it. The model `modelA` holds node `n1`;
the file `map.json` decodes to the single node `n2` (distinct ids, no edge). The load
returns `true`, and afterwards the store holds `n1` followed by `n2`, not exactly the nodes
of the file: the loader adds to the store it is given and never clears it. -/
theorem loadFromFile_keeps_old_nodes :
    (modelA.loadFromFile "map.json" (some documentB)).1 = true ∧
      (modelA.loadFromFile "map.json" (some documentB)).2.m_conceptMap.nodes =
        [nodeA, recordB.toNode] ∧
      documentB.nodes.map NodeRecord.toNode = [recordB.toNode] ∧
      (modelA.loadFromFile "map.json" (some documentB)).2.m_conceptMap.nodes ≠
        documentB.nodes.map NodeRecord.toNode := by
  refine ⟨by decide, by decide, rfl, by decide⟩

/-! ## Edge geometry: the ellipse -/

namespace GraphicsEdge

theorem ellipse_anchor_aux {K : Type} [LinearOrderedField K] (sqrt : K → K) (rect : QRectF K)
    (c target : QPointF K) (ha : 0 < rect.w / 2) (hb : 0 < rect.h / 2) (hne : target ≠ c)
    (hsqrt : 0 ≤ sqrt
        (((target.x - c.x) * (target.x - c.x)) / ((rect.w / 2) * (rect.w / 2)) +
          ((target.y - c.y) * (target.y - c.y)) / ((rect.h / 2) * (rect.h / 2))) ∧
      sqrt (((target.x - c.x) * (target.x - c.x)) / ((rect.w / 2) * (rect.w / 2)) +
          ((target.y - c.y) * (target.y - c.y)) / ((rect.h / 2) * (rect.h / 2))) *
        sqrt (((target.x - c.x) * (target.x - c.x)) / ((rect.w / 2) * (rect.w / 2)) +
          ((target.y - c.y) * (target.y - c.y)) / ((rect.h / 2) * (rect.h / 2))) =
        ((target.x - c.x) * (target.x - c.x)) / ((rect.w / 2) * (rect.w / 2)) +
          ((target.y - c.y) * (target.y - c.y)) / ((rect.h / 2) * (rect.h / 2))) :
    (((calculateEllipseIntersection sqrt rect c target).x - c.x) / (rect.w / 2)) ^ 2 +
        (((calculateEllipseIntersection sqrt rect c target).y - c.y) / (rect.h / 2)) ^ 2 = 1 ∧
      ∃ t : K, 0 < t ∧
        (calculateEllipseIntersection sqrt rect c target).x - c.x = t * (target.x - c.x) ∧
        (calculateEllipseIntersection sqrt rect c target).y - c.y = t * (target.y - c.y) := by
  have hd : ¬(target.x - c.x = 0 ∧ target.y - c.y = 0) := by
    rintro ⟨h1, h2⟩
    apply hne
    cases target
    cases c
    simp only [QPointF.mk.injEq]
    exact ⟨sub_eq_zero.1 h1, sub_eq_zero.1 h2⟩
  generalize hq : ((target.x - c.x) * (target.x - c.x)) / ((rect.w / 2) * (rect.w / 2)) +
    ((target.y - c.y) * (target.y - c.y)) / ((rect.h / 2) * (rect.h / 2)) = q at hsqrt
  have hqpos : 0 < q := by
    rw [← hq]
    have h1 : 0 ≤ ((target.x - c.x) * (target.x - c.x)) / ((rect.w / 2) * (rect.w / 2)) :=
      div_nonneg (mul_self_nonneg _) (mul_self_nonneg _)
    have h2 : 0 ≤ ((target.y - c.y) * (target.y - c.y)) / ((rect.h / 2) * (rect.h / 2)) :=
      div_nonneg (mul_self_nonneg _) (mul_self_nonneg _)
    by_cases hx : target.x - c.x = 0
    · have hy : target.y - c.y ≠ 0 := fun hy => hd ⟨hx, hy⟩
      have : 0 < ((target.y - c.y) * (target.y - c.y)) / ((rect.h / 2) * (rect.h / 2)) :=
        div_pos (mul_self_pos.2 hy) (mul_pos hb hb)
      linarith
    · have : 0 < ((target.x - c.x) * (target.x - c.x)) / ((rect.w / 2) * (rect.w / 2)) :=
        div_pos (mul_self_pos.2 hx) (mul_pos ha ha)
      linarith
  have hs0 : sqrt q ≠ 0 := by
    intro h0
    rw [h0, mul_zero] at hsqrt
    exact absurd hsqrt.2.symm (ne_of_gt hqpos)
  have hspos : 0 < sqrt q := lt_of_le_of_ne hsqrt.1 (Ne.symm hs0)
  have hres : calculateEllipseIntersection sqrt rect c target =
      ⟨c.x + 1 / sqrt q * (target.x - c.x), c.y + 1 / sqrt q * (target.y - c.y)⟩ := by
    unfold calculateEllipseIntersection
    simp only [QRectF.width, QRectF.height]
    rw [if_neg (not_or.2 ⟨not_le.2 ha, not_le.2 hb⟩), if_neg hd, hq]
  rw [hres]
  refine ⟨?_, 1 / sqrt q, one_div_pos.2 hspos, by simp, by simp⟩
  have hw0 : rect.w ≠ 0 := by
    intro h0
    rw [h0, zero_div] at ha
    exact lt_irrefl _ ha
  have hh0 : rect.h ≠ 0 := by
    intro h0
    rw [h0, zero_div] at hb
    exact lt_irrefl _ hb
  have hexp : ((c.x + 1 / sqrt q * (target.x - c.x) - c.x) / (rect.w / 2)) ^ 2 +
      ((c.y + 1 / sqrt q * (target.y - c.y) - c.y) / (rect.h / 2)) ^ 2 =
      (1 / (sqrt q * sqrt q)) *
        (((target.x - c.x) * (target.x - c.x)) / ((rect.w / 2) * (rect.w / 2)) +
          ((target.y - c.y) * (target.y - c.y)) / ((rect.h / 2) * (rect.h / 2))) := by
    field_simp
    ring
  rw [hexp, hq, hsqrt.2]
  exact one_div_mul_cancel (ne_of_gt hqpos)

/-- The ellipse anchor over the real numbers, with the real square root: no assumption on
the square root is left. -/
theorem ellipse_anchor_real (rect : QRectF ℝ) (c target : QPointF ℝ) (ha : 0 < rect.w / 2)
    (hb : 0 < rect.h / 2) (hne : target ≠ c) :
    (((calculateEllipseIntersection Real.sqrt rect c target).x - c.x) / (rect.w / 2)) ^ 2 +
        (((calculateEllipseIntersection Real.sqrt rect c target).y - c.y) / (rect.h / 2)) ^ 2
        = 1 ∧
      ∃ t : ℝ, 0 < t ∧
        (calculateEllipseIntersection Real.sqrt rect c target).x - c.x = t * (target.x - c.x) ∧
        (calculateEllipseIntersection Real.sqrt rect c target).y - c.y =
          t * (target.y - c.y) := by
  apply ellipse_anchor_aux Real.sqrt rect c target ha hb hne
  refine ⟨Real.sqrt_nonneg _, Real.mul_self_sqrt ?_⟩
  exact add_nonneg (div_nonneg (mul_self_nonneg _) (mul_self_nonneg _))
    (div_nonneg (mul_self_nonneg _) (mul_self_nonneg _))

end GraphicsEdge

/-- C19: for every ellipse node with semi-axes `a = width / 2 > 0` and `b = height / 2 > 0`,
centre `c`, and every target different from `c`, the anchor `P` returned by
`calculateEllipseIntersection` lies on the ellipse,
`((P.x - c.x) / a) ^ 2 + ((P.y - c.y) / b) ^ 2 = 1`, and `P - c` is a positive multiple of
`target - c`. Exact arithmetic: in any ordered field, for a `sqrt` that returns the
non-negative square root of the value it is applied to (as the real square root does, see
`GraphicsEdge.ellipse_anchor_real`). -/
theorem ellipse_anchor_on_ellipse {K : Type} [LinearOrderedField K] (sqrt : K → K)
    (rect : QRectF K) (c target : QPointF K) (ha : 0 < rect.w / 2) (hb : 0 < rect.h / 2)
    (hne : target ≠ c)
    (hsqrt : 0 ≤ sqrt
        (((target.x - c.x) * (target.x - c.x)) / ((rect.w / 2) * (rect.w / 2)) +
          ((target.y - c.y) * (target.y - c.y)) / ((rect.h / 2) * (rect.h / 2))) ∧
      sqrt (((target.x - c.x) * (target.x - c.x)) / ((rect.w / 2) * (rect.w / 2)) +
          ((target.y - c.y) * (target.y - c.y)) / ((rect.h / 2) * (rect.h / 2))) *
        sqrt (((target.x - c.x) * (target.x - c.x)) / ((rect.w / 2) * (rect.w / 2)) +
          ((target.y - c.y) * (target.y - c.y)) / ((rect.h / 2) * (rect.h / 2))) =
        ((target.x - c.x) * (target.x - c.x)) / ((rect.w / 2) * (rect.w / 2)) +
          ((target.y - c.y) * (target.y - c.y)) / ((rect.h / 2) * (rect.h / 2))) :
    (((GraphicsEdge.calculateEllipseIntersection sqrt rect c target).x - c.x) / (rect.w / 2)) ^ 2 +
        (((GraphicsEdge.calculateEllipseIntersection sqrt rect c target).y - c.y) /
          (rect.h / 2)) ^ 2 = 1 ∧
      ∃ t : K, 0 < t ∧
        (GraphicsEdge.calculateEllipseIntersection sqrt rect c target).x - c.x =
          t * (target.x - c.x) ∧
        (GraphicsEdge.calculateEllipseIntersection sqrt rect c target).y - c.y =
          t * (target.y - c.y) :=
  GraphicsEdge.ellipse_anchor_aux sqrt rect c target ha hb hne hsqrt

theorem ellipse_anchor_on_ellipse_witness :
    GraphicsEdge.calculateEllipseIntersection (fun _ => (2 / 5 : ℚ)) boxA boxA.centre ⟨50, 15⟩ =
        ⟨50, 0⟩ ∧
      (((GraphicsEdge.calculateEllipseIntersection (fun _ => (2 / 5 : ℚ)) boxA boxA.centre
          ⟨50, 15⟩).x - boxA.centre.x) / (boxA.w / 2)) ^ 2 +
        (((GraphicsEdge.calculateEllipseIntersection (fun _ => (2 / 5 : ℚ)) boxA boxA.centre
          ⟨50, 15⟩).y - boxA.centre.y) / (boxA.h / 2)) ^ 2 = 1 :=
  ⟨by norm_num [GraphicsEdge.calculateEllipseIntersection, boxA, QRectF.centre, QRectF.width,
      QRectF.height],
    (ellipse_anchor_on_ellipse (fun _ => (2 / 5 : ℚ)) boxA boxA.centre ⟨50, 15⟩
      (by norm_num [boxA]) (by norm_num [boxA])
      (by simp [boxA, QRectF.centre]; norm_num)
      (by norm_num [boxA, QRectF.centre])).1⟩

/-! ## Edge geometry: segments and the rectangle -/

namespace QLineF

variable {K : Type} [LinearOrderedField K]

/-- Whether two segments have a bounded intersection does not depend on what the
out-parameter held before the call. -/
theorem intersects_fst_indep (self l : QLineF K) (p p' : QPointF K) :
    (self.intersects l p).1 = (self.intersects l p').1 := by
  unfold intersects
  simp only []
  split_ifs <;> rfl

/-- A bounded intersection lies on both segments. -/
theorem intersects_bounded_sound (self l : QLineF K) (p : QPointF K)
    (h : (self.intersects l p).1 = IntersectionType.BoundedIntersection) :
    ∃ na nb : K, 0 ≤ na ∧ na ≤ 1 ∧ 0 ≤ nb ∧ nb ≤ 1 ∧
      (self.intersects l p).2.x = self.pt1.x + (self.pt2.x - self.pt1.x) * na ∧
      (self.intersects l p).2.y = self.pt1.y + (self.pt2.y - self.pt1.y) * na ∧
      (self.intersects l p).2.x = l.pt1.x + (l.pt2.x - l.pt1.x) * nb ∧
      (self.intersects l p).2.y = l.pt1.y + (l.pt2.y - l.pt1.y) * nb := by
  unfold intersects at h ⊢
  simp only [] at h ⊢
  split_ifs at h ⊢ with hden hna hnb
  rw [not_or, not_lt, not_lt] at hna hnb
  refine ⟨_, _, hna.1, hna.2, hnb.1, hnb.2, rfl, rfl, ?_, ?_⟩
  · field_simp
    ring
  · field_simp
    ring

/-- Two segments have a bounded intersection when the numerators of the two parameters lie
between zero and a positive denominator. -/
theorem intersects_bounded_of (self l : QLineF K) (p : QPointF K)
    (hD : 0 < (self.pt2.y - self.pt1.y) * (l.pt1.x - l.pt2.x) -
      (self.pt2.x - self.pt1.x) * (l.pt1.y - l.pt2.y))
    (hA0 : 0 ≤ (l.pt1.y - l.pt2.y) * (self.pt1.x - l.pt1.x) -
      (l.pt1.x - l.pt2.x) * (self.pt1.y - l.pt1.y))
    (hA1 : (l.pt1.y - l.pt2.y) * (self.pt1.x - l.pt1.x) -
        (l.pt1.x - l.pt2.x) * (self.pt1.y - l.pt1.y) ≤
      (self.pt2.y - self.pt1.y) * (l.pt1.x - l.pt2.x) -
        (self.pt2.x - self.pt1.x) * (l.pt1.y - l.pt2.y))
    (hB0 : 0 ≤ (self.pt2.x - self.pt1.x) * (self.pt1.y - l.pt1.y) -
      (self.pt2.y - self.pt1.y) * (self.pt1.x - l.pt1.x))
    (hB1 : (self.pt2.x - self.pt1.x) * (self.pt1.y - l.pt1.y) -
        (self.pt2.y - self.pt1.y) * (self.pt1.x - l.pt1.x) ≤
      (self.pt2.y - self.pt1.y) * (l.pt1.x - l.pt2.x) -
        (self.pt2.x - self.pt1.x) * (l.pt1.y - l.pt2.y)) :
    (self.intersects l p).1 = IntersectionType.BoundedIntersection := by
  unfold intersects
  simp only []
  rw [if_neg (ne_of_gt hD)]
  have hrec : 0 ≤ 1 / ((self.pt2.y - self.pt1.y) * (l.pt1.x - l.pt2.x) -
      (self.pt2.x - self.pt1.x) * (l.pt1.y - l.pt2.y)) := le_of_lt (one_div_pos.2 hD)
  have hna : ¬(((l.pt1.y - l.pt2.y) * (self.pt1.x - l.pt1.x) -
        (l.pt1.x - l.pt2.x) * (self.pt1.y - l.pt1.y)) *
      (1 / ((self.pt2.y - self.pt1.y) * (l.pt1.x - l.pt2.x) -
        (self.pt2.x - self.pt1.x) * (l.pt1.y - l.pt2.y))) < 0 ∨
      ((l.pt1.y - l.pt2.y) * (self.pt1.x - l.pt1.x) -
        (l.pt1.x - l.pt2.x) * (self.pt1.y - l.pt1.y)) *
      (1 / ((self.pt2.y - self.pt1.y) * (l.pt1.x - l.pt2.x) -
        (self.pt2.x - self.pt1.x) * (l.pt1.y - l.pt2.y))) > 1) := by
    rw [not_or, not_lt, not_lt]
    refine ⟨mul_nonneg hA0 hrec, ?_⟩
    rw [mul_one_div, div_le_one hD]
    exact hA1
  have hnb : ¬(((self.pt2.x - self.pt1.x) * (self.pt1.y - l.pt1.y) -
        (self.pt2.y - self.pt1.y) * (self.pt1.x - l.pt1.x)) *
      (1 / ((self.pt2.y - self.pt1.y) * (l.pt1.x - l.pt2.x) -
        (self.pt2.x - self.pt1.x) * (l.pt1.y - l.pt2.y))) < 0 ∨
      ((self.pt2.x - self.pt1.x) * (self.pt1.y - l.pt1.y) -
        (self.pt2.y - self.pt1.y) * (self.pt1.x - l.pt1.x)) *
      (1 / ((self.pt2.y - self.pt1.y) * (l.pt1.x - l.pt2.x) -
        (self.pt2.x - self.pt1.x) * (l.pt1.y - l.pt2.y))) > 1) := by
    rw [not_or, not_lt, not_lt]
    refine ⟨mul_nonneg hB0 hrec, ?_⟩
    rw [mul_one_div, div_le_one hD]
    exact hB1
  rw [if_neg hna, if_neg hnb]

end QLineF

namespace GraphicsEdge

variable {K : Type} [LinearOrderedField K]

/-- A direction `(dx, dy)` that leaves the open box of half-sizes `w / 2`, `h / 2` around
the origin leaves it through the top, the right, the bottom or the left side. -/
theorem region_cases (w h dx dy : K) (hw : 0 < w) (hh : 0 < h)
    (hout : dx ≤ -(w / 2) ∨ w / 2 ≤ dx ∨ dy ≤ -(h / 2) ∨ h / 2 ≤ dy) :
    (dy ≤ -(h / 2) ∧ dy * w ≤ dx * h ∧ dx * h ≤ -(dy * w)) ∨
    (w / 2 ≤ dx ∧ -(dx * h) ≤ dy * w ∧ dy * w ≤ dx * h) ∨
    (h / 2 ≤ dy ∧ -(dy * w) ≤ dx * h ∧ dx * h ≤ dy * w) ∨
    (dx ≤ -(w / 2) ∧ dx * h ≤ dy * w ∧ dy * w ≤ -(dx * h)) := by
  have hwh : 0 < w * h := mul_pos hw hh
  have f1 : dx ≤ -(w / 2) → dx * h ≤ -(w / 2) * h := fun e =>
    mul_le_mul_of_nonneg_right e hh.le
  have f2 : w / 2 ≤ dx → w / 2 * h ≤ dx * h := fun e => mul_le_mul_of_nonneg_right e hh.le
  have f3 : dy ≤ -(h / 2) → dy * w ≤ -(h / 2) * w := fun e =>
    mul_le_mul_of_nonneg_right e hw.le
  have f4 : h / 2 ≤ dy → h / 2 * w ≤ dy * w := fun e => mul_le_mul_of_nonneg_right e hw.le
  have g1 : -(w / 2) < dx → -(w / 2) * h < dx * h := fun e => mul_lt_mul_of_pos_right e hh
  have g2 : dx < w / 2 → dx * h < w / 2 * h := fun e => mul_lt_mul_of_pos_right e hh
  have g3 : -(h / 2) < dy → -(h / 2) * w < dy * w := fun e => mul_lt_mul_of_pos_right e hw
  have g4 : dy < h / 2 → dy * w < h / 2 * w := fun e => mul_lt_mul_of_pos_right e hw
  rcases le_total (dx * h) (dy * w) with huv | huv <;>
    rcases le_total (dx * h) (-(dy * w)) with hun | hun
  · -- left
    refine Or.inr (Or.inr (Or.inr ⟨?_, huv, by linarith⟩))
    by_contra hc
    have hc' := g1 (not_le.1 hc)
    rcases hout with e | e | e | e
    · exact hc e
    · have := f2 e; linarith
    · have := f3 e; linarith
    · have := f4 e; linarith
  · -- bottom
    refine Or.inr (Or.inr (Or.inl ⟨?_, by linarith, huv⟩))
    by_contra hc
    have hc' := g4 (not_le.1 hc)
    rcases hout with e | e | e | e
    · have := f1 e; linarith
    · have := f2 e; linarith
    · have := f3 e; linarith
    · exact hc e
  · -- top
    refine Or.inl ⟨?_, huv, hun⟩
    by_contra hc
    have hc' := g3 (not_le.1 hc)
    rcases hout with e | e | e | e
    · have := f1 e; linarith
    · have := f2 e; linarith
    · exact hc e
    · have := f4 e; linarith
  · -- right
    refine Or.inr (Or.inl ⟨?_, by linarith, huv⟩)
    by_contra hc
    have hc' := g2 (not_le.1 hc)
    rcases hout with e | e | e | e
    · have := f1 e; linarith
    · exact hc e
    · have := f3 e; linarith
    · have := f4 e; linarith

theorem top_bounded (rect : QRectF K) (target p : QPointF K) (hw : 0 < rect.w)
    (hh : 0 < rect.h) (h0 : target.y - (rect.yp + rect.h / 2) ≤ -(rect.h / 2))
    (h1 : (target.y - (rect.yp + rect.h / 2)) * rect.w ≤
      (target.x - (rect.xp + rect.w / 2)) * rect.h)
    (h2 : (target.x - (rect.xp + rect.w / 2)) * rect.h ≤
      -((target.y - (rect.yp + rect.h / 2)) * rect.w)) :
    (QLineF.intersects ⟨rect.centre, target⟩ ⟨rect.topLeft, rect.topRight⟩ p).1 =
      IntersectionType.BoundedIntersection := by
  have hwh : 0 < rect.w * rect.h := mul_pos hw hh
  have hp := mul_le_mul_of_nonneg_right h0 hw.le
  apply QLineF.intersects_bounded_of <;>
    simp only [QRectF.centre, QRectF.topLeft, QRectF.topRight] <;> linarith

theorem right_bounded (rect : QRectF K) (target p : QPointF K) (hw : 0 < rect.w)
    (hh : 0 < rect.h) (h0 : rect.w / 2 ≤ target.x - (rect.xp + rect.w / 2))
    (h1 : -((target.x - (rect.xp + rect.w / 2)) * rect.h) ≤
      (target.y - (rect.yp + rect.h / 2)) * rect.w)
    (h2 : (target.y - (rect.yp + rect.h / 2)) * rect.w ≤
      (target.x - (rect.xp + rect.w / 2)) * rect.h) :
    (QLineF.intersects ⟨rect.centre, target⟩ ⟨rect.topRight, rect.bottomRight⟩ p).1 =
      IntersectionType.BoundedIntersection := by
  have hwh : 0 < rect.w * rect.h := mul_pos hw hh
  have hp := mul_le_mul_of_nonneg_right h0 hh.le
  apply QLineF.intersects_bounded_of <;>
    simp only [QRectF.centre, QRectF.topRight, QRectF.bottomRight] <;> linarith

theorem bottom_bounded (rect : QRectF K) (target p : QPointF K) (hw : 0 < rect.w)
    (hh : 0 < rect.h) (h0 : rect.h / 2 ≤ target.y - (rect.yp + rect.h / 2))
    (h1 : -((target.y - (rect.yp + rect.h / 2)) * rect.w) ≤
      (target.x - (rect.xp + rect.w / 2)) * rect.h)
    (h2 : (target.x - (rect.xp + rect.w / 2)) * rect.h ≤
      (target.y - (rect.yp + rect.h / 2)) * rect.w) :
    (QLineF.intersects ⟨rect.centre, target⟩ ⟨rect.bottomRight, rect.bottomLeft⟩ p).1 =
      IntersectionType.BoundedIntersection := by
  have hwh : 0 < rect.w * rect.h := mul_pos hw hh
  have hp := mul_le_mul_of_nonneg_right h0 hw.le
  apply QLineF.intersects_bounded_of <;>
    simp only [QRectF.centre, QRectF.bottomRight, QRectF.bottomLeft] <;> linarith

theorem left_bounded (rect : QRectF K) (target p : QPointF K) (hw : 0 < rect.w)
    (hh : 0 < rect.h) (h0 : target.x - (rect.xp + rect.w / 2) ≤ -(rect.w / 2))
    (h1 : (target.x - (rect.xp + rect.w / 2)) * rect.h ≤
      (target.y - (rect.yp + rect.h / 2)) * rect.w)
    (h2 : (target.y - (rect.yp + rect.h / 2)) * rect.w ≤
      -((target.x - (rect.xp + rect.w / 2)) * rect.h)) :
    (QLineF.intersects ⟨rect.centre, target⟩ ⟨rect.bottomLeft, rect.topLeft⟩ p).1 =
      IntersectionType.BoundedIntersection := by
  have hwh : 0 < rect.w * rect.h := mul_pos hw hh
  have hp := mul_le_mul_of_nonneg_right h0 hh.le
  apply QLineF.intersects_bounded_of <;>
    simp only [QRectF.centre, QRectF.bottomLeft, QRectF.topLeft] <;> linarith

end GraphicsEdge

namespace GraphicsEdge

variable {K : Type} [LinearOrderedField K]

/-- For a box of positive size and a target that is not strictly inside it, some side test
of `calculateRectangleIntersection` succeeds, and the point it returns lies on that side and
on the segment from the centre to the target. -/
theorem rectangle_anchor_aux (rect : QRectF K) (target : QPointF K) (hw : 0 < rect.w)
    (hh : 0 < rect.h)
    (hout : ¬(rect.xp < target.x ∧ target.x < rect.xp + rect.w ∧ rect.yp < target.y ∧
      target.y < rect.yp + rect.h)) :
    rect.OnBoundary (calculateRectangleIntersection rect rect.centre target) ∧
      OnSegment rect.centre target (calculateRectangleIntersection rect rect.centre target) := by
  unfold calculateRectangleIntersection
  simp only []
  split_ifs with h1 h2 h3 h4
  · obtain ⟨na, nb, a0, a1, b0, b1, px, py, qx, qy⟩ := QLineF.intersects_bounded_sound _ _ _ h1
    refine ⟨Or.inl ⟨Or.inl ?_, ?_, ?_⟩, na, a0, a1, px, py⟩
    · rw [qy]
      simp [QRectF.topLeft, QRectF.topRight]
    · rw [qx]
      simp only [QRectF.topLeft, QRectF.topRight]
      nlinarith [mul_nonneg hw.le b0]
    · rw [qx]
      simp only [QRectF.topLeft, QRectF.topRight]
      nlinarith [mul_nonneg hw.le (sub_nonneg.2 b1)]
  · obtain ⟨na, nb, a0, a1, b0, b1, px, py, qx, qy⟩ := QLineF.intersects_bounded_sound _ _ _ h2
    refine ⟨Or.inr ⟨Or.inr ?_, ?_, ?_⟩, na, a0, a1, px, py⟩
    · rw [qx]
      simp [QRectF.topRight, QRectF.bottomRight]
    · rw [qy]
      simp only [QRectF.topRight, QRectF.bottomRight]
      nlinarith [mul_nonneg hh.le b0]
    · rw [qy]
      simp only [QRectF.topRight, QRectF.bottomRight]
      nlinarith [mul_nonneg hh.le (sub_nonneg.2 b1)]
  · obtain ⟨na, nb, a0, a1, b0, b1, px, py, qx, qy⟩ := QLineF.intersects_bounded_sound _ _ _ h3
    refine ⟨Or.inl ⟨Or.inr ?_, ?_, ?_⟩, na, a0, a1, px, py⟩
    · rw [qy]
      simp [QRectF.bottomRight, QRectF.bottomLeft]
    · rw [qx]
      simp only [QRectF.bottomRight, QRectF.bottomLeft]
      nlinarith [mul_nonneg hw.le (sub_nonneg.2 b1)]
    · rw [qx]
      simp only [QRectF.bottomRight, QRectF.bottomLeft]
      nlinarith [mul_nonneg hw.le b0]
  · obtain ⟨na, nb, a0, a1, b0, b1, px, py, qx, qy⟩ := QLineF.intersects_bounded_sound _ _ _ h4
    refine ⟨Or.inr ⟨Or.inl ?_, ?_, ?_⟩, na, a0, a1, px, py⟩
    · rw [qx]
      simp [QRectF.bottomLeft, QRectF.topLeft]
    · rw [qy]
      simp only [QRectF.bottomLeft, QRectF.topLeft]
      nlinarith [mul_nonneg hh.le (sub_nonneg.2 b1)]
    · rw [qy]
      simp only [QRectF.bottomLeft, QRectF.topLeft]
      nlinarith [mul_nonneg hh.le b0]
  · exfalso
    have hout' : target.x - (rect.xp + rect.w / 2) ≤ -(rect.w / 2) ∨
        rect.w / 2 ≤ target.x - (rect.xp + rect.w / 2) ∨
        target.y - (rect.yp + rect.h / 2) ≤ -(rect.h / 2) ∨
        rect.h / 2 ≤ target.y - (rect.yp + rect.h / 2) := by
      by_contra hc
      simp only [not_or, not_le] at hc
      apply hout
      refine ⟨?_, ?_, ?_, ?_⟩ <;> linarith [hc.1, hc.2.1, hc.2.2.1, hc.2.2.2]
    rcases region_cases rect.w rect.h _ _ hw hh hout' with ⟨e0, e1, e2⟩ | ⟨e0, e1, e2⟩ |
      ⟨e0, e1, e2⟩ | ⟨e0, e1, e2⟩
    · exact h1 (top_bounded rect target _ hw hh e0 e1 e2)
    · exact h2 (right_bounded rect target _ hw hh e0 e1 e2)
    · exact h3 (bottom_bounded rect target _ hw hh e0 e1 e2)
    · exact h4 (left_bounded rect target _ hw hh e0 e1 e2)

end GraphicsEdge

/-- C18: for every rectangle node with positive width and height, with `center` the centre
of its box, and every target point that is not strictly inside the box, the anchor returned
by `calculateRectangleIntersection` lies on the boundary of the box and on the closed
segment from the center to the target (exact arithmetic, in any ordered field). -/
theorem rectangle_anchor_on_boundary {K : Type} [LinearOrderedField K] (rect : QRectF K)
    (target : QPointF K) (hw : 0 < rect.w) (hh : 0 < rect.h)
    (hout : ¬(rect.xp < target.x ∧ target.x < rect.xp + rect.w ∧ rect.yp < target.y ∧
      target.y < rect.yp + rect.h)) :
    rect.OnBoundary (GraphicsEdge.calculateRectangleIntersection rect rect.centre target) ∧
      OnSegment rect.centre target
        (GraphicsEdge.calculateRectangleIntersection rect rect.centre target) :=
  GraphicsEdge.rectangle_anchor_aux rect target hw hh hout

theorem rectangle_anchor_on_boundary_witness :
    GraphicsEdge.calculateRectangleIntersection boxA boxA.centre ⟨200, 25⟩ = ⟨100, 25⟩ ∧
      boxA.OnBoundary (GraphicsEdge.calculateRectangleIntersection boxA boxA.centre ⟨200, 25⟩) ∧
      OnSegment boxA.centre ⟨200, 25⟩
        (GraphicsEdge.calculateRectangleIntersection boxA boxA.centre ⟨200, 25⟩) :=
  have hne : ¬IntersectionType.NoIntersection = IntersectionType.BoundedIntersection := by
    decide
  ⟨by norm_num [GraphicsEdge.calculateRectangleIntersection, QLineF.intersects, boxA,
      QRectF.centre, QRectF.topLeft, QRectF.topRight, QRectF.bottomLeft, QRectF.bottomRight,
      hne],
    rectangle_anchor_on_boundary boxA ⟨200, 25⟩ (by norm_num [boxA]) (by norm_num [boxA])
      (by norm_num [boxA])⟩

/-! ## Edge geometry: the rounded rectangle -/

namespace GraphicsEdge

variable {K : Type} [LinearOrderedField K]

/-- Parallel lines: the test reports no intersection and leaves the out-parameter alone. -/
theorem intersects_parallel (self l : QLineF K) (p : QPointF K)
    (hD : (self.pt2.y - self.pt1.y) * (l.pt1.x - l.pt2.x) -
      (self.pt2.x - self.pt1.x) * (l.pt1.y - l.pt2.y) = 0) :
    self.intersects l p = (IntersectionType.NoIntersection, p) := by
  unfold QLineF.intersects
  simp only []
  rw [if_pos hD]

/-- For every box of positive size and every target on the horizontal line through the
centre, at or beyond the right side, `calculateRoundedRectIntersection` returns the point of
that line on the right side of the box inset by `min width height / 4`: the test
`rectPart.contains` accepts it, and the full box is not consulted. -/
theorem roundedRect_right_anchor (rect : QRectF K) (tx : K) (hw : 0 < rect.w) (hh : 0 < rect.h)
    (htx : rect.xp + rect.w ≤ tx) :
    calculateRoundedRectIntersection rect rect.centre ⟨tx, rect.yp + rect.h / 2⟩ =
      ⟨rect.xp + rect.w - min rect.w rect.h / 4, rect.yp + rect.h / 2⟩ := by
  have hr0 : 0 < min rect.w rect.h / 4 := div_pos (lt_min hw hh) (by norm_num)
  have hrw : min rect.w rect.h / 4 ≤ rect.w / 4 :=
    div_le_div_of_nonneg_right (min_le_left _ _) (by norm_num)
  have hrh : min rect.w rect.h / 4 ≤ rect.h / 4 :=
    div_le_div_of_nonneg_right (min_le_right _ _) (by norm_num)
  generalize hr : min rect.w rect.h / 4 = r at hr0 hrw hrh
  have hc : rect.centre = (rect.adjusted r r (-r) (-r)).centre := by
    simp only [QRectF.centre, QRectF.adjusted, QPointF.mk.injEq]
    constructor <;> ring
  have hw' : 0 < (rect.adjusted r r (-r) (-r)).w := by
    simp only [QRectF.adjusted]
    linarith
  have hh' : 0 < (rect.adjusted r r (-r) (-r)).h := by
    simp only [QRectF.adjusted]
    linarith
  -- the inner call
  have hinner : calculateRectangleIntersection (rect.adjusted r r (-r) (-r)) rect.centre
      ⟨tx, rect.yp + rect.h / 2⟩ = ⟨rect.xp + rect.w - r, rect.yp + rect.h / 2⟩ := by
    have htop : QLineF.intersects ⟨rect.centre, ⟨tx, rect.yp + rect.h / 2⟩⟩
        ⟨(rect.adjusted r r (-r) (-r)).topLeft, (rect.adjusted r r (-r) (-r)).topRight⟩ ⟨0, 0⟩ =
        (IntersectionType.NoIntersection, ⟨0, 0⟩) := by
      apply intersects_parallel
      simp only [QRectF.centre, QRectF.topLeft, QRectF.topRight, QRectF.adjusted]
      ring
    have hright : (QLineF.intersects ⟨rect.centre, ⟨tx, rect.yp + rect.h / 2⟩⟩
        ⟨(rect.adjusted r r (-r) (-r)).topRight, (rect.adjusted r r (-r) (-r)).bottomRight⟩
        ⟨0, 0⟩).1 = IntersectionType.BoundedIntersection := by
      rw [hc]
      apply right_bounded _ _ _ hw' hh' <;> simp only [QRectF.adjusted] <;>
        nlinarith [mul_pos hw hh, mul_pos hr0 hh, mul_pos hr0 hw, mul_nonneg
          (sub_nonneg.2 htx) hh.le, mul_nonneg hr0.le hr0.le, mul_nonneg
          (sub_nonneg.2 hrw) hh.le, mul_nonneg (sub_nonneg.2 hrh) hw.le]
    obtain ⟨na, nb, -, -, -, -, -, py, qx, -⟩ := QLineF.intersects_bounded_sound _ _ _ hright
    unfold calculateRectangleIntersection
    simp only [htop]
    rw [if_neg (by decide), if_pos hright]
    have hx : (QLineF.intersects ⟨rect.centre, ⟨tx, rect.yp + rect.h / 2⟩⟩
        ⟨(rect.adjusted r r (-r) (-r)).topRight, (rect.adjusted r r (-r) (-r)).bottomRight⟩
        ⟨0, 0⟩).2.x = rect.xp + rect.w - r := by
      rw [qx]
      simp only [QRectF.topRight, QRectF.bottomRight, QRectF.adjusted]
      ring
    have hy : (QLineF.intersects ⟨rect.centre, ⟨tx, rect.yp + rect.h / 2⟩⟩
        ⟨(rect.adjusted r r (-r) (-r)).topRight, (rect.adjusted r r (-r) (-r)).bottomRight⟩
        ⟨0, 0⟩).2.y = rect.yp + rect.h / 2 := by
      rw [py]
      simp only [QRectF.centre]
      ring
    cases hP : (QLineF.intersects ⟨rect.centre, ⟨tx, rect.yp + rect.h / 2⟩⟩
        ⟨(rect.adjusted r r (-r) (-r)).topRight, (rect.adjusted r r (-r) (-r)).bottomRight⟩
        ⟨0, 0⟩).2 with
    | mk px' py' =>
      rw [hP] at hx hy
      simp only at hx hy
      rw [hx, hy]
  have hcontains : (rect.adjusted r r (-r) (-r)).contains
      ⟨rect.xp + rect.w - r, rect.yp + rect.h / 2⟩ = true := by
    have n1 : ¬(rect.w + -r - r < 0) := by
      rw [not_lt]
      linarith
    have n2 : ¬(rect.h + -r - r < 0) := by
      rw [not_lt]
      linarith
    unfold QRectF.contains
    simp only [QRectF.adjusted, n1, n2, if_false]
    split_ifs with a b c d
    · exfalso
      linarith
    · exfalso
      rcases b with b | b <;> linarith
    · exfalso
      linarith
    · exfalso
      rcases d with d | d <;> linarith
    · rfl
  unfold calculateRoundedRectIntersection
  simp only [QRectF.width, QRectF.height, hr, hinner, hcontains, if_true]

end GraphicsEdge

/-- C20, at inputs where the code departs from it. Node box `(0, 0, 100, 50)`, centre
`(50, 25)`, shape `RoundedRect`. For the target `(200, 25)`, on the horizontal line through
the centre and outside the box, the anchor is `(87.5, 25)`, strictly inside the box and not
the point `(100, 25)` where the line crosses the right side; for the target `(50, -100)`, on
the vertical line, it is `(50, 12.5)` and not `(50, 0)`. The rectangle case returns
`(100, 25)` for the first target. -/
theorem roundedRect_anchor_inside_box :
    boxA.centre = ⟨50, 25⟩ ∧
      GraphicsEdge.calculateRoundedRectIntersection boxA boxA.centre ⟨200, 25⟩ = ⟨175 / 2, 25⟩ ∧
      GraphicsEdge.calculateRoundedRectIntersection boxA boxA.centre ⟨50, -100⟩ = ⟨50, 25 / 2⟩ ∧
      GraphicsEdge.calculateRectangleIntersection boxA boxA.centre ⟨200, 25⟩ = ⟨100, 25⟩ ∧
      GraphicsEdge.calculateRoundedRectIntersection boxA boxA.centre ⟨200, 25⟩ ≠ ⟨100, 25⟩ := by
  have hne : ¬IntersectionType.NoIntersection = IntersectionType.BoundedIntersection := by
    decide
  have h1 : GraphicsEdge.calculateRoundedRectIntersection boxA boxA.centre ⟨200, 25⟩ =
      ⟨175 / 2, 25⟩ := by
    norm_num [GraphicsEdge.calculateRoundedRectIntersection,
      GraphicsEdge.calculateRectangleIntersection, QLineF.intersects, QRectF.adjusted,
      QRectF.contains, boxA, QRectF.centre, QRectF.width, QRectF.height, QRectF.topLeft,
      QRectF.topRight, QRectF.bottomLeft, QRectF.bottomRight, hne]
  refine ⟨by norm_num [boxA, QRectF.centre], h1, ?_, ?_, ?_⟩
  · norm_num [GraphicsEdge.calculateRoundedRectIntersection,
      GraphicsEdge.calculateRectangleIntersection, QLineF.intersects, QRectF.adjusted,
      QRectF.contains, boxA, QRectF.centre, QRectF.width, QRectF.height, QRectF.topLeft,
      QRectF.topRight, QRectF.bottomLeft, QRectF.bottomRight, hne]
  · norm_num [GraphicsEdge.calculateRectangleIntersection, QLineF.intersects, boxA,
      QRectF.centre, QRectF.topLeft, QRectF.topRight, QRectF.bottomLeft, QRectF.bottomRight,
      hne]
  · rw [h1]
    norm_num

/-! ## Edge geometry: degenerate input -/

namespace QLineF
variable {K : Type} [LinearOrderedField K]

/-- When the numerator of the parameter `na` vanishes, the crossing point that the test
writes is the first end point of the segment the test is called on. -/
theorem intersects_snd_of_num_zero (self l : QLineF K) (p : QPointF K)
    (hnum : (l.pt1.y - l.pt2.y) * (self.pt1.x - l.pt1.x) -
      (l.pt1.x - l.pt2.x) * (self.pt1.y - l.pt1.y) = 0)
    (hb : (self.intersects l p).1 = IntersectionType.BoundedIntersection) :
    (self.intersects l p).2 = self.pt1 := by
  unfold intersects at hb ⊢
  simp only [] at hb ⊢
  split_ifs at hb ⊢ with hden hna hnb
  rw [hnum]
  cases hs : self.pt1
  simp

end QLineF

namespace GraphicsEdge
variable {K : Type} [LinearOrderedField K]

/-- A box of zero width or zero height: every side test that is bounded returns the centre,
so `calculateRectangleIntersection` returns the centre. -/
theorem rectangle_zero_size (rect : QRectF K) (target : QPointF K)
    (h0 : rect.w = 0 ∨ rect.h = 0) :
    calculateRectangleIntersection rect rect.centre target = rect.centre := by
  have hwh : rect.w * rect.h = 0 := by
    rcases h0 with h | h <;> simp [h]
  unfold calculateRectangleIntersection
  simp only []
  split_ifs with h1 h2 h3 h4
  · apply QLineF.intersects_snd_of_num_zero _ _ _ _ h1
    simp only [QRectF.centre, QRectF.topLeft, QRectF.topRight]
    linear_combination (1 / 2 : K) * hwh
  · apply QLineF.intersects_snd_of_num_zero _ _ _ _ h2
    simp only [QRectF.centre, QRectF.topRight, QRectF.bottomRight]
    linear_combination (1 / 2 : K) * hwh
  · apply QLineF.intersects_snd_of_num_zero _ _ _ _ h3
    simp only [QRectF.centre, QRectF.bottomRight, QRectF.bottomLeft]
    linear_combination (1 / 2 : K) * hwh
  · apply QLineF.intersects_snd_of_num_zero _ _ _ _ h4
    simp only [QRectF.centre, QRectF.bottomLeft, QRectF.topLeft]
    linear_combination (1 / 2 : K) * hwh
  · rfl

/-- A target that coincides with the center: the segment has no direction, every side test
reports no intersection, and `calculateRectangleIntersection` returns the center. -/
theorem rectangle_target_eq_center (rect : QRectF K) (c : QPointF K) :
    calculateRectangleIntersection rect c c = c := by
  have hp : ∀ (l : QLineF K) (p : QPointF K),
      QLineF.intersects ⟨c, c⟩ l p = (IntersectionType.NoIntersection, p) := by
    intro l p
    apply intersects_parallel
    simp
  unfold calculateRectangleIntersection
  simp only [hp]
  rw [if_neg (by decide), if_neg (by decide), if_neg (by decide), if_neg (by decide)]

/-- The ellipse case returns the center on a box of zero width or height and on a target that
coincides with the center, before any division by a computed value. -/
theorem ellipse_degenerate (sqrt : K → K) (rect : QRectF K) (c target : QPointF K)
    (h : rect.w = 0 ∨ rect.h = 0 ∨ target = c) :
    calculateEllipseIntersection sqrt rect c target = c := by
  unfold calculateEllipseIntersection
  simp only [QRectF.width, QRectF.height]
  rcases h with h | h | h
  · rw [if_pos (Or.inl (by rw [h]; simp))]
  · rw [if_pos (Or.inr (by rw [h]; simp))]
  · subst h
    split_ifs with h1 h2
    · rfl
    · rfl
    · exact absurd ⟨sub_self _, sub_self _⟩ h2

/-- The rounded-rectangle case on a target that coincides with the center. -/
theorem roundedRect_target_eq_center (rect : QRectF K) (c : QPointF K) :
    calculateRoundedRectIntersection rect c c = c := by
  unfold calculateRoundedRectIntersection
  simp only [rectangle_target_eq_center]
  split_ifs <;> rfl

/-- The rounded-rectangle case on a box of zero width or height whose other size is not
negative: the radius is zero, the inset box is the box, and both branches return the
centre. -/
theorem roundedRect_zero_size (rect : QRectF K) (target : QPointF K) (hw : 0 ≤ rect.w)
    (hh : 0 ≤ rect.h) (h0 : rect.w = 0 ∨ rect.h = 0) :
    calculateRoundedRectIntersection rect rect.centre target = rect.centre := by
  have hmin : min rect.w rect.h = 0 := by
    rcases h0 with h | h
    · rw [h]
      exact min_eq_left (h ▸ hh)
    · rw [h]
      exact min_eq_right (h ▸ hw)
  have hadj : rect.adjusted (0 : K) 0 (-0) (-0) = rect := by
    cases rect
    simp [QRectF.adjusted]
  unfold calculateRoundedRectIntersection
  simp only [QRectF.width, QRectF.height, hmin, zero_div, hadj, rectangle_zero_size rect target h0]
  split_ifs <;> rfl

/-- The three shape variants on degenerate input: a box of zero width or height whose other
size is not negative, or a target that coincides with the center, the center being the centre
of the box. `calculateIntersectionPoint` returns the centre. -/
theorem degenerate_returns_center (sqrt : K → K) (rect : QRectF K) (target : QPointF K)
    (shape : NodeShape)
    (h : (0 ≤ rect.w ∧ 0 ≤ rect.h ∧ (rect.w = 0 ∨ rect.h = 0)) ∨ target = rect.centre) :
    calculateIntersectionPoint sqrt rect rect.centre target shape = rect.centre := by
  cases shape
  · show calculateRectangleIntersection rect rect.centre target = rect.centre
    rcases h with ⟨-, -, h0⟩ | h
    · exact rectangle_zero_size rect target h0
    · rw [h]
      exact rectangle_target_eq_center rect _
  · show calculateEllipseIntersection sqrt rect rect.centre target = rect.centre
    apply ellipse_degenerate
    rcases h with ⟨-, -, h0 | h0⟩ | h
    · exact Or.inl h0
    · exact Or.inr (Or.inl h0)
    · exact Or.inr (Or.inr h)
  · show calculateRoundedRectIntersection rect rect.centre target = rect.centre
    rcases h with ⟨hw, hh, h0⟩ | h
    · exact roundedRect_zero_size rect target hw hh h0
    · rw [h]
      exact roundedRect_target_eq_center rect _

end GraphicsEdge

/-- C21, at an input where the code departs from it. The box `(0, 0, 0, -40)` has zero
width; its centre is `(0, -20)`; the target is `(100, -20)`. For the shape `RoundedRect`,
`calculateIntersectionPoint` returns `(10, -20)` and not the centre: the radius
`min(0, -40) / 4` is negative, the box "inset" by it has positive width, and the point of its
side is accepted. The shapes `Rectangle` and `Ellipse` return the centre on the same input. -/
theorem degenerate_roundedRect_off_center :
    (⟨0, 0, 0, -40⟩ : QRectF ℚ).centre = ⟨0, -20⟩ ∧
    GraphicsEdge.calculateIntersectionPoint (fun _ => (0 : ℚ)) ⟨0, 0, 0, -40⟩ ⟨0, -20⟩ ⟨100, -20⟩
      NodeShape.RoundedRect = ⟨10, -20⟩ ∧
    GraphicsEdge.calculateIntersectionPoint (fun _ => (0 : ℚ)) ⟨0, 0, 0, -40⟩ ⟨0, -20⟩ ⟨100, -20⟩
      NodeShape.Rectangle = ⟨0, -20⟩ ∧
    GraphicsEdge.calculateIntersectionPoint (fun _ => (0 : ℚ)) ⟨0, 0, 0, -40⟩ ⟨0, -20⟩ ⟨100, -20⟩
      NodeShape.Ellipse = ⟨0, -20⟩ := by
  have hne : ¬IntersectionType.NoIntersection = IntersectionType.BoundedIntersection := by
    decide
  refine ⟨by norm_num [QRectF.centre], ?_, ?_, ?_⟩
  · norm_num [GraphicsEdge.calculateIntersectionPoint, GraphicsEdge.calculateRoundedRectIntersection,
      GraphicsEdge.calculateRectangleIntersection, QLineF.intersects, QRectF.adjusted,
      QRectF.contains, QRectF.centre, QRectF.width, QRectF.height, QRectF.topLeft,
      QRectF.topRight, QRectF.bottomLeft, QRectF.bottomRight, hne]
  · norm_num [GraphicsEdge.calculateIntersectionPoint,
      GraphicsEdge.calculateRectangleIntersection, QLineF.intersects, QRectF.adjusted,
      QRectF.contains, QRectF.centre, QRectF.width, QRectF.height, QRectF.topLeft,
      QRectF.topRight, QRectF.bottomLeft, QRectF.bottomRight, hne]
  · norm_num [GraphicsEdge.calculateIntersectionPoint,
      GraphicsEdge.calculateEllipseIntersection, QRectF.width, QRectF.height]

/-! ## Edge geometry: the two examples -/

/-- The rectangle example, in any ordered field. -/
theorem GraphicsEdge.rectangle_example_aux {K : Type} [LinearOrderedField K] (X : K) (hX : 50 ≤ X) :
    GraphicsEdge.calculateRectangleIntersection (⟨-50, -25, 100, 50⟩ : QRectF K) ⟨0, 0⟩ ⟨X, 0⟩ =
      ⟨50, 0⟩ := by
  have hXpos : (0 : K) < X := lt_of_lt_of_le (by norm_num) hX
  have hX0 : X ≠ 0 := ne_of_gt hXpos
  have htop : QLineF.intersects (⟨⟨0, 0⟩, ⟨X, 0⟩⟩ : QLineF K)
      ⟨(⟨-50, -25, 100, 50⟩ : QRectF K).topLeft, (⟨-50, -25, 100, 50⟩ : QRectF K).topRight⟩
      ⟨0, 0⟩ = (IntersectionType.NoIntersection, ⟨0, 0⟩) := by
    apply GraphicsEdge.intersects_parallel
    simp only [QRectF.topLeft, QRectF.topRight]
    ring
  have hright : QLineF.intersects (⟨⟨0, 0⟩, ⟨X, 0⟩⟩ : QLineF K)
      ⟨(⟨-50, -25, 100, 50⟩ : QRectF K).topRight, (⟨-50, -25, 100, 50⟩ : QRectF K).bottomRight⟩
      ⟨0, 0⟩ = (IntersectionType.BoundedIntersection, ⟨50, 0⟩) := by
    unfold QLineF.intersects
    simp only [QRectF.topRight, QRectF.bottomRight]
    have hden : ¬((0 - 0) * (-50 + 100 - (-50 + 100)) - (X - 0) * (-25 - (-25 + 50)) = (0 : K)) := by
      intro h
      apply hX0
      linarith
    have hna : ¬(((-25 - (-25 + 50)) * (0 - (-50 + 100)) - (-50 + 100 - (-50 + 100)) * (0 - -25)) *
        (1 / ((0 - 0) * (-50 + 100 - (-50 + 100)) - (X - 0) * (-25 - (-25 + 50))))  < (0 : K) ∨
        ((-25 - (-25 + 50)) * (0 - (-50 + 100)) - (-50 + 100 - (-50 + 100)) * (0 - -25)) *
        (1 / ((0 - 0) * (-50 + 100 - (-50 + 100)) - (X - 0) * (-25 - (-25 + 50)))) > (1 : K)) := by
      have e : ((-25 - (-25 + 50)) * (0 - (-50 + 100)) - (-50 + 100 - (-50 + 100)) * (0 - -25)) *
        (1 / ((0 - 0) * (-50 + 100 - (-50 + 100)) - (X - 0) * (-25 - (-25 + 50)))) = 50 / X := by
        field_simp
        ring
      rw [e, not_or, not_lt, not_lt]
      exact ⟨div_nonneg (by norm_num) hXpos.le, (div_le_one hXpos).2 hX⟩
    have hnb : ¬(((X - 0) * (0 - -25) - (0 - 0) * (0 - (-50 + 100))) *
        (1 / ((0 - 0) * (-50 + 100 - (-50 + 100)) - (X - 0) * (-25 - (-25 + 50))))  < (0 : K) ∨
        ((X - 0) * (0 - -25) - (0 - 0) * (0 - (-50 + 100))) *
        (1 / ((0 - 0) * (-50 + 100 - (-50 + 100)) - (X - 0) * (-25 - (-25 + 50)))) > (1 : K)) := by
      have e : ((X - 0) * (0 - -25) - (0 - 0) * (0 - (-50 + 100))) *
        (1 / ((0 - 0) * (-50 + 100 - (-50 + 100)) - (X - 0) * (-25 - (-25 + 50)))) = 1 / 2 := by
        field_simp
        ring
      rw [e, not_or, not_lt, not_lt]
      constructor <;> norm_num
    rw [if_neg hden, if_neg hna, if_neg hnb]
    simp only [Prod.mk.injEq, QPointF.mk.injEq, true_and]
    constructor
    · field_simp
      ring
    · ring
  unfold GraphicsEdge.calculateRectangleIntersection
  simp only [htop]
  rw [if_neg (by decide)]
  simp only [hright, if_true]

/-- In double precision the two examples of the anchors hold at the targets `(100, 0)` and
`(0, -100)`: the anchors are `(50, 0)` and `(0, -25)`. -/
theorem Ieee.examples_at_100 :
    Ieee.GraphicsEdge.calculateRectangleIntersection boxExampleDouble (pointDouble 0 0)
      (pointDouble 100 0) = pointDouble 50 0 ∧
    Ieee.GraphicsEdge.calculateEllipseIntersection boxExampleDouble (pointDouble 0 0)
      (pointDouble 0 (-100)) = pointDouble 0 (-25) := by
  decide!

/-- In double precision, for every integer `X` from `50` to `80`, the rectangle example
with the target `(X, 0)` returns `(50, 0)` or one of its two neighbours among the doubles,
`(50 - 2⁻⁴⁷, 0)` and `(50 + 2⁻⁴⁷, 0)`. -/
theorem Ieee.rectangle_example_integer_targets :
    ∀ n ∈ List.range 31,
      Ieee.GraphicsEdge.calculateRectangleIntersection boxExampleDouble (pointDouble 0 0)
          (pointDouble (50 + (n : ℚ)) 0) ∈
        [pointDouble 50 0, pointDouble (50 - 1 / 2 ^ 47) 0, pointDouble (50 + 1 / 2 ^ 47) 0] := by
  decide!

/-- In double precision, for every integer `Y` from `1` to `30`, the ellipse example with
the target `(0, -Y)` returns `(0, -25)` or a point that differs from it by `2⁻⁴⁸` in `y`. -/
theorem Ieee.ellipse_example_integer_targets :
    ∀ n ∈ List.range 30,
      Ieee.GraphicsEdge.calculateEllipseIntersection boxExampleDouble (pointDouble 0 0)
          (pointDouble 0 (-(1 + (n : ℚ)))) ∈
        [pointDouble 0 (-25), pointDouble 0 (-(25 + 1 / 2 ^ 48)),
          pointDouble 0 (-(25 - 1 / 2 ^ 48))] := by
  decide!

/-- C22 as stated fails in the double arithmetic of the code. For the box with top-left
`(-50, -25)`, width `100` and height `50`, seen from its centre `(0, 0)`:
at the target `(53, 0)` the parameter `na` of the crossing with the right side is the
rounded product of `2500` and the rounded reciprocal of `2650`, and
`calculateRectangleIntersection` returns `(50 - 2⁻⁴⁷, 0)`, the double next below `50`
(`49.99999999999999`); at the target `(2 ^ 1020, 0)` both denominators that are not zero
overflow, no side is found, and the center `(0, 0)` is returned. -/
theorem rectangle_example_fails_in_double :
    Ieee.GraphicsEdge.calculateRectangleIntersection boxExampleDouble (pointDouble 0 0)
      (pointDouble 53 0) = pointDouble (50 - 1 / 2 ^ 47) 0 ∧
    Ieee.GraphicsEdge.calculateRectangleIntersection boxExampleDouble (pointDouble 0 0)
      (pointDouble 53 0) ≠ pointDouble 50 0 ∧
    Ieee.GraphicsEdge.calculateRectangleIntersection boxExampleDouble (pointDouble 0 0)
      (pointDouble (twoPow 1020) 0) = pointDouble 0 0 ∧
    Ieee.GraphicsEdge.calculateRectangleIntersection boxExampleDouble (pointDouble 0 0)
      (pointDouble (twoPow 1020) 0) ≠ pointDouble 50 0 := by
  decide!

/-- C22, amended: in exact arithmetic (in any ordered field, the real numbers among them),
for the box with top-left `(-50, -25)`, width `100` and height `50` (centre `(0, 0)`) and
every target `(X, 0)` with `X ≥ 50`, `calculateRectangleIntersection` returns `(50, 0)`. -/
theorem rectangle_example {K : Type} [LinearOrderedField K] (X : K) (hX : 50 ≤ X) :
    GraphicsEdge.calculateRectangleIntersection (⟨-50, -25, 100, 50⟩ : QRectF K) ⟨0, 0⟩ ⟨X, 0⟩ =
      ⟨50, 0⟩ :=
  GraphicsEdge.rectangle_example_aux X hX

theorem rectangle_example_witness :
    (50 : ℚ) ≤ 200 ∧
      GraphicsEdge.calculateRectangleIntersection (⟨-50, -25, 100, 50⟩ : QRectF ℚ) ⟨0, 0⟩
        ⟨200, 0⟩ = ⟨50, 0⟩ :=
  ⟨by norm_num, rectangle_example (200 : ℚ) (by norm_num)⟩

namespace GraphicsEdge

variable {K : Type} [LinearOrderedField K]

/-- The ellipse example with any square root that is right at the one value it is applied
to. -/
theorem ellipse_example_aux (sqrt : K → K) (Y : K) (hY : 0 < Y)
    (hsqrt : 0 ≤ sqrt (Y * Y / 625) ∧ sqrt (Y * Y / 625) * sqrt (Y * Y / 625) = Y * Y / 625) :
    calculateEllipseIntersection sqrt ⟨-50, -25, 100, 50⟩ ⟨0, 0⟩ ⟨0, -Y⟩ = ⟨0, -25⟩ := by
  have harg : ((0 : K) - 0) * (0 - 0) / (100 / 2 * (100 / 2)) +
      (-Y - 0) * (-Y - 0) / (50 / 2 * (50 / 2)) = Y * Y / 625 := by
    field_simp
    ring
  have hs : sqrt (Y * Y / 625) = Y / 25 := by
    have h25 : (0 : K) ≤ Y / 25 := div_nonneg hY.le (by norm_num)
    have hsq : sqrt (Y * Y / 625) * sqrt (Y * Y / 625) = Y / 25 * (Y / 25) := by
      rw [hsqrt.2]
      field_simp
      ring
    rcases mul_self_eq_mul_self_iff.1 hsq with h | h
    · exact h
    · have h0 : Y / 25 = 0 := by linarith [hsqrt.1]
      rw [h, h0, neg_zero]
  have hY0 : Y ≠ 0 := ne_of_gt hY
  unfold calculateEllipseIntersection
  simp only [QRectF.width, QRectF.height]
  rw [if_neg (by norm_num), if_neg (by simp [hY0]), harg, hs]
  simp only [QPointF.mk.injEq]
  constructor
  · ring
  · field_simp

/-- The ellipse example over the real numbers with the real square root. -/
theorem ellipse_example_real (Y : ℝ) (hY : 0 < Y) :
    calculateEllipseIntersection Real.sqrt ⟨-50, -25, 100, 50⟩ ⟨0, 0⟩ ⟨0, -Y⟩ = ⟨0, -25⟩ :=
  ellipse_example_aux Real.sqrt Y hY
    ⟨Real.sqrt_nonneg _, Real.mul_self_sqrt (div_nonneg (mul_self_nonneg Y) (by norm_num))⟩

end GraphicsEdge

/-- C23 as stated fails in the double arithmetic of the code. For the box with top-left
`(-50, -25)`, width `100` and height `50`, seen from its centre `(0, 0)`: at the target
`(0, -11)` the quotient `121 / 625`, its square root and the reciprocal of the root are each
rounded, and `calculateEllipseIntersection` returns `(0, -(25 + 2⁻⁴⁸))`, the double next
beyond `-25` (`-25.000000000000004`); at the target `(0, -2⁻⁶⁰⁰)` the square `dy * dy`
underflows to zero, `t` is `1 / 0`, an infinity, and the point returned is `(NaN, -∞)`. -/
theorem ellipse_example_fails_in_double :
    Ieee.GraphicsEdge.calculateEllipseIntersection boxExampleDouble (pointDouble 0 0)
      (pointDouble 0 (-11)) = pointDouble 0 (-(25 + 1 / 2 ^ 48)) ∧
    Ieee.GraphicsEdge.calculateEllipseIntersection boxExampleDouble (pointDouble 0 0)
      (pointDouble 0 (-11)) ≠ pointDouble 0 (-25) ∧
    Ieee.GraphicsEdge.calculateEllipseIntersection boxExampleDouble (pointDouble 0 0)
      (pointDouble 0 (-twoPow (-600))) = ⟨Double.nan, Double.inf true⟩ := by
  decide!

/-- C23, amended: in exact arithmetic, for the box with top-left `(-50, -25)`, width `100`
and height `50` (`a = 50`, `b = 25`, centre `(0, 0)`) and every target `(0, -Y)` with
`Y > 0`, `calculateEllipseIntersection` returns `(0, -25)`. Exact arithmetic is any ordered
field with a `sqrt` that returns the non-negative square root of the value `Y² / 625` it is
applied to (as the real square root does, see `GraphicsEdge.ellipse_example_real`). -/
theorem ellipse_example {K : Type} [LinearOrderedField K] (sqrt : K → K) (Y : K) (hY : 0 < Y)
    (hsqrt : 0 ≤ sqrt (Y * Y / 625) ∧ sqrt (Y * Y / 625) * sqrt (Y * Y / 625) = Y * Y / 625) :
    GraphicsEdge.calculateEllipseIntersection sqrt ⟨-50, -25, 100, 50⟩ ⟨0, 0⟩ ⟨0, -Y⟩ =
      ⟨0, -25⟩ :=
  GraphicsEdge.ellipse_example_aux sqrt Y hY hsqrt

theorem ellipse_example_witness :
    (0 : ℚ) < 25 ∧
      GraphicsEdge.calculateEllipseIntersection (fun _ => (1 : ℚ)) ⟨-50, -25, 100, 50⟩ ⟨0, 0⟩
        ⟨0, -25⟩ = ⟨0, -25⟩ :=
  ⟨by norm_num, ellipse_example (fun _ => (1 : ℚ)) 25 (by norm_num) (by norm_num)⟩

/-! ## Edge geometry: the rounded rectangle on the inset box and the fallback -/

namespace GraphicsEdge
variable {K : Type} [LinearOrderedField K]

end GraphicsEdge

/-- `MapModel::removeNode` never changes the edge table: when the store's `removeNode` has
succeeded, the store has no edge of the node left, so the loop over the related edges has
nothing to go through. -/
theorem MapModel.removeNode_edgeModel (m : MapModel) (hwf : m.m_conceptMap.WF) (id : String) :
    (m.removeNode id).2.m_edgeModel = m.m_edgeModel := by
  unfold MapModel.removeNode
  simp only []
  cases hr : (m.m_conceptMap.removeNode id).1 with
  | false => simp
  | true =>
    have hp : m.m_conceptMap.hasNode id = true := by
      rw [ConceptMap.removeNode_fst] at hr
      exact hr
    have hnone : (m.m_conceptMap.removeNode id).2.edgesByNodeId id = [] := by
      rw [edgesByNodeId_eq_filter, ConceptMap.edges, (ConceptMap.removeNode_spec hwf hp).2.2]
      rw [List.filter_filter]
      apply List.filter_eq_nil_iff.2
      intro e _
      simp
      tauto
    simp [hnone]

/-- C30, at an input where the code departs from it. The model `modelABe` holds nodes `n1`,
`n2` and the edge `e1` from `n1` to `n2` in its store and in its tables. `removeNode("n1")`
returns `true`; afterwards the store has no edge, and the edge table still lists `e1`, whose
source is `n1`: the related edges are asked of the store after the store has dropped them. -/
theorem removeNode_leaves_edge_table_stale :
    (modelABe.m_conceptMap.nodes = modelABe.m_nodeModel.m_nodes ∧
      modelABe.m_conceptMap.edges = modelABe.m_edgeModel.edges) ∧
    (modelABe.removeNode "n1").1 = true ∧
    (modelABe.removeNode "n1").2.m_conceptMap.edges = [] ∧
    (modelABe.removeNode "n1").2.m_edgeModel.edges = [edgeAB] ∧
    edgeAB.sourceNodeId = "n1" ∧
    (modelABe.removeNode "n1").2.m_edgeModel.edges ≠
      (modelABe.removeNode "n1").2.m_conceptMap.edges := by
  refine ⟨⟨by decide, by decide⟩, by decide, by decide, by decide, rfl, by decide⟩

/-! ## The edge-creation gesture -/

namespace GraphicsScene

/-- The selection half of a press writes neither the store nor the members of the
edge-creation gesture. -/
theorem selectItemAt_frame (sc : GraphicsScene) (event : QGraphicsSceneMouseEvent)
    (item : Option SceneItem) :
    (sc.selectItemAt event item).m_conceptMap = sc.m_conceptMap ∧
    (sc.selectItemAt event item).m_isCreatingEdge = sc.m_isCreatingEdge ∧
    (sc.selectItemAt event item).m_edgeSourceNode = sc.m_edgeSourceNode ∧
    (sc.selectItemAt event item).m_tempEdgeLine = sc.m_tempEdgeLine ∧
    (sc.selectItemAt event item).m_isDragging = sc.m_isDragging := by
  unfold selectItemAt
  rcases item with _ | ⟨id | id | _⟩
  · exact ⟨rfl, rfl, rfl, rfl, rfl⟩
  · simp only []
    split_ifs <;> exact ⟨rfl, rfl, rfl, rfl, rfl⟩
  · simp only []
    split_ifs <;> exact ⟨rfl, rfl, rfl, rfl, rfl⟩
  · exact ⟨rfl, rfl, rfl, rfl, rfl⟩

/-- The base-class press writes neither the store nor the members of the edge-creation
gesture. -/
theorem baseMousePressEvent_frame (sc : GraphicsScene) (event : QGraphicsSceneMouseEvent)
    (item : Option SceneItem) :
    (sc.baseMousePressEvent event item).m_conceptMap = sc.m_conceptMap ∧
    (sc.baseMousePressEvent event item).m_isCreatingEdge = sc.m_isCreatingEdge ∧
    (sc.baseMousePressEvent event item).m_edgeSourceNode = sc.m_edgeSourceNode ∧
    (sc.baseMousePressEvent event item).m_tempEdgeLine = sc.m_tempEdgeLine ∧
    (sc.baseMousePressEvent event item).m_isDragging = sc.m_isDragging := by
  unfold baseMousePressEvent
  rcases item with _ | ⟨id | id | _⟩ <;> exact ⟨rfl, rfl, rfl, rfl, rfl⟩

/-- The base-class move writes only the node registry. -/
theorem baseMouseMoveEvent_frame (dragged : List (String × QPointF ℚ)) (sc : GraphicsScene) :
    (sc.baseMouseMoveEvent dragged).m_conceptMap = sc.m_conceptMap ∧
    (sc.baseMouseMoveEvent dragged).m_isCreatingEdge = sc.m_isCreatingEdge ∧
    (sc.baseMouseMoveEvent dragged).m_edgeSourceNode = sc.m_edgeSourceNode ∧
    (sc.baseMouseMoveEvent dragged).m_graphicsEdges = sc.m_graphicsEdges := by
  unfold baseMouseMoveEvent
  induction dragged generalizing sc with
  | nil => exact ⟨rfl, rfl, rfl, rfl⟩
  | cons d rest ih =>
    simp only [List.foldl_cons]
    obtain ⟨h1, h2, h3, h4⟩ := ih
      { sc with m_graphicsNodes := QMap.update sc.m_graphicsNodes d.1 (fun g => g.setPos d.2) }
    exact ⟨h1, h2, h3, h4⟩

/-- A press keeps the creating flag and the source pointer in step. -/
theorem press_flag_iff (sc : GraphicsScene) (event : QGraphicsSceneMouseEvent)
    (item : Option SceneItem)
    (h : sc.m_isCreatingEdge = true ↔ sc.m_edgeSourceNode.isSome = true) :
    (sc.mousePressEvent event item).m_isCreatingEdge = true ↔
      (sc.mousePressEvent event item).m_edgeSourceNode.isSome = true := by
  have hrest : ∀ sc1 : GraphicsScene, sc1.m_isCreatingEdge = sc.m_isCreatingEdge →
      sc1.m_edgeSourceNode = sc.m_edgeSourceNode →
      (((sc1.baseMousePressEvent event item).selectItemAt event item).m_isCreatingEdge = true ↔
        ((sc1.baseMousePressEvent event item).selectItemAt event item).m_edgeSourceNode.isSome
          = true) := by
    intro sc1 e1 e2
    rw [(selectItemAt_frame _ event item).2.1, (selectItemAt_frame _ event item).2.2.1,
      (baseMousePressEvent_frame _ event item).2.1,
      (baseMousePressEvent_frame _ event item).2.2.1, e1, e2]
    exact h
  unfold mousePressEvent
  simp only []
  by_cases hb : event.button = MouseButton.LeftButton
  · simp only [hb, if_true, true_and]
    by_cases hs : event.shiftModifier = true
    · simp only [hs, if_true]
      rcases item with _ | ⟨id | id | _⟩
      · exact hrest _ rfl rfl
      · simp only []
        cases hg : graphicsNodeById { sc with m_isDragging := true } id with
        | none => exact hrest _ rfl rfl
        | some node => simp
      · exact hrest _ rfl rfl
      · exact hrest _ rfl rfl
    · simp only [hs, if_false]
      exact hrest _ rfl rfl
  · simp only [hb, if_false, false_and]
    exact hrest _ rfl rfl

/-- A move writes neither the creating flag nor the source pointer. -/
theorem move_flags (sc : GraphicsScene) (event : QGraphicsSceneMouseEvent)
    (dragged : List (String × QPointF ℚ)) :
    (sc.mouseMoveEvent event dragged).m_isCreatingEdge = sc.m_isCreatingEdge ∧
      (sc.mouseMoveEvent event dragged).m_edgeSourceNode = sc.m_edgeSourceNode := by
  unfold mouseMoveEvent
  split_ifs
  · cases sc.m_edgeSourceNode.bind sc.graphicsNodeById <;> exact ⟨rfl, rfl⟩
  · exact ⟨(baseMouseMoveEvent_frame dragged sc).2.1, (baseMouseMoveEvent_frame dragged sc).2.2.1⟩

/-- `GraphicsScene::addEdge` writes only the store and the edge registry. -/
theorem addEdge_frame (st : GraphicsScene) (e : ConceptEdge) :
    (st.addEdge e).2.m_tempEdgeLine = st.m_tempEdgeLine ∧
    (st.addEdge e).2.m_graphicsNodes = st.m_graphicsNodes := by
  unfold addEdge
  cases st.graphicsNodeById e.sourceNodeId <;> cases st.graphicsNodeById e.targetNodeId <;>
    exact ⟨rfl, rfl⟩

/-- The look at the item under the pointer writes neither the preview line nor the node
registry. -/
theorem createEdgeAt_frame (sc : GraphicsScene) (item : Option SceneItem) (uuid : String) :
    (sc.createEdgeAt item uuid).m_tempEdgeLine = sc.m_tempEdgeLine ∧
    (sc.createEdgeAt item uuid).m_graphicsNodes = sc.m_graphicsNodes := by
  unfold createEdgeAt
  rcases item with _ | ⟨id | id | _⟩
  · exact ⟨rfl, rfl⟩
  · simp only []
    cases sc.graphicsNodeById id with
    | none => exact ⟨rfl, rfl⟩
    | some targetNode =>
      simp only []
      split_ifs
      · cases sc.m_edgeSourceNode.bind sc.graphicsNodeById with
        | none => exact ⟨rfl, rfl⟩
        | some sourceNode => exact addEdge_frame _ _
      · exact ⟨rfl, rfl⟩
  · exact ⟨rfl, rfl⟩
  · exact ⟨rfl, rfl⟩

/-- A release that is handled while an edge is being created ends with the flag cleared, no
source node and no preview line. -/
theorem release_resets (sc : GraphicsScene) (event : QGraphicsSceneMouseEvent)
    (item : Option SceneItem) (uuid : String) (h : sc.m_isCreatingEdge = true) :
    (sc.mouseReleaseEvent event item uuid).m_isCreatingEdge = false ∧
    (sc.mouseReleaseEvent event item uuid).m_edgeSourceNode = none ∧
    (sc.mouseReleaseEvent event item uuid).m_tempEdgeLine = none := by
  unfold mouseReleaseEvent
  rw [if_pos h]
  exact ⟨rfl, rfl, (createEdgeAt_frame _ item uuid).1⟩

/-- A release keeps the creating flag and the source pointer in step. -/
theorem release_flag_iff (sc : GraphicsScene) (event : QGraphicsSceneMouseEvent)
    (item : Option SceneItem) (uuid : String)
    (h : sc.m_isCreatingEdge = true ↔ sc.m_edgeSourceNode.isSome = true) :
    (sc.mouseReleaseEvent event item uuid).m_isCreatingEdge = true ↔
      (sc.mouseReleaseEvent event item uuid).m_edgeSourceNode.isSome = true := by
  by_cases hc : sc.m_isCreatingEdge = true
  · obtain ⟨h1, h2, -⟩ := release_resets sc event item uuid hc
    rw [h1, h2]
    simp
  · unfold mouseReleaseEvent
    rw [if_neg hc]
    split_ifs <;> exact h

/-- In every reachable state the creating flag is set exactly when a source node is
recorded. -/
theorem reachable_flag_iff {sc : GraphicsScene} (h : sc.EventReachable) :
    sc.m_isCreatingEdge = true ↔ sc.m_edgeSourceNode.isSome = true := by
  induction h with
  | init => simp [mk0]
  | press sc event item _ ih => exact press_flag_iff sc event item ih
  | move sc event dragged _ ih =>
    rw [(move_flags sc event dragged).1, (move_flags sc event dragged).2]
    exact ih
  | release sc event item uuid _ ih => exact release_flag_iff sc event item uuid ih
  | other sc sc' _ e1 e2 ih =>
    rw [e1, e2]
    exact ih

end GraphicsScene

namespace GraphicsScene

/-- `GraphicsScene::addEdge` when both endpoints have a visual node. -/
theorem addEdge_of_nodes (st : GraphicsScene) (e : ConceptEdge) (gs gt : GraphicsNode)
    (hs : st.graphicsNodeById e.sourceNodeId = some gs)
    (ht : st.graphicsNodeById e.targetNodeId = some gt) :
    st.addEdge e = (some (GraphicsEdge.new e gs gt), { st with
      m_graphicsEdges := QMap.insert st.m_graphicsEdges e.id (GraphicsEdge.new e gs gt)
      m_conceptMap := (st.m_conceptMap.addEdge e).2 }) := by
  simp only [addEdge, hs, ht]

/-- The look at the item under the pointer when it is a registered node other than the
recorded source node. -/
theorem createEdgeAt_commit (st : GraphicsScene) (uuid : String) (gs gt : GraphicsNode)
    (hsrc : st.m_edgeSourceNode = some gs.id) (hs : st.graphicsNodeById gs.id = some gs)
    (ht : st.graphicsNodeById gt.id = some gt) (hne : gt.id ≠ gs.id) :
    st.createEdgeAt (some (SceneItem.node gt.id)) uuid =
      (st.addEdge (ConceptEdge.new uuid gs.id gt.id "连接" ⟨100, 100, 100, 255⟩)).2 := by
  have hne' : some gt.id ≠ st.m_edgeSourceNode := by
    rw [hsrc]
    exact fun e => hne (Option.some.inj e)
  have hb : st.m_edgeSourceNode.bind st.graphicsNodeById = some gs := by
    rw [hsrc]
    exact hs
  unfold createEdgeAt
  simp only []
  rw [ht]
  simp only []
  rw [if_pos hne', hb]

/-- What a release over a node other than the source node does while an edge is being
created, in a scene whose store is well formed and in lockstep with the registries: the new
edge is appended to the store and registered, and nothing else of the store or of the
registries changes. -/
theorem release_commit (sc : GraphicsScene) (event : QGraphicsSceneMouseEvent)
    (uuid : String) (gs gt : GraphicsNode) (hwf : sc.m_conceptMap.WF) (hl : sc.Lockstep)
    (hc : sc.m_isCreatingEdge = true) (hsrc : sc.m_edgeSourceNode = some gs.id)
    (hs : sc.graphicsNodeById gs.id = some gs) (ht : sc.graphicsNodeById gt.id = some gt)
    (hne : gt.id ≠ gs.id) (hfresh : sc.m_conceptMap.hasEdge uuid = false) :
    (sc.mouseReleaseEvent event (some (SceneItem.node gt.id)) uuid).m_conceptMap.nodes =
      sc.m_conceptMap.nodes ∧
    (sc.mouseReleaseEvent event (some (SceneItem.node gt.id)) uuid).m_conceptMap.edges =
      sc.m_conceptMap.edges ++
        [ConceptEdge.new uuid gs.id gt.id "连接" ⟨100, 100, 100, 255⟩] ∧
    (sc.mouseReleaseEvent event (some (SceneItem.node gt.id)) uuid).m_graphicsNodes =
      sc.m_graphicsNodes ∧
    (sc.mouseReleaseEvent event (some (SceneItem.node gt.id)) uuid).m_graphicsEdges =
      QMap.insert sc.m_graphicsEdges uuid
        (GraphicsEdge.new (ConceptEdge.new uuid gs.id gt.id "连接" ⟨100, 100, 100, 255⟩) gs gt) ∧
    sc.graphicsEdgeById uuid = none := by
  have hns : sc.m_conceptMap.hasNode gs.id = true := by
    rw [ConceptMap.hasNode_iff hwf, ← hl.1 gs.id, hs]
    rfl
  have hnt : sc.m_conceptMap.hasNode gt.id = true := by
    rw [ConceptMap.hasNode_iff hwf, ← hl.1 gt.id, ht]
    rfl
  have hreg : sc.graphicsEdgeById uuid = none := by
    cases hg : sc.graphicsEdgeById uuid with
    | none => rfl
    | some g =>
      have := (hl.2 uuid).1 (by rw [hg]; rfl)
      rw [← ConceptMap.hasEdge_iff hwf, hfresh] at this
      cases this
  have hstore := ConceptMap.addEdge_of_ok
    (s := sc.m_conceptMap) (e := ConceptEdge.new uuid gs.id gt.id "连接" ⟨100, 100, 100, 255⟩)
    hfresh hns hnt
  have hval : sc.mouseReleaseEvent event (some (SceneItem.node gt.id)) uuid =
      { (({ sc with m_tempEdgeLine := none } : GraphicsScene).addEdge
          (ConceptEdge.new uuid gs.id gt.id "连接" ⟨100, 100, 100, 255⟩)).2 with
        m_isCreatingEdge := false
        m_edgeSourceNode := none } := by
    unfold mouseReleaseEvent
    rw [if_pos hc]
    simp only []
    rw [createEdgeAt_commit { sc with m_tempEdgeLine := none } uuid gs gt hsrc hs ht hne]
  rw [hval, addEdge_of_nodes { sc with m_tempEdgeLine := none }
    (ConceptEdge.new uuid gs.id gt.id "连接" ⟨100, 100, 100, 255⟩) gs gt hs ht]
  simp only [hstore, ConceptMap.nodes, ConceptMap.edges]
  exact ⟨trivial, trivial, trivial, rfl, hreg⟩

/-- A release over the source node itself, over an edge, over another item or over the empty
canvas, while an edge is being created, leaves the store and both registries as they are. -/
theorem release_cancel (sc : GraphicsScene) (event : QGraphicsSceneMouseEvent)
    (uuid : String) (s : String) (item : Option SceneItem)
    (hsrc : sc.m_edgeSourceNode = some s)
    (hitem : item = some (SceneItem.node s) ∨ (∃ k, item = some (SceneItem.edge k)) ∨
      item = some SceneItem.other ∨ item = none) :
    (sc.mouseReleaseEvent event item uuid).m_conceptMap = sc.m_conceptMap ∧
    (sc.mouseReleaseEvent event item uuid).m_graphicsNodes = sc.m_graphicsNodes ∧
    (sc.mouseReleaseEvent event item uuid).m_graphicsEdges = sc.m_graphicsEdges := by
  have hcreate : ∀ st : GraphicsScene, st.m_edgeSourceNode = some s →
      st.createEdgeAt item uuid = st := by
    intro st hst
    unfold createEdgeAt
    rcases hitem with h | ⟨k, h⟩ | h | h
    · subst h
      simp only []
      cases st.graphicsNodeById s with
      | none => rfl
      | some targetNode =>
        simp only [hst, ne_eq, not_true_eq_false, if_false]
    · subst h
      rfl
    · subst h
      rfl
    · subst h
      rfl
  unfold mouseReleaseEvent
  split_ifs
  · simp only []
    rw [hcreate { sc with m_tempEdgeLine := none } hsrc]
    exact ⟨rfl, rfl, rfl⟩
  · exact ⟨rfl, rfl, rfl⟩
  · exact ⟨rfl, rfl, rfl⟩

end GraphicsScene

namespace GraphicsScene

/-- The sample scene in the middle of a gesture has the store and the registries of
`sceneABe`, so its store is well formed and in lockstep with its registries. -/
theorem sceneDragging_lockstep : sceneDragging.m_conceptMap.WF ∧ sceneDragging.Lockstep := by
  have e1 : sceneDragging.m_conceptMap = sceneABe.m_conceptMap := by decide
  have e2 : sceneDragging.m_graphicsNodes = sceneABe.m_graphicsNodes := by decide
  have e3 : sceneDragging.m_graphicsEdges = sceneABe.m_graphicsEdges := by decide
  refine ⟨e1 ▸ sceneABe_inv.1, ?_⟩
  have h := sceneABe_inv.2.2
  unfold Lockstep graphicsNodeById graphicsEdgeById at h ⊢
  rw [e1, e2, e3]
  exact h

/-- The sample scene in the middle of a gesture is reachable: the scene `sceneABe` is built
by operations that leave the gesture alone, and a press with Shift on node A follows. -/
theorem sceneDragging_reachable : sceneDragging.EventReachable :=
  EventReachable.press sceneABe shiftPress (some (SceneItem.node "n1"))
    (EventReachable.other mk0 sceneABe EventReachable.init (by decide) (by decide))

end GraphicsScene

/-- C24: for every scene whose store is well formed and in lockstep with the registries and
that is in state DraggingNewEdge with source node `s`, a release over a node `t` other than
`s` adds exactly one edge, with source `s.id` and target `t.id`, to the store (appended to
`edges()`, `nodes()` as before) and to the edge registry (under its identifier, which had no
entry), and leaves the node registry as it is; a release over `s` itself, over an edge, over
another item or over the empty canvas leaves the store and both registries unchanged. The
identifier of the new edge is the one the generator yields, taken to be unused. -/
theorem edge_drag_commit_cancel (sc : GraphicsScene) (event : QGraphicsSceneMouseEvent)
    (uuid : String) (s t : GraphicsNode) (hwf : sc.m_conceptMap.WF) (hl : sc.Lockstep)
    (hc : sc.m_isCreatingEdge = true) (hsrc : sc.m_edgeSourceNode = some s.id)
    (hs : sc.graphicsNodeById s.id = some s) (ht : sc.graphicsNodeById t.id = some t)
    (hne : t.id ≠ s.id) (hfresh : sc.m_conceptMap.hasEdge uuid = false) :
    ((sc.mouseReleaseEvent event (some (SceneItem.node t.id)) uuid).m_conceptMap.nodes =
        sc.m_conceptMap.nodes ∧
      (sc.mouseReleaseEvent event (some (SceneItem.node t.id)) uuid).m_conceptMap.edges =
        sc.m_conceptMap.edges ++
          [ConceptEdge.new uuid s.id t.id "连接" ⟨100, 100, 100, 255⟩] ∧
      (sc.mouseReleaseEvent event (some (SceneItem.node t.id)) uuid).m_graphicsNodes =
        sc.m_graphicsNodes ∧
      (sc.mouseReleaseEvent event (some (SceneItem.node t.id)) uuid).m_graphicsEdges =
        QMap.insert sc.m_graphicsEdges uuid
          (GraphicsEdge.new (ConceptEdge.new uuid s.id t.id "连接" ⟨100, 100, 100, 255⟩) s t) ∧
      sc.graphicsEdgeById uuid = none) ∧
    ∀ item : Option SceneItem,
      (item = some (SceneItem.node s.id) ∨ (∃ k, item = some (SceneItem.edge k)) ∨
        item = some SceneItem.other ∨ item = none) →
      (sc.mouseReleaseEvent event item uuid).m_conceptMap = sc.m_conceptMap ∧
      (sc.mouseReleaseEvent event item uuid).m_graphicsNodes = sc.m_graphicsNodes ∧
      (sc.mouseReleaseEvent event item uuid).m_graphicsEdges = sc.m_graphicsEdges :=
  ⟨GraphicsScene.release_commit sc event uuid s t hwf hl hc hsrc hs ht hne hfresh,
    fun item hitem => GraphicsScene.release_cancel sc event uuid s.id item hsrc hitem⟩

theorem edge_drag_commit_cancel_witness :
    (sceneDragging.mouseReleaseEvent leftClick (some (SceneItem.node "n2"))
        "e2").m_conceptMap.edges =
      sceneDragging.m_conceptMap.edges ++
        [ConceptEdge.new "e2" "n1" "n2" "连接" ⟨100, 100, 100, 255⟩] ∧
    (sceneDragging.mouseReleaseEvent leftClick none "e2").m_conceptMap =
      sceneDragging.m_conceptMap :=
  have h := edge_drag_commit_cancel sceneDragging leftClick "e2" (GraphicsNode.new nodeA)
    (GraphicsNode.new nodeB) GraphicsScene.sceneDragging_lockstep.1
    GraphicsScene.sceneDragging_lockstep.2 (by decide) (by decide) (by decide) (by decide)
    (by decide) (by decide)
  ⟨h.1.2.1, (h.2 none (Or.inr (Or.inr (Or.inr rfl)))).1⟩

/-- C25: in every state reachable by press, move and release events the creating flag is set
if and only if a source node is recorded, and every release event handled in state
DraggingNewEdge ends in Idle: the creating flag is false, no source node is recorded and the
pointer to the preview segment is cleared, whatever lies under the pointer (commit or
cancel). -/
theorem edge_drag_state_machine (sc : GraphicsScene) (h : sc.EventReachable) :
    (sc.m_isCreatingEdge = true ↔ sc.m_edgeSourceNode.isSome = true) ∧
    ∀ (event : QGraphicsSceneMouseEvent) (item : Option SceneItem) (uuid : String),
      sc.m_isCreatingEdge = true →
        (sc.mouseReleaseEvent event item uuid).m_isCreatingEdge = false ∧
        (sc.mouseReleaseEvent event item uuid).m_edgeSourceNode = none ∧
        (sc.mouseReleaseEvent event item uuid).m_tempEdgeLine = none :=
  ⟨GraphicsScene.reachable_flag_iff h,
    fun event item uuid hc => GraphicsScene.release_resets sc event item uuid hc⟩

theorem edge_drag_state_machine_witness :
    (sceneDragging.m_isCreatingEdge = true ↔ sceneDragging.m_edgeSourceNode.isSome = true) ∧
    (sceneDragging.mouseReleaseEvent leftClick (some (SceneItem.node "n2"))
        "e2").m_isCreatingEdge = false ∧
    (sceneDragging.mouseReleaseEvent leftClick (some (SceneItem.node "n2"))
        "e2").m_edgeSourceNode = none ∧
    (sceneDragging.mouseReleaseEvent leftClick (some (SceneItem.node "n2"))
        "e2").m_tempEdgeLine = none :=
  have h := edge_drag_state_machine sceneDragging GraphicsScene.sceneDragging_reachable
  ⟨h.1, h.2 leftClick (some (SceneItem.node "n2")) "e2" (by decide)⟩

/-! ## Selection by click -/

namespace QMap
variable {V : Type}

/-- A lookup after every value has been rewritten by a function of its key. -/
theorem find?_map_entries (F : String → V → V) (m : QMap V) (k : String) :
    find? (m.map (fun p => (p.1, F p.1 p.2))) k = (find? m k).map (F k) := by
  induction m with
  | nil => rfl
  | cons q rest ih =>
    obtain ⟨a, b⟩ := q
    simp only [List.map_cons, find?]
    by_cases h : a = k
    · subst h
      simp
    · simp [h, ih]

/-- The values that pass a test after the values under one key have been rewritten to pass it
and all others to fail it: the rewritten value of that key alone. -/
theorem filter_values_select (sel : V → Bool) (setOn setOff : V → V) (hon : ∀ v, sel (setOn v) = true)
    (hoff : ∀ v, sel (setOff v) = false) (m : QMap V) (id : String) (g : V)
    (hnd : (keys m).Nodup) (hfind : find? m id = some g) :
    (values (m.map (fun p => (p.1, if p.1 = id then setOn p.2 else setOff p.2)))).filter sel =
      [setOn g] := by
  have hnone : ∀ rest : QMap V, id ∉ keys rest →
      (values (rest.map (fun p => (p.1, if p.1 = id then setOn p.2 else setOff p.2)))).filter sel =
        [] := by
    intro rest
    induction rest with
    | nil => intro _; rfl
    | cons q rest ih =>
      obtain ⟨a, b⟩ := q
      intro hk
      have ha : a ≠ id := fun e => hk (by simp [keys, e])
      have hr : id ∉ keys rest := fun e => hk (by
        unfold keys at e ⊢
        exact List.mem_cons_of_mem _ e)
      have := ih hr
      unfold values at this ⊢
      simp only [List.map_cons, if_neg ha, List.filter_cons, hoff, Bool.false_eq_true, if_false]
      exact this
  induction m with
  | nil => simp [find?] at hfind
  | cons q rest ih =>
    obtain ⟨a, b⟩ := q
    have hnd' : a ∉ keys rest ∧ (keys rest).Nodup := by
      unfold keys at hnd ⊢
      simpa using hnd
    by_cases ha : a = id
    · subst ha
      have hb : b = g := by
        simp only [find?, if_true] at hfind
        exact Option.some.inj hfind
      subst hb
      have := hnone rest hnd'.1
      unfold values at this ⊢
      simp only [List.map_cons, if_true, List.filter_cons, hon]
      rw [this]
    · have hf : find? rest id = some g := by
        simp only [find?, if_neg ha] at hfind
        exact hfind
      have := ih hnd'.2 hf
      unfold values at this ⊢
      simp only [List.map_cons, if_neg ha, List.filter_cons, hoff, Bool.false_eq_true, if_false]
      exact this

end QMap

/-- The loop that appends the elements that pass a test is the filter. -/
theorem foldl_append_filter {α : Type} (p : α → Bool) (l acc : List α) :
    l.foldl (fun result a => if p a then result ++ [a] else result) acc = acc ++ l.filter p := by
  induction l generalizing acc with
  | nil => simp
  | cons a rest ih =>
    simp only [List.foldl_cons, List.filter_cons]
    by_cases h : p a = true
    · simp [h, ih]
    · simp [h, ih]

namespace GraphicsScene

theorem selectedNodes_eq_filter (sc : GraphicsScene) :
    sc.selectedNodes = (QMap.values sc.m_graphicsNodes).filter GraphicsNode.isSelectedNode := by
  unfold selectedNodes
  rw [foldl_append_filter]
  rfl

theorem selectedEdges_eq_filter (sc : GraphicsScene) :
    sc.selectedEdges = (QMap.values sc.m_graphicsEdges).filter GraphicsEdge.isSelectedEdge := by
  unfold selectedEdges
  rw [foldl_append_filter]
  rfl

/-- The node registry after a left click without Shift and Control on a node: the flag of
the node is set, the flag of every other node is cleared. The edge registry is as before. -/
theorem click_node_registry (sc : GraphicsScene) (event : QGraphicsSceneMouseEvent)
    (id : String) (hb : event.button = MouseButton.LeftButton)
    (hs : event.shiftModifier = false) (hc : event.controlModifier = false) :
    (sc.mousePressEvent event (some (SceneItem.node id))).m_graphicsNodes =
      sc.m_graphicsNodes.map (fun p =>
        (p.1, if p.1 = id then p.2.setSelectedNode true else p.2.setSelectedNode false)) ∧
    (sc.mousePressEvent event (some (SceneItem.node id))).m_graphicsEdges =
      sc.m_graphicsEdges := by
  unfold mousePressEvent
  simp only [hb, hs, if_true, Bool.false_eq_true, and_false, if_false, baseMousePressEvent,
    selectItemAt, hc, QMap.update, List.map_map, and_true]
  apply List.map_congr_left
  intro p _
  by_cases h : p.1 = id
  · simp [h, GraphicsNode.mousePressEvent, hb, GraphicsNode.setSelectedNode]
  · simp [h, GraphicsNode.setSelectedNode]

/-- The edge registry after a left click without Control on an edge. -/
theorem click_edge_registry (sc : GraphicsScene) (event : QGraphicsSceneMouseEvent)
    (id : String) (hb : event.button = MouseButton.LeftButton)
    (hc : event.controlModifier = false) :
    (sc.mousePressEvent event (some (SceneItem.edge id))).m_graphicsEdges =
      sc.m_graphicsEdges.map (fun p =>
        (p.1, if p.1 = id then p.2.setSelectedEdge true else p.2.setSelectedEdge false)) ∧
    (sc.mousePressEvent event (some (SceneItem.edge id))).m_graphicsNodes =
      sc.m_graphicsNodes := by
  unfold mousePressEvent
  simp only [hb, if_true, true_and, baseMousePressEvent, selectItemAt, hc, QMap.update,
    List.map_map, Bool.false_eq_true, if_false, ite_self, and_true]
  apply List.map_congr_left
  intro p _
  by_cases h : p.1 = id
  · simp [h, GraphicsEdge.mousePressEvent, hb, GraphicsEdge.setSelectedEdge]
  · simp [h, GraphicsEdge.setSelectedEdge]

/-- The node registry after a left click with Control and without Shift on a node: the flag
of the node is cleared, whatever it was, because the press handler of the node has set it
before the scene inverts it. -/
theorem ctrl_click_node_registry (sc : GraphicsScene) (event : QGraphicsSceneMouseEvent)
    (id : String) (hb : event.button = MouseButton.LeftButton)
    (hs : event.shiftModifier = false) (hc : event.controlModifier = true) :
    (sc.mousePressEvent event (some (SceneItem.node id))).m_graphicsNodes =
      sc.m_graphicsNodes.map (fun p =>
        (p.1, if p.1 = id then p.2.setSelectedNode false else p.2)) ∧
    (sc.mousePressEvent event (some (SceneItem.node id))).m_graphicsEdges =
      sc.m_graphicsEdges := by
  unfold mousePressEvent
  simp only [hb, hs, if_true, Bool.false_eq_true, and_false, if_false, baseMousePressEvent,
    selectItemAt, hc, QMap.update, List.map_map, and_true]
  apply List.map_congr_left
  intro p _
  by_cases h : p.1 = id
  · simp [h, GraphicsNode.mousePressEvent, hb, GraphicsNode.setSelectedNode,
      GraphicsNode.isSelectedNode]
  · simp [h]

/-- The edge registry after a left click with Control on an edge. -/
theorem ctrl_click_edge_registry (sc : GraphicsScene) (event : QGraphicsSceneMouseEvent)
    (id : String) (hb : event.button = MouseButton.LeftButton)
    (hc : event.controlModifier = true) :
    (sc.mousePressEvent event (some (SceneItem.edge id))).m_graphicsEdges =
      sc.m_graphicsEdges.map (fun p =>
        (p.1, if p.1 = id then p.2.setSelectedEdge false else p.2)) ∧
    (sc.mousePressEvent event (some (SceneItem.edge id))).m_graphicsNodes =
      sc.m_graphicsNodes := by
  unfold mousePressEvent
  simp only [hb, if_true, true_and, baseMousePressEvent, selectItemAt, hc, QMap.update,
    List.map_map, ite_self, and_true]
  apply List.map_congr_left
  intro p _
  by_cases h : p.1 = id
  · simp [h, GraphicsEdge.mousePressEvent, hb, GraphicsEdge.setSelectedEdge,
      GraphicsEdge.isSelectedEdge]
  · simp [h]

end GraphicsScene

namespace GraphicsScene

/-- A plain left click on a registered node: what a lookup in the node registry finds
afterwards, and what `selectedNodes()` returns. -/
theorem click_node_spec (sc : GraphicsScene) (event : QGraphicsSceneMouseEvent) (id : String)
    (g : GraphicsNode) (hb : event.button = MouseButton.LeftButton)
    (hs : event.shiftModifier = false) (hc : event.controlModifier = false)
    (hg : sc.graphicsNodeById id = some g) (hnd : (QMap.keys sc.m_graphicsNodes).Nodup) :
    (sc.mousePressEvent event (some (SceneItem.node id))).graphicsNodeById id =
      some (g.setSelectedNode true) ∧
    (∀ k, k ≠ id → (sc.mousePressEvent event (some (SceneItem.node id))).graphicsNodeById k =
      (sc.graphicsNodeById k).map (fun n => n.setSelectedNode false)) ∧
    (sc.mousePressEvent event (some (SceneItem.node id))).selectedNodes =
      [g.setSelectedNode true] ∧
    (sc.mousePressEvent event (some (SceneItem.node id))).m_graphicsEdges =
      sc.m_graphicsEdges := by
  obtain ⟨h1, h2⟩ := click_node_registry sc event id hb hs hc
  refine ⟨?_, ?_, ?_, h2⟩
  · unfold graphicsNodeById at hg ⊢
    rw [h1, QMap.find?_map_entries
      (fun (k : String) (n : GraphicsNode) =>
        if k = id then n.setSelectedNode true else n.setSelectedNode false), hg]
    simp
  · intro k hk
    unfold graphicsNodeById
    rw [h1, QMap.find?_map_entries
      (fun (k : String) (n : GraphicsNode) =>
        if k = id then n.setSelectedNode true else n.setSelectedNode false)]
    simp [hk]
  · rw [selectedNodes_eq_filter, h1]
    exact QMap.filter_values_select GraphicsNode.isSelectedNode
      (fun n => n.setSelectedNode true) (fun n => n.setSelectedNode false) (fun _ => rfl)
      (fun _ => rfl) sc.m_graphicsNodes id g hnd hg

/-- A plain left click on a registered edge, as for a node. -/
theorem click_edge_spec (sc : GraphicsScene) (event : QGraphicsSceneMouseEvent) (id : String)
    (g : GraphicsEdge) (hb : event.button = MouseButton.LeftButton)
    (hc : event.controlModifier = false)
    (hg : sc.graphicsEdgeById id = some g) (hnd : (QMap.keys sc.m_graphicsEdges).Nodup) :
    (sc.mousePressEvent event (some (SceneItem.edge id))).graphicsEdgeById id =
      some (g.setSelectedEdge true) ∧
    (∀ k, k ≠ id → (sc.mousePressEvent event (some (SceneItem.edge id))).graphicsEdgeById k =
      (sc.graphicsEdgeById k).map (fun n => n.setSelectedEdge false)) ∧
    (sc.mousePressEvent event (some (SceneItem.edge id))).selectedEdges =
      [g.setSelectedEdge true] ∧
    (sc.mousePressEvent event (some (SceneItem.edge id))).m_graphicsNodes =
      sc.m_graphicsNodes := by
  obtain ⟨h1, h2⟩ := click_edge_registry sc event id hb hc
  refine ⟨?_, ?_, ?_, h2⟩
  · unfold graphicsEdgeById at hg ⊢
    rw [h1, QMap.find?_map_entries
      (fun (k : String) (n : GraphicsEdge) =>
        if k = id then n.setSelectedEdge true else n.setSelectedEdge false), hg]
    simp
  · intro k hk
    unfold graphicsEdgeById
    rw [h1, QMap.find?_map_entries
      (fun (k : String) (n : GraphicsEdge) =>
        if k = id then n.setSelectedEdge true else n.setSelectedEdge false)]
    simp [hk]
  · rw [selectedEdges_eq_filter, h1]
    exact QMap.filter_values_select GraphicsEdge.isSelectedEdge
      (fun n => n.setSelectedEdge true) (fun n => n.setSelectedEdge false) (fun _ => rfl)
      (fun _ => rfl) sc.m_graphicsEdges id g hnd hg

/-- A left click with Control on a registered node or edge: afterwards the flag of the item
is cleared, whatever it was before, and every other entry of the two registries is as
before. -/
theorem ctrl_click_spec (sc : GraphicsScene) (event : QGraphicsSceneMouseEvent) (id : String)
    (hb : event.button = MouseButton.LeftButton) (hs : event.shiftModifier = false)
    (hc : event.controlModifier = true) :
    (∀ k, (sc.mousePressEvent event (some (SceneItem.node id))).graphicsNodeById k =
      if k = id then (sc.graphicsNodeById k).map (fun n => n.setSelectedNode false)
      else sc.graphicsNodeById k) ∧
    (sc.mousePressEvent event (some (SceneItem.node id))).m_graphicsEdges =
      sc.m_graphicsEdges ∧
    (∀ k, (sc.mousePressEvent event (some (SceneItem.edge id))).graphicsEdgeById k =
      if k = id then (sc.graphicsEdgeById k).map (fun n => n.setSelectedEdge false)
      else sc.graphicsEdgeById k) ∧
    (sc.mousePressEvent event (some (SceneItem.edge id))).m_graphicsNodes =
      sc.m_graphicsNodes := by
  obtain ⟨h1, h2⟩ := ctrl_click_node_registry sc event id hb hs hc
  obtain ⟨h3, h4⟩ := ctrl_click_edge_registry sc event id hb hc
  refine ⟨?_, h2, ?_, h4⟩
  · intro k
    unfold graphicsNodeById
    rw [h1, QMap.find?_map_entries (fun (k : String) (n : GraphicsNode) =>
        if k = id then n.setSelectedNode false else n)]
    by_cases hk : k = id
    · simp [hk]
    · simp only [hk, if_false]
      cases QMap.find? sc.m_graphicsNodes k <;> rfl
  · intro k
    unfold graphicsEdgeById
    rw [h3, QMap.find?_map_entries (fun (k : String) (n : GraphicsEdge) =>
        if k = id then n.setSelectedEdge false else n)]
    by_cases hk : k = id
    · simp [hk]
    · simp only [hk, if_false]
      cases QMap.find? sc.m_graphicsEdges k <;> rfl

end GraphicsScene

/-- C26 as stated fails. In the scene with nodes `n1`, `n2` and the edge `e1`, a plain click
on `e1` selects it; a plain click on node `n1` that follows leaves `n1` selected and `e1`
selected as well, so `selectedNodes()` and `selectedEdges()` together hold two items. -/
theorem plain_click_keeps_other_kind_selected :
    sceneEdgeClicked.selectedEdges.map GraphicsEdge.id = ["e1"] ∧
    (sceneEdgeClicked.mousePressEvent leftClick
      (some (SceneItem.node "n1"))).selectedNodes.map GraphicsNode.id = ["n1"] ∧
    (sceneEdgeClicked.mousePressEvent leftClick
      (some (SceneItem.node "n1"))).selectedEdges.map GraphicsEdge.id = ["e1"] ∧
    ¬((sceneEdgeClicked.mousePressEvent leftClick
          (some (SceneItem.node "n1"))).selectedNodes.map GraphicsNode.id ++
        (sceneEdgeClicked.mousePressEvent leftClick
          (some (SceneItem.node "n1"))).selectedEdges.map GraphicsEdge.id = ["n1"]) := by
  refine ⟨by decide, by decide, by decide, by decide⟩

/-- C26, amended: a left click without modifier on a registered node leaves that node
selected and every other node unselected, so that `selectedNodes()` holds exactly the clicked
node, and leaves the edges and their flags as they were; a left click without modifier on a
registered edge leaves that edge selected and every other edge unselected, so that
`selectedEdges()` holds exactly the clicked edge, and leaves the nodes and their flags as
they were. Each registry holds one entry per key. -/
theorem plain_click_selects_within_kind (sc : GraphicsScene) (event : QGraphicsSceneMouseEvent)
    (id : String) (hb : event.button = MouseButton.LeftButton)
    (hs : event.shiftModifier = false) (hc : event.controlModifier = false) :
    (∀ g : GraphicsNode, sc.graphicsNodeById id = some g →
      (QMap.keys sc.m_graphicsNodes).Nodup →
      (sc.mousePressEvent event (some (SceneItem.node id))).graphicsNodeById id =
        some (g.setSelectedNode true) ∧
      (∀ k, k ≠ id →
        (sc.mousePressEvent event (some (SceneItem.node id))).graphicsNodeById k =
          (sc.graphicsNodeById k).map (fun n => n.setSelectedNode false)) ∧
      (sc.mousePressEvent event (some (SceneItem.node id))).selectedNodes =
        [g.setSelectedNode true] ∧
      (sc.mousePressEvent event (some (SceneItem.node id))).m_graphicsEdges =
        sc.m_graphicsEdges) ∧
    (∀ g : GraphicsEdge, sc.graphicsEdgeById id = some g →
      (QMap.keys sc.m_graphicsEdges).Nodup →
      (sc.mousePressEvent event (some (SceneItem.edge id))).graphicsEdgeById id =
        some (g.setSelectedEdge true) ∧
      (∀ k, k ≠ id →
        (sc.mousePressEvent event (some (SceneItem.edge id))).graphicsEdgeById k =
          (sc.graphicsEdgeById k).map (fun n => n.setSelectedEdge false)) ∧
      (sc.mousePressEvent event (some (SceneItem.edge id))).selectedEdges =
        [g.setSelectedEdge true] ∧
      (sc.mousePressEvent event (some (SceneItem.edge id))).m_graphicsNodes =
        sc.m_graphicsNodes) :=
  ⟨fun g hg hnd => GraphicsScene.click_node_spec sc event id g hb hs hc hg hnd,
    fun g hg hnd => GraphicsScene.click_edge_spec sc event id g hb hc hg hnd⟩

theorem plain_click_selects_within_kind_witness :
    (sceneEdgeClicked.mousePressEvent leftClick (some (SceneItem.node "n1"))).selectedNodes =
      [(GraphicsNode.new nodeA).setSelectedNode true] ∧
    (sceneEdgeClicked.mousePressEvent leftClick (some (SceneItem.node "n1"))).m_graphicsEdges =
      sceneEdgeClicked.m_graphicsEdges :=
  have h := (plain_click_selects_within_kind sceneEdgeClicked leftClick "n1" rfl rfl rfl).1
    (GraphicsNode.new nodeA) (by decide) (by decide)
  ⟨h.2.2.1, h.2.2.2⟩

/-- C27, at an input where the code departs from it. In the scene that holds the unselected
node `n1`, a left click with Control on `n1` leaves it unselected: the press handler of the
node, which the base class calls first, selects it, and the scene then inverts the flag. The
same happens to the unselected edge `e1`. A selected item is unselected, as the claim says. -/
theorem ctrl_click_never_selects :
    (sceneA.graphicsNodeById "n1").map GraphicsNode.isSelectedNode = some false ∧
    ((sceneA.mousePressEvent ctrlClick (some (SceneItem.node "n1"))).graphicsNodeById
      "n1").map GraphicsNode.isSelectedNode = some false ∧
    (sceneA.mousePressEvent ctrlClick (some (SceneItem.node "n1"))).selectedNodes = [] ∧
    (sceneABe.graphicsEdgeById "e1").map GraphicsEdge.isSelectedEdge = some false ∧
    ((sceneABe.mousePressEvent ctrlClick (some (SceneItem.edge "e1"))).graphicsEdgeById
      "e1").map GraphicsEdge.isSelectedEdge = some false ∧
    (sceneEdgeClicked.graphicsEdgeById "e1").map GraphicsEdge.isSelectedEdge = some true ∧
    ((sceneEdgeClicked.mousePressEvent ctrlClick (some (SceneItem.edge "e1"))).graphicsEdgeById
      "e1").map GraphicsEdge.isSelectedEdge = some false := by
  refine ⟨by decide, by decide, by decide, by decide, by decide, by decide, by decide⟩

/-! ## Deleting the selection -/

namespace MainWindow

/-- Pushing a command whose identifier is `-1`: it is executed, the entries that were undone
go, and the command becomes the last entry. -/
theorem push_of_no_id (st : QUndoStack) (cmd : QUndoCommand) (scene : Option GraphicsScene)
    (hid : (cmd.redo scene).1.id = -1) :
    st.push cmd scene =
      ({ command_list := st.command_list.take st.index ++ [(cmd.redo scene).1]
         index := st.index + 1 }, (cmd.redo scene).2) := by
  unfold QUndoStack.push
  simp only []
  cases (if st.index > 0 then st.command_list[st.index - 1]? else none) with
  | none => rfl
  | some c =>
    simp only []
    rw [if_neg]
    rw [hid]
    exact fun h => h.1 h.2

/-- Pushing a `DeleteEdgeCommand`: the entries that were undone go, the command becomes the
last entry, and the scene is the one after `GraphicsScene::removeEdge`. -/
theorem pushCommand_deleteEdge (w : MainWindow) (c : DeleteEdgeCommand) :
    w.pushCommand (QUndoCommand.deleteEdge c) =
      { w with
        m_undoStack :=
          { command_list :=
              w.m_undoStack.command_list.take w.m_undoStack.index ++ [QUndoCommand.deleteEdge c]
            index := w.m_undoStack.index + 1 }
        m_scene := (w.m_scene.removeEdge c.m_edgeId).2 } := by
  unfold pushCommand
  rw [push_of_no_id w.m_undoStack (QUndoCommand.deleteEdge c) (some w.m_scene) rfl]
  rfl

/-- Pushing a `DeleteNodeCommand`, as for a `DeleteEdgeCommand`. -/
theorem pushCommand_deleteNode (w : MainWindow) (c : DeleteNodeCommand) :
    w.pushCommand (QUndoCommand.deleteNode c) =
      { w with
        m_undoStack :=
          { command_list :=
              w.m_undoStack.command_list.take w.m_undoStack.index ++ [QUndoCommand.deleteNode c]
            index := w.m_undoStack.index + 1 }
        m_scene := (w.m_scene.removeNode c.m_nodeId).2 } := by
  unfold pushCommand
  rw [push_of_no_id w.m_undoStack (QUndoCommand.deleteNode c) (some w.m_scene) rfl]
  rfl

theorem take_succ_append {α : Type} (l : List α) (i : Nat) (a : α) :
    (l.take i ++ [a]).take (i + 1) = l.take i ++ [a] := by
  apply List.take_of_length_le
  simp only [List.length_append, List.length_take, List.length_singleton]
  omega

/-- The first loop of `deleteSelected`. -/
theorem deleteEdges_loop (fe : ConceptEdge) (se : String → ConceptEdge) (l : List GraphicsEdge)
    (w : MainWindow) :
    ∃ es : List DeleteEdgeCommand,
      es.map (fun c => c.m_edgeId) = l.map GraphicsEdge.id ∧
      (l.foldl (fun st edge => st.pushCommand (QUndoCommand.deleteEdge
          (DeleteEdgeCommand.new (some st.m_scene) edge.id fe (se edge.id)))) w).m_undoStack =
        (if es = [] then w.m_undoStack else
          { command_list := w.m_undoStack.command_list.take w.m_undoStack.index ++
              es.map QUndoCommand.deleteEdge
            index := w.m_undoStack.index + es.length }) ∧
      (l.foldl (fun st edge => st.pushCommand (QUndoCommand.deleteEdge
          (DeleteEdgeCommand.new (some st.m_scene) edge.id fe (se edge.id)))) w).m_scene.m_graphicsNodes =
        w.m_scene.m_graphicsNodes := by
  induction l generalizing w with
  | nil => exact ⟨[], rfl, rfl, rfl⟩
  | cons a rest ih =>
    simp only [List.foldl_cons]
    rw [pushCommand_deleteEdge]
    obtain ⟨es, h1, h2, h3⟩ := ih
      { w with
        m_undoStack :=
          { command_list := w.m_undoStack.command_list.take w.m_undoStack.index ++
              [QUndoCommand.deleteEdge (DeleteEdgeCommand.new (some w.m_scene) a.id fe (se a.id))]
            index := w.m_undoStack.index + 1 }
        m_scene := (w.m_scene.removeEdge
          (DeleteEdgeCommand.new (some w.m_scene) a.id fe (se a.id)).m_edgeId).2 }
    refine ⟨DeleteEdgeCommand.new (some w.m_scene) a.id fe (se a.id) :: es, ?_, ?_, ?_⟩
    · simp only [List.map_cons, h1]
      rfl
    · rw [h2]
      simp only [take_succ_append]
      by_cases he : es = []
      · simp [he]
      · simp [he, Nat.add_assoc, Nat.add_comm 1]
    · rw [h3]
      exact GraphicsScene.removeEdge_nodeRegistry _ _

/-- The second loop of `deleteSelected`. -/
theorem deleteNodes_loop (fn : ConceptNode) (sn : String → ConceptNode) (l : List GraphicsNode)
    (w : MainWindow) :
    ∃ ns : List DeleteNodeCommand,
      ns.map (fun c => c.m_nodeId) = l.map GraphicsNode.id ∧
      (l.foldl (fun st node => st.pushCommand (QUndoCommand.deleteNode
          (DeleteNodeCommand.new (some st.m_scene) node.id fn (sn node.id)))) w).m_undoStack =
        (if ns = [] then w.m_undoStack else
          { command_list := w.m_undoStack.command_list.take w.m_undoStack.index ++
              ns.map QUndoCommand.deleteNode
            index := w.m_undoStack.index + ns.length }) := by
  induction l generalizing w with
  | nil => exact ⟨[], rfl, rfl⟩
  | cons a rest ih =>
    simp only [List.foldl_cons]
    rw [pushCommand_deleteNode]
    obtain ⟨ns, h1, h2⟩ := ih
      { w with
        m_undoStack :=
          { command_list := w.m_undoStack.command_list.take w.m_undoStack.index ++
              [QUndoCommand.deleteNode (DeleteNodeCommand.new (some w.m_scene) a.id fn (sn a.id))]
            index := w.m_undoStack.index + 1 }
        m_scene := (w.m_scene.removeNode
          (DeleteNodeCommand.new (some w.m_scene) a.id fn (sn a.id)).m_nodeId).2 }
    refine ⟨DeleteNodeCommand.new (some w.m_scene) a.id fn (sn a.id) :: ns, ?_, ?_⟩
    · simp only [List.map_cons, h1]
      rfl
    · rw [h2]
      simp only [take_succ_append]
      by_cases he : ns = []
      · simp [he]
      · simp [he, Nat.add_assoc, Nat.add_comm 1]

end MainWindow

/-- C28: for every selection, `MainWindow::deleteSelected` pushes exactly one
`DeleteEdgeCommand` per selected edge and exactly one `DeleteNodeCommand` per selected node
onto the undo stack, and every `DeleteEdgeCommand` is pushed before any `DeleteNodeCommand`:
the list of the stack afterwards is what the stack kept (all of it when nothing is selected,
the entries below the index otherwise), then the edge commands in the order of
`selectedEdges()`, then the node commands in the order of `selectedNodes()`. -/
theorem deleteSelected_pushes (w : MainWindow) (freshEdge : ConceptEdge)
    (staleEdge : String → ConceptEdge) (freshNode : ConceptNode)
    (staleNode : String → ConceptNode) :
    ∃ (es : List DeleteEdgeCommand) (ns : List DeleteNodeCommand),
      es.map (fun c => c.m_edgeId) = w.m_scene.selectedEdges.map GraphicsEdge.id ∧
      ns.map (fun c => c.m_nodeId) = w.m_scene.selectedNodes.map GraphicsNode.id ∧
      (w.deleteSelected freshEdge staleEdge freshNode staleNode).m_undoStack.command_list =
        (if es = [] ∧ ns = [] then w.m_undoStack.command_list
          else w.m_undoStack.command_list.take w.m_undoStack.index) ++
        es.map QUndoCommand.deleteEdge ++ ns.map QUndoCommand.deleteNode := by
  obtain ⟨es, e1, e2, e3⟩ := MainWindow.deleteEdges_loop freshEdge staleEdge
    w.m_scene.selectedEdges w
  have hsel : (w.m_scene.selectedEdges.foldl (fun st edge => st.pushCommand
      (QUndoCommand.deleteEdge
        (DeleteEdgeCommand.new (some st.m_scene) edge.id freshEdge (staleEdge edge.id))))
      w).m_scene.selectedNodes = w.m_scene.selectedNodes := by
    unfold GraphicsScene.selectedNodes
    rw [e3]
  obtain ⟨ns, n1, n2⟩ := MainWindow.deleteNodes_loop freshNode staleNode
    w.m_scene.selectedNodes
    (w.m_scene.selectedEdges.foldl (fun st edge => st.pushCommand
      (QUndoCommand.deleteEdge
        (DeleteEdgeCommand.new (some st.m_scene) edge.id freshEdge (staleEdge edge.id)))) w)
  refine ⟨es, ns, e1, n1, ?_⟩
  unfold MainWindow.deleteSelected
  simp only [hsel, n2, e2]
  by_cases he : es = [] <;> by_cases hn : ns = []
  · simp [he, hn]
  · simp [he, hn]
  · simp [he, hn]
  · have ht : (w.m_undoStack.command_list.take w.m_undoStack.index ++
          es.map QUndoCommand.deleteEdge).take (w.m_undoStack.index + es.length) =
        w.m_undoStack.command_list.take w.m_undoStack.index ++
          es.map QUndoCommand.deleteEdge := by
      apply List.take_of_length_le
      simp only [List.length_append, List.length_take, List.length_map]
      omega
    simp [he, hn, ht]

/-- On the window in which nodes `n1`, `n2` and their edge are all selected,
`deleteSelected` leaves three commands on the stack: the deletion of `e1`, then of `n1`, then
of `n2`; each holds what its constructor read (here the same values for all three), and the
node commands capture no edge, since the edge is gone when they are built. -/
theorem MainWindow.deleteSelected_windowAll :
    (windowAll.deleteSelected edgeAB (fun _ => edgeAB) nodeC
        (fun _ => nodeC)).m_undoStack.command_list =
      [QUndoCommand.deleteEdge ⟨"e1", edgeAB⟩, QUndoCommand.deleteNode ⟨"n1", nodeC, []⟩,
        QUndoCommand.deleteNode ⟨"n2", nodeC, []⟩] ∧
    (windowAll.deleteSelected edgeAB (fun _ => edgeAB) nodeC
        (fun _ => nodeC)).m_undoStack.index = 3 ∧
    (windowAll.deleteSelected edgeAB (fun _ => edgeAB) nodeC
        (fun _ => nodeC)).m_scene.m_conceptMap.nodes = [] := by
  refine ⟨by decide, by decide, by decide⟩

end Cmap
